import Mathlib

/-!
Verification of the map-metadata synchronization script
(scripts/js/src/sync_to_webflow.ts) against its natural-language
specification.  The script's pure computations are embedded as Lean
functions; the remote Webflow destination is modelled from the spec as an
explicit state, and the sync pipeline as a state-passing function that also
emits the sequence of mutating remote calls.
-/

namespace SyncWebflow

/-! ## JavaScript Map semantics

The script uses insertion-ordered JS Maps keyed by strings.  We embed them
as association lists with JS semantics: set replaces in place (keeping the
original position) or appends; the Map constructor applied to an entry list
keeps the first position and the last value for duplicated keys. -/

def jsGet {α : Type} (m : List (String × α)) (k : String) : Option α :=
  (m.find? (fun p => p.1 == k)).map (fun p => p.2)

def jsHas {α : Type} (m : List (String × α)) (k : String) : Bool :=
  m.any (fun p => p.1 == k)

def jsSet {α : Type} (m : List (String × α)) (k : String) (v : α) :
    List (String × α) :=
  if jsHas m k then m.map (fun p => if p.1 == k then (k, v) else p)
  else m ++ [(k, v)]

def jsDelete {α : Type} (m : List (String × α)) (k : String) :
    List (String × α) :=
  m.filter (fun p => p.1 != k)

def jsOfEntries {α : Type} (l : List (String × α)) : List (String × α) :=
  l.foldl (fun m p => jsSet m p.1 p.2) []

/-! ## Slug derivation

Embeds slugFromName:
name.toLowerCase().replace four classes of dot, space, underscore each with
a dash, then delete every character outside lowercase alphanumerics and
dash.  The regex character class replacement acts on each character
separately. -/

def isLowerAlnum (c : Char) : Bool :=
  (decide (97 ≤ c.toNat) && decide (c.toNat ≤ 122)) ||
  (decide (48 ≤ c.toNat) && decide (c.toNat ≤ 57))

def slugKeep (c : Char) : Bool :=
  isLowerAlnum c || c == '-'

def slugMapDash (c : Char) : Char :=
  if c == '.' || c == ' ' || c == '_' then '-' else c

def slugFromName (name : String) : String :=
  String.mk (((name.data.map Char.toLower).map slugMapDash).filter slugKeep)

/-- Modelled from the spec: the shape the specification claims for the slug
function — lowercase the name, collapse every run of consecutive
non-alphanumeric characters to one hyphen, and strip leading and trailing
non-alphanumerics.  Used only to compare the spec text with the code. -/
def slugSpecOfClaim (name : String) : String :=
  let mapped := (name.data.map Char.toLower).foldr
    (fun c acc =>
      if isLowerAlnum c then c :: acc
      else if acc.head? == some '-' then acc else '-' :: acc) []
  String.mk (((mapped.dropWhile (fun c => c == '-')).reverse.dropWhile
    (fun c => c == '-')).reverse)

/-! ## Image hashing and image reference resolution -/

structure WebflowImageRef where
  fileId : String
  url : String
deriving DecidableEq

/-- Embeds ImageHashesCache.getImageHash given a digest oracle h for the
bytes behind a url: null and the empty url hash to the empty string. -/
def getImageHash (h : String → String) : Option String → String
  | none => ""
  | some u => if u = "" then "" else h u

def sameImage (h : String → String) (u1 u2 : Option String) : Bool :=
  getImageHash h u1 == getImageHash h u2

/-- Lexicographic comparison of character lists by code point, embedding
the default JavaScript string sort order. -/
def charListLe : List Char → List Char → Bool
  | [], _ => true
  | _ :: _, [] => false
  | a :: as, b :: bs =>
    if a.val < b.val then true
    else if b.val < a.val then false
    else charListLe as bs

def strLe (a b : String) : Bool :=
  charListLe a.data b.data

def sortStrings (l : List String) : List String :=
  l.insertionSort (fun a b => strLe a b = true)

def sameImages (h : String → String) (urls1 urls2 : List String) : Bool :=
  if urls1.length != urls2.length then false
  else
    let h1 := sortStrings (urls1.map (fun u => getImageHash h (some u)))
    let h2 := sortStrings (urls2.map (fun u => getImageHash h (some u)))
    h1 == h2

def pickImage (h : String → String) (url : String)
    (base : Option WebflowImageRef) : String :=
  match base with
  | some b => if sameImage h (some url) (some b.url) then b.fileId else url
  | none => url

def pickImages (h : String → String) (urls : List String)
    (base : Option (List WebflowImageRef)) : List String :=
  let hBase := jsOfEntries ((base.getD []).map
    (fun i => (getImageHash h (some i.url), i.fileId)))
  urls.map (fun url =>
    match jsGet hBase (getImageHash h (some url)) with
    | some fid => if fid = "" then url else fid
    | none => url)

def isSameRefs (a b : List String) : Bool :=
  a.length == b.length && (a.zip b).all (fun p => p.1 == p.2)

/-! ## Collection items and the publish step -/

/-- Modelled from the spec: a destination collection item (the repository
consumes the shape from the external webflow-api package, which is not part
of the sources).  Timestamps are abstract instants; lastPublished is absent
for never-published items. -/
structure Item (F : Type) where
  id : String
  lastPublished : Option Nat
  lastUpdated : Nat
  fieldData : F
deriving DecidableEq

/-- Embeds the selection filter of publishUpdatedWebflowItems:
keep an item when lastPublished is missing or strictly older than
lastUpdated. -/
def publishPred {F : Type} (i : Item F) : Bool :=
  match i.lastPublished with
  | none => true
  | some p => decide (p < i.lastUpdated)

def publishUpdatedItemIds {F : Type} (items : List (Item F)) : List String :=
  (items.filter publishPred).map Item.id

/-- Helper for chunkList: structural recursion on a fuel that bounds the
list length. -/
def chunkListGo {α : Type} (n : Nat) : Nat → List α → List (List α)
  | _, [] => []
  | 0, _ :: _ => []
  | fuel + 1, x :: xs =>
    if n = 0 then []
    else (x :: xs).take n :: chunkListGo n fuel ((x :: xs).drop n)

/-- Embeds the chunking loop of publishUpdatedWebflowItems
(slices of chunkSize identifiers per publish call). -/
def chunkList {α : Type} (n : Nat) (l : List α) : List (List α) :=
  chunkListGo n l.length l

/-- Identifier batches published (one per remote publish call) for a
collection; empty in dry-run. -/
def publishBatches {F : Type} (items : List (Item F)) (dryRun : Bool) :
    List (List String) :=
  if dryRun then [] else chunkList 100 (publishUpdatedItemIds items)

/-! ## Tags, terrains and the tag vocabulary -/

structure WebsiteMapTag where
  name : String
  slug : String
deriving DecidableEq

/-- Embeds the JavaScript String toUpperCase as the character-wise upcase
of the string. -/
def jsToUpper (s : String) : String :=
  String.mk (s.data.map Char.toUpper)

/-- Embeds the tag-vocabulary accumulation loop of buildWebflowInfo: for
each discovered tag name, store the uppercased name under its slug in the
shared JS Map (Map.set semantics). -/
def accumulateTags (acc : List (String × WebsiteMapTag))
    (tags : List String) : List (String × WebsiteMapTag) :=
  tags.foldl
    (fun m tag => jsSet m (slugFromName tag)
      ⟨jsToUpper tag, slugFromName tag⟩) acc

/-! ## Source data model (schemas/map_list.yaml and the auxiliary data) -/

/-- One uploaded-file reference from the map_list schema; the sync script
only reads its storage ref. -/
structure UploadedFile where
  ref : String
deriving DecidableEq

/-- One source map record (title MapInfo in schemas/map_list.yaml),
restricted to the fields the sync script reads. -/
structure MapInfo where
  springName : String
  displayName : String
  author : String
  title : Option String
  description : Option String
  photo : List UploadedFile
  backgroundImage : List UploadedFile
  perspectiveShot : List UploadedFile
  inGameShots : List UploadedFile
  playerCount : Int
  teamCount : Int
deriving DecidableEq

/-- CDN info for one map (schemas cdn_maps): the sync script reads the
mirrors array. -/
structure MapCDNInfo where
  mirrors : List String
deriving DecidableEq

structure MetaLocation where
  bucket : String
  path : String
deriving DecidableEq

/-- Auxiliary per-map metadata fetched from the metadata cache: a storage
location and the list of extracted files. -/
structure MapMeta where
  location : MetaLocation
  extractedFiles : List String
deriving DecidableEq

/-- Modelled from the spec: the derived per-map info returned by
getDerivedInfo (derived_map_info.ts is not among the sources) — dimensions,
wind defaults, tidal strength, tag names and ordered terrain names.  The
numeric fields are dynamically typed in the script, so a missing (undefined)
value is represented as none. -/
structure DerivedInfo where
  width : Option Int
  height : Option Int
  windMin : Option Int
  windMax : Option Int
  tidalStrength : Option Int
  tags : List String
  terrainOrdered : List String
deriving DecidableEq

/-- Embeds WebsiteMapInfo, the internal canonical representation of one
map.  Fields that the script may leave undefined are Option (downloadUrl
and the numeric fields coming from the dynamically typed derived info);
fields that are null for absent optional data are also Option (title,
description, bgImageUrl, perspectiveShotUrl, tidalStrength).  mapSize is
none only when width or height is undefined, in which case the validation
fails at width or height before mapSize is ever consulted. -/
structure WebsiteMapInfo where
  name : String
  rowyId : String
  minimapUrl : String
  minimapThumbUrl : String
  downloadUrl : Option String
  width : Option Int
  height : Option Int
  mapSize : Option Int
  title : Option String
  description : Option String
  author : String
  bgImageUrl : Option String
  perspectiveShotUrl : Option String
  moreImagesUrl : List String
  windMin : Option Int
  windMax : Option Int
  tidalStrength : Option Int
  teamCount : Int
  maxPlayers : Int
  textureMapUrl : String
  heightMapUrl : String
  metalMapUrl : String
  mapTags : List String
  mapTerrains : List String
deriving DecidableEq

/-! ## Canonical record builder (buildWebflowInfo) -/

def imagorUrlBase : String := "https://maps-metadata.beyondallreason.dev/i/"

def rowyBucket : String := "rowy-1f075.appspot.com"

def requiredExtractedFiles : List String := ["height.png", "metal.png", "texture.jpg"]

/-- Embeds the object literal construction of the canonical info record
inside buildWebflowInfo; enc is the URL escaping function (encodeURI). -/
def buildOneMapInfo (enc : String → String) (rowyId : String) (map : MapInfo)
    (mi : MapCDNInfo) (meta : MapMeta) (derivedInfo : DerivedInfo)
    (photo0 : UploadedFile) : WebsiteMapInfo :=
  { name := map.displayName
    rowyId := rowyId
    minimapUrl := imagorUrlBase ++ "fit-in/1024x1024/filters:format(webp):quality(85)/"
      ++ rowyBucket ++ "/" ++ enc photo0.ref
    minimapThumbUrl := imagorUrlBase ++ "fit-in/640x640/filters:format(webp):quality(85)/"
      ++ rowyBucket ++ "/" ++ enc photo0.ref
    downloadUrl := mi.mirrors.head?
    width := derivedInfo.width
    height := derivedInfo.height
    mapSize := match derivedInfo.width, derivedInfo.height with
      | some w, some ht => some (w * ht)
      | _, _ => none
    title := match map.title with
      | some t => if t = "" then none else some t
      | none => none
    description := match map.description with
      | some d => if d = "" then none else some d
      | none => none
    author := map.author
    bgImageUrl := match map.backgroundImage.head? with
      | some f => some (imagorUrlBase ++ "fit-in/2250x/filters:format(webp):quality(85)/"
          ++ rowyBucket ++ "/" ++ enc f.ref)
      | none => none
    perspectiveShotUrl := match map.perspectiveShot.head? with
      | some f => some (imagorUrlBase ++ "fit-in/2250x/filters:format(webp):quality(85)/"
          ++ rowyBucket ++ "/" ++ enc f.ref)
      | none => none
    moreImagesUrl := map.inGameShots.map (fun i =>
      imagorUrlBase ++ "fit-in/2250x/filters:format(webp):quality(85)/"
        ++ rowyBucket ++ "/" ++ enc i.ref)
    windMin := derivedInfo.windMin
    windMax := derivedInfo.windMax
    tidalStrength := derivedInfo.tidalStrength
    teamCount := map.teamCount
    maxPlayers := map.playerCount
    textureMapUrl := imagorUrlBase ++ "fit-in/1024x1024/filters:format(webp):quality(85)/"
      ++ meta.location.bucket ++ "/" ++ enc (meta.location.path ++ "/texture.jpg")
    heightMapUrl := imagorUrlBase ++ "fit-in/1024x1024/filters:format(webp):quality(85)/"
      ++ meta.location.bucket ++ "/" ++ enc (meta.location.path ++ "/height.png")
    metalMapUrl := imagorUrlBase ++ "fit-in/1024x1024/filters:format(png)/"
      ++ meta.location.bucket ++ "/" ++ enc (meta.location.path ++ "/metal.png")
    mapTags := derivedInfo.tags
    mapTerrains := derivedInfo.terrainOrdered }

/-- Embeds the sanity-check loop at the end of buildWebflowInfo: report the
first key, in object insertion order, whose value is undefined or the empty
string.  Numbers, nulls, and arrays always pass; mapSize is a number (NaN
when a factor is undefined) and never fails the check itself. -/
def firstInvalidKey (i : WebsiteMapInfo) : Option String :=
  if i.name = "" then some "name"
  else if i.rowyId = "" then some "rowyId"
  else if i.minimapUrl = "" then some "minimapUrl"
  else if i.minimapThumbUrl = "" then some "minimapThumbUrl"
  else if i.downloadUrl = none ∨ i.downloadUrl = some "" then some "downloadUrl"
  else if i.width = none then some "width"
  else if i.height = none then some "height"
  else if i.title = some "" then some "title"
  else if i.description = some "" then some "description"
  else if i.author = "" then some "author"
  else if i.bgImageUrl = some "" then some "bgImageUrl"
  else if i.perspectiveShotUrl = some "" then some "perspectiveShotUrl"
  else if i.windMin = none then some "windMin"
  else if i.windMax = none then some "windMax"
  else if i.textureMapUrl = "" then some "textureMapUrl"
  else if i.heightMapUrl = "" then some "heightMapUrl"
  else if i.metalMapUrl = "" then some "metalMapUrl"
  else none

/-- Embeds the per-map body of the buildWebflowInfo loop: CDN lookup,
metadata lookup, required-file assertions, derived info, tag accumulation,
record construction and the final undefined-or-empty check. -/
def buildOneStep (enc : String → String) (derive : MapInfo → MapMeta → DerivedInfo)
    (cdnInfo : List (String × MapCDNInfo)) (mapsMetadata : List (String × MapMeta))
    (rowyId : String) (map : MapInfo)
    (allMapTags : List (String × WebsiteMapTag)) :
    Except String (WebsiteMapInfo × List (String × WebsiteMapTag)) :=
  match jsGet cdnInfo map.springName with
  | none => .error ("Missing download url for " ++ map.springName)
  | some mi =>
    match jsGet mapsMetadata rowyId with
    | none => .error ("TypeError: missing metadata for " ++ rowyId)
    | some meta =>
      if !(requiredExtractedFiles.all (fun f => meta.extractedFiles.contains f)) then
        .error ("AssertionError: missing extracted file for " ++ map.springName)
      else
        let derivedInfo := derive map meta
        let allMapTags1 := accumulateTags allMapTags derivedInfo.tags
        match map.photo with
        | [] => .error ("TypeError: missing photo for " ++ map.springName)
        | photo0 :: _ =>
          let info := buildOneMapInfo enc rowyId map mi meta derivedInfo photo0
          match firstInvalidKey info with
          | some k => .error ("Missing value for map " ++ map.springName ++ " key " ++ k)
          | none => .ok (info, allMapTags1)

/-- Recursion of buildWebflowInfo over the source map entries. -/
def buildWebflowInfoGo (enc : String → String)
    (derive : MapInfo → MapMeta → DerivedInfo)
    (cdnInfo : List (String × MapCDNInfo)) (mapsMetadata : List (String × MapMeta)) :
    List (String × MapInfo) → List (String × WebsiteMapInfo) →
    List (String × WebsiteMapTag) →
    Except String (List (String × WebsiteMapInfo) × List (String × WebsiteMapTag))
  | [], mapInfo, allMapTags => .ok (mapInfo, allMapTags)
  | (rowyId, map) :: rest, mapInfo, allMapTags =>
    match buildOneStep enc derive cdnInfo mapsMetadata rowyId map allMapTags with
    | .error e => .error e
    | .ok (info, allMapTags1) =>
      buildWebflowInfoGo enc derive cdnInfo mapsMetadata rest
        (jsSet mapInfo rowyId info) allMapTags1

/-- Embeds buildWebflowInfo: builds the canonical records keyed by rowyId
together with the accumulated tag vocabulary, failing on the first map with
missing CDN info, missing metadata or extracted files, or an
undefined/empty constructed field. -/
def buildWebflowInfo (enc : String → String)
    (derive : MapInfo → MapMeta → DerivedInfo)
    (maps : List (String × MapInfo))
    (cdnInfo : List (String × MapCDNInfo))
    (mapsMetadata : List (String × MapMeta)) :
    Except String (List (String × WebsiteMapInfo) × List (String × WebsiteMapTag)) :=
  buildWebflowInfoGo enc derive cdnInfo mapsMetadata maps [] []

/-! ## Webflow native representation -/

/-- Tag and terrain field data; the read and write shapes coincide. -/
structure TagFields where
  name : String
  slug : String
deriving DecidableEq

/-- Embeds WebflowMapFieldsRead (webflow_types.ts): every non-name field
may be absent on a destination item. -/
structure WebflowMapFieldsRead where
  name : String
  slug : String
  rowyid : Option String
  minimap : Option WebflowImageRef
  minimapPhotoThumb : Option WebflowImageRef
  downloadurl : Option String
  width : Option Int
  height : Option Int
  mapsize : Option Int
  title : Option String
  description : Option String
  author : Option String
  bgImage : Option WebflowImageRef
  perspectiveShot : Option WebflowImageRef
  moreImages : Option (List WebflowImageRef)
  windMin : Option Int
  windMax : Option Int
  tidalStrength : Option Int
  teamCount : Option Int
  maxPlayers : Option Int
  miniMap : Option WebflowImageRef
  heightMap : Option WebflowImageRef
  metalMap : Option WebflowImageRef
  gameTags : Option (List String)
  terrainTypes : Option (List String)
deriving DecidableEq

/-- Embeds WebflowMapFieldsWrite: image fields carry either a desired URL
or an existing asset file id, as produced by pickImage and pickImages. -/
structure WebflowMapFieldsWrite where
  name : String
  slug : String
  rowyid : String
  minimap : String
  minimapPhotoThumb : String
  downloadurl : Option String
  width : Option Int
  height : Option Int
  mapsize : Option Int
  title : Option String
  description : Option String
  author : String
  bgImage : Option String
  perspectiveShot : Option String
  moreImages : List String
  windMin : Option Int
  windMax : Option Int
  tidalStrength : Option Int
  teamCount : Int
  maxPlayers : Int
  miniMap : String
  heightMap : String
  metalMap : String
  gameTags : List String
  terrainTypes : List String
deriving DecidableEq

/-! ## Read helpers (reqR and friends) -/

def reqR {α : Type} (n : Option α) (def_ : α) : α :=
  match n with
  | none => def_
  | some v => v

def optR {α : Type} (n : Option α) : Option α :=
  n

def reqRNum (n : Option Int) : Int :=
  reqR n (-1)

def reqRStr (n : Option String) : String :=
  reqR n ""

def reqRArr {α : Type} (n : Option (List α)) : List α :=
  reqR n []

/-- Embeds the WebflowMapTag and WebflowMapTerrain classes: the native item
together with the name and slug copied out of its field data. -/
structure WebflowMapTag where
  name : String
  slug : String
  item : Item TagFields
deriving DecidableEq

def WebflowMapTag.ofItem (it : Item TagFields) : WebflowMapTag :=
  ⟨it.fieldData.name, it.fieldData.slug, it⟩

def isWebsiteMapTagEqual (a : WebsiteMapTag) (b : WebflowMapTag) : Bool :=
  a.name == b.name && a.slug == b.slug

def isWebsiteMapTerrainEqual (a : WebsiteMapTag) (b : WebflowMapTag) : Bool :=
  a.name == b.name && a.slug == b.slug

/-- WebflowMapTag.generateFields and WebflowMapTerrain.generateFields. -/
def tagGenerateFields (tag : WebsiteMapTag) : TagFields :=
  ⟨tag.name, tag.slug⟩

/-- Embeds the WebflowMapInfo class: the internal fields read out of a
native item, plus the item itself. -/
structure WebflowMapInfo extends WebsiteMapInfo where
  item : Item WebflowMapFieldsRead
deriving DecidableEq

/-- The internal fields read out of native map field data: absent required
numbers read as -1, absent required strings as the empty string, absent
arrays as the empty list, absent optional fields as null. -/
def readWebsiteInfo (fd : WebflowMapFieldsRead) : WebsiteMapInfo :=
  { name := fd.name
    rowyId := reqRStr fd.rowyid
    minimapUrl := reqRStr (fd.minimap.map (fun i => i.url))
    minimapThumbUrl := reqRStr (fd.minimapPhotoThumb.map (fun i => i.url))
    downloadUrl := some (reqRStr fd.downloadurl)
    width := some (reqRNum fd.width)
    height := some (reqRNum fd.height)
    mapSize := some (reqRNum fd.mapsize)
    title := optR fd.title
    description := optR fd.description
    author := reqRStr fd.author
    bgImageUrl := optR (fd.bgImage.map (fun i => i.url))
    perspectiveShotUrl := optR (fd.perspectiveShot.map (fun i => i.url))
    moreImagesUrl := reqRArr (fd.moreImages.map (fun l => l.map (fun i => i.url)))
    windMin := some (reqRNum fd.windMin)
    windMax := some (reqRNum fd.windMax)
    tidalStrength := optR fd.tidalStrength
    teamCount := reqRNum fd.teamCount
    maxPlayers := reqRNum fd.maxPlayers
    textureMapUrl := reqRStr (fd.miniMap.map (fun i => i.url))
    heightMapUrl := reqRStr (fd.heightMap.map (fun i => i.url))
    metalMapUrl := reqRStr (fd.metalMap.map (fun i => i.url))
    mapTags := reqRArr fd.gameTags
    mapTerrains := reqRArr fd.terrainTypes }

/-- Embeds the WebflowMapInfo constructor. -/
def WebflowMapInfo.ofItem (it : Item WebflowMapFieldsRead) : WebflowMapInfo :=
  { toWebsiteMapInfo := readWebsiteInfo it.fieldData, item := it }

/-- Embeds isWebflowMapInfoEqual: image fields compared by digest, scalar
fields exactly, reference lists element for element. -/
def isWebflowMapInfoEqual (h : String → String) (a b : WebsiteMapInfo) : Bool :=
  sameImage h (some a.minimapUrl) (some b.minimapUrl) &&
  sameImage h (some a.minimapThumbUrl) (some b.minimapThumbUrl) &&
  sameImage h a.bgImageUrl b.bgImageUrl &&
  sameImage h a.perspectiveShotUrl b.perspectiveShotUrl &&
  sameImages h a.moreImagesUrl b.moreImagesUrl &&
  sameImage h (some a.textureMapUrl) (some b.textureMapUrl) &&
  sameImage h (some a.heightMapUrl) (some b.heightMapUrl) &&
  sameImage h (some a.metalMapUrl) (some b.metalMapUrl) &&
  a.name == b.name &&
  a.rowyId == b.rowyId &&
  a.downloadUrl == b.downloadUrl &&
  a.width == b.width &&
  a.height == b.height &&
  a.mapSize == b.mapSize &&
  a.title == b.title &&
  a.description == b.description &&
  a.author == b.author &&
  a.windMin == b.windMin &&
  a.windMax == b.windMax &&
  a.tidalStrength == b.tidalStrength &&
  a.teamCount == b.teamCount &&
  a.maxPlayers == b.maxPlayers &&
  isSameRefs a.mapTags b.mapTags &&
  isSameRefs a.mapTerrains b.mapTerrains

/-- Embeds WebflowMapInfo.generateFields: build the write fields for a
canonical record, reusing the base destination item's assets when the
digests match. -/
def generateFields (h : String → String) (info : WebsiteMapInfo)
    (base : Option WebflowMapInfo) : WebflowMapFieldsWrite :=
  { name := info.name
    slug := slugFromName info.name
    rowyid := info.rowyId
    minimap := pickImage h info.minimapUrl (base.bind (fun b => b.item.fieldData.minimap))
    minimapPhotoThumb := pickImage h info.minimapThumbUrl
      (base.bind (fun b => b.item.fieldData.minimapPhotoThumb))
    downloadurl := info.downloadUrl
    width := info.width
    height := info.height
    mapsize := info.mapSize
    title := info.title
    description := info.description
    author := info.author
    bgImage := match info.bgImageUrl with
      | some u =>
        if u = "" then none
        else some (pickImage h u (base.bind (fun b => b.item.fieldData.bgImage)))
      | none => none
    perspectiveShot := match info.perspectiveShotUrl with
      | some u =>
        if u = "" then none
        else some (pickImage h u (base.bind (fun b => b.item.fieldData.perspectiveShot)))
      | none => none
    moreImages := pickImages h info.moreImagesUrl
      (base.bind (fun b => b.item.fieldData.moreImages))
    windMin := info.windMin
    windMax := info.windMax
    tidalStrength := info.tidalStrength
    teamCount := info.teamCount
    maxPlayers := info.maxPlayers
    miniMap := pickImage h info.textureMapUrl (base.bind (fun b => b.item.fieldData.miniMap))
    heightMap := pickImage h info.heightMapUrl (base.bind (fun b => b.item.fieldData.heightMap))
    metalMap := pickImage h info.metalMapUrl (base.bind (fun b => b.item.fieldData.metalMap))
    gameTags := info.mapTags
    terrainTypes := info.mapTerrains }

/-! ## The destination system

Modelled from the spec: the destination exposes three related keyed
collections (maps, tags, terrains) with list, create, update, delete and
batch-publish operations; map items carry image assets with a file handle
and a hosted copy of the submitted URL, and forward references by item
identifier.  Fresh identifiers are strings strictly longer than every
string the state already uses. -/

inductive WfColl where
  | maps
  | tags
  | terrains
deriving DecidableEq

structure Server where
  maps : List (Item WebflowMapFieldsRead)
  tags : List (Item TagFields)
  terrains : List (Item TagFields)
  clock : Nat
deriving DecidableEq

def maxLen (l : List String) : Nat :=
  l.foldr (fun s m => max s.length m) 0

def freshStringOver (l : List String) : String :=
  String.mk (List.replicate (maxLen l + 1) 'i')

def refFileIds (fd : WebflowMapFieldsRead) : List String :=
  (fd.minimap.toList ++ fd.minimapPhotoThumb.toList ++ fd.bgImage.toList ++
   fd.perspectiveShot.toList ++ fd.moreImages.getD [] ++ fd.miniMap.toList ++
   fd.heightMap.toList ++ fd.metalMap.toList).map (fun r => r.fileId)

def Server.usedStrings (s : Server) : List String :=
  s.maps.map (fun it => it.id) ++ s.tags.map (fun it => it.id) ++
  s.terrains.map (fun it => it.id) ++
  s.maps.foldr (fun it acc => refFileIds it.fieldData ++ acc) []

def Server.tagColl (s : Server) : WfColl → List (Item TagFields)
  | .tags => s.tags
  | .terrains => s.terrains
  | .maps => []

def Server.setTagColl (s : Server) : WfColl → List (Item TagFields) → Server
  | .tags, l => { s with tags := l }
  | .terrains, l => { s with terrains := l }
  | .maps, _ => s

def Server.createTagItem (s : Server) (c : WfColl) (f : TagFields) :
    Server × Item TagFields :=
  let it : Item TagFields := ⟨freshStringOver s.usedStrings, none, s.clock, f⟩
  ({ s.setTagColl c (s.tagColl c ++ [it]) with clock := s.clock + 1 }, it)

def Server.updateTagItem (s : Server) (c : WfColl) (itemId : String)
    (f : TagFields) : Option (Server × Item TagFields) :=
  match (s.tagColl c).find? (fun it => it.id == itemId) with
  | none => none
  | some old =>
    let ni : Item TagFields := ⟨old.id, old.lastPublished, s.clock, f⟩
    let coll1 := (s.tagColl c).map (fun it => if it.id == itemId then ni else it)
    some ({ s.setTagColl c coll1 with clock := s.clock + 1 }, ni)

def Server.deleteTagItem (s : Server) (c : WfColl) (itemId : String) : Server :=
  s.setTagColl c ((s.tagColl c).filter (fun it => it.id != itemId))

/-- Asset resolution on a single image field: a value equal to the prior
asset's handle keeps that asset, any other value is treated as a URL and
hosted under a fresh handle. -/
def resolveOneRef (prior : Option WebflowImageRef) (v : String)
    (used : List String) : WebflowImageRef × List String :=
  match prior with
  | some r =>
    if r.fileId == v then (r, used)
    else
      let fid := freshStringOver used
      (⟨fid, v⟩, fid :: used)
  | none =>
    let fid := freshStringOver used
    (⟨fid, v⟩, fid :: used)

def resolveOptRef (prior : Option WebflowImageRef) (v : Option String)
    (used : List String) : Option WebflowImageRef × List String :=
  match v with
  | none => (none, used)
  | some u =>
    let (r, used1) := resolveOneRef prior u used
    (some r, used1)

def resolveListRefs (prior : List WebflowImageRef) :
    List String → List String → List WebflowImageRef × List String
  | [], used => ([], used)
  | v :: rest, used =>
    match prior.find? (fun r => r.fileId == v) with
    | some r =>
      let (rs, used1) := resolveListRefs prior rest used
      (r :: rs, used1)
    | none =>
      let fid := freshStringOver used
      let (rs, used1) := resolveListRefs prior rest (fid :: used)
      (⟨fid, v⟩ :: rs, used1)

/-- Conversion of submitted write fields into the stored read fields,
resolving each image value against the prior item's assets. -/
def convertWriteFields (prior : Option WebflowMapFieldsRead)
    (f : WebflowMapFieldsWrite) (used : List String) :
    WebflowMapFieldsRead × List String :=
  let (minimapR, u1) := resolveOneRef (prior.bind (fun p => p.minimap)) f.minimap used
  let (thumbR, u2) := resolveOneRef (prior.bind (fun p => p.minimapPhotoThumb))
    f.minimapPhotoThumb u1
  let (bgR, u3) := resolveOptRef (prior.bind (fun p => p.bgImage)) f.bgImage u2
  let (psR, u4) := resolveOptRef (prior.bind (fun p => p.perspectiveShot))
    f.perspectiveShot u3
  let (moreR, u5) := resolveListRefs ((prior.bind (fun p => p.moreImages)).getD [])
    f.moreImages u4
  let (miniR, u6) := resolveOneRef (prior.bind (fun p => p.miniMap)) f.miniMap u5
  let (heightR, u7) := resolveOneRef (prior.bind (fun p => p.heightMap)) f.heightMap u6
  let (metalR, u8) := resolveOneRef (prior.bind (fun p => p.metalMap)) f.metalMap u7
  ({ name := f.name
     slug := f.slug
     rowyid := some f.rowyid
     minimap := some minimapR
     minimapPhotoThumb := some thumbR
     downloadurl := f.downloadurl
     width := f.width
     height := f.height
     mapsize := f.mapsize
     title := f.title
     description := f.description
     author := some f.author
     bgImage := bgR
     perspectiveShot := psR
     moreImages := some moreR
     windMin := f.windMin
     windMax := f.windMax
     tidalStrength := f.tidalStrength
     teamCount := some f.teamCount
     maxPlayers := some f.maxPlayers
     miniMap := some miniR
     heightMap := some heightR
     metalMap := some metalR
     gameTags := some f.gameTags
     terrainTypes := some f.terrainTypes }, u8)

def Server.createMapItem (s : Server) (f : WebflowMapFieldsWrite) :
    Server × Item WebflowMapFieldsRead :=
  let (fd, used1) := convertWriteFields none f s.usedStrings
  let it : Item WebflowMapFieldsRead := ⟨freshStringOver used1, none, s.clock, fd⟩
  ({ s with maps := s.maps ++ [it], clock := s.clock + 1 }, it)

def Server.updateMapItem (s : Server) (itemId : String)
    (f : WebflowMapFieldsWrite) : Option (Server × Item WebflowMapFieldsRead) :=
  match s.maps.find? (fun it => it.id == itemId) with
  | none => none
  | some old =>
    let (fd, _) := convertWriteFields (some old.fieldData) f s.usedStrings
    let ni : Item WebflowMapFieldsRead := ⟨old.id, old.lastPublished, s.clock, fd⟩
    let maps1 := s.maps.map (fun it => if it.id == itemId then ni else it)
    some ({ s with maps := maps1, clock := s.clock + 1 }, ni)

def Server.deleteMapItem (s : Server) (itemId : String) : Server :=
  { s with maps := s.maps.filter (fun it => it.id != itemId) }

def publishMark {F : Type} (clock : Nat) (ids : List String) (l : List (Item F)) :
    List (Item F) :=
  l.map (fun it => if ids.contains it.id then { it with lastPublished := some clock } else it)

def Server.publishColl (s : Server) (c : WfColl) (ids : List String) : Server :=
  match c with
  | .maps => { s with maps := publishMark s.clock ids s.maps, clock := s.clock + 1 }
  | .tags => { s with tags := publishMark s.clock ids s.tags, clock := s.clock + 1 }
  | .terrains => { s with terrains := publishMark s.clock ids s.terrains, clock := s.clock + 1 }

/-! ## The trace of mutating remote calls -/

inductive WfCall where
  | createTag (c : WfColl) (fields : TagFields)
  | updateTag (c : WfColl) (itemId : String) (fields : TagFields)
  | createMap (fields : WebflowMapFieldsWrite)
  | updateMap (itemId : String) (fields : WebflowMapFieldsWrite)
  | deleteItem (c : WfColl) (itemId : String)
  | publishItems (c : WfColl) (itemIds : List String)
deriving DecidableEq

/-- True for create, update and delete calls; false for publish calls. -/
def WfCall.isCUD : WfCall → Bool
  | .publishItems _ _ => false
  | _ => true

def WfCall.isMapUpdate : WfCall → Bool
  | .updateMap _ _ => true
  | _ => false

def WfCall.isTagOrTerrainDelete : WfCall → Bool
  | .deleteItem .tags _ => true
  | .deleteItem .terrains _ => true
  | _ => false

/-! ## Reading the destination collections -/

/-- Embeds getAllWebflowMapTags and getAllWebflowMapTerrains: key the items
by slug (Map constructor semantics: first position, last value wins). -/
def getAllWebflowMapTags (items : List (Item TagFields)) :
    List (String × WebflowMapTag) :=
  jsOfEntries ((items.map WebflowMapTag.ofItem).map (fun t => (t.slug, t)))

/-- Embeds the duplicate-rowyId handling loop of getAllWebflowMaps. -/
def dedupeMapsGo : List WebflowMapInfo → List (String × WebflowMapInfo) → Nat →
    List (String × WebflowMapInfo)
  | [], res, _ => res
  | m :: rest, res, dupId =>
    if jsHas res m.rowyId then
      let m1 := { m with rowyId := m.rowyId ++ "-bad" ++ toString dupId }
      dedupeMapsGo rest (jsSet res m1.rowyId m1) (dupId + 1)
    else dedupeMapsGo rest (jsSet res m.rowyId m) dupId

/-- Embeds getAllWebflowMaps: all destination maps keyed by rowyId, with
duplicate keys disambiguated by a synthetic suffix. -/
def getAllWebflowMaps (items : List (Item WebflowMapFieldsRead)) :
    List (String × WebflowMapInfo) :=
  dedupeMapsGo (items.map WebflowMapInfo.ofItem) [] 0

/-! ## Collection reconciliation phases -/

structure TagPhaseRes where
  dest : List (String × WebflowMapTag)
  srv : Server
  trace : List WfCall
  err : Option String
deriving DecidableEq

/-- Embeds the loop of syncCollectionToWebflowAdditions over the source
values: create missing items, update unequal ones, record the server
responses in the in-memory destination map. -/
def syncTagAdditionsGo (equalsFn : WebsiteMapTag → WebflowMapTag → Bool)
    (c : WfColl) (dryRun : Bool) :
    List (String × WebsiteMapTag) → List (String × WebflowMapTag) → Server →
    TagPhaseRes
  | [], dest, s => ⟨dest, s, [], none⟩
  | (_, item) :: rest, dest, s =>
    match jsGet dest item.slug with
    | none =>
      if dryRun then syncTagAdditionsGo equalsFn c dryRun rest dest s
      else
        let fields := tagGenerateFields item
        let created := s.createTagItem c fields
        if created.2.fieldData.slug = "" then
          ⟨dest, created.1, [.createTag c fields], some "AssertionError: empty slug"⟩
        else
          let res := syncTagAdditionsGo equalsFn c dryRun rest
            (jsSet dest created.2.fieldData.slug (WebflowMapTag.ofItem created.2)) created.1
          ⟨res.dest, res.srv, .createTag c fields :: res.trace, res.err⟩
    | some webflowTag =>
      if equalsFn item webflowTag then
        syncTagAdditionsGo equalsFn c dryRun rest dest s
      else if dryRun then syncTagAdditionsGo equalsFn c dryRun rest dest s
      else
        let fields := tagGenerateFields item
        match s.updateTagItem c webflowTag.item.id fields with
        | none =>
          ⟨dest, s, [.updateTag c webflowTag.item.id fields], some "ApiError"⟩
        | some pr =>
          if pr.2.fieldData.slug = "" then
            ⟨dest, pr.1, [.updateTag c webflowTag.item.id fields],
              some "AssertionError: empty slug"⟩
          else
            let res := syncTagAdditionsGo equalsFn c dryRun rest
              (jsSet dest pr.2.fieldData.slug (WebflowMapTag.ofItem pr.2)) pr.1
            ⟨res.dest, res.srv, .updateTag c webflowTag.item.id fields :: res.trace,
              res.err⟩

def syncCollectionToWebflowAdditions (equalsFn : WebsiteMapTag → WebflowMapTag → Bool)
    (c : WfColl) (src : List (String × WebsiteMapTag))
    (dest : List (String × WebflowMapTag)) (s : Server) (dryRun : Bool) :
    TagPhaseRes :=
  syncTagAdditionsGo equalsFn c dryRun src dest s

/-- Embeds the loop of syncCollectionToWebflowRemovals: the live iteration
over the destination map is equivalent to iterating its snapshot, since
only the entry currently visited is ever deleted. -/
def syncTagRemovalsGo (c : WfColl) (dryRun : Bool)
    (src : List (String × WebsiteMapTag)) :
    List (String × WebflowMapTag) → List (String × WebflowMapTag) → Server →
    TagPhaseRes
  | [], dest, s => ⟨dest, s, [], none⟩
  | (_, item) :: toVisit, dest, s =>
    if !(jsHas src item.slug) then
      if dryRun then syncTagRemovalsGo c dryRun src toVisit dest s
      else
        let res := syncTagRemovalsGo c dryRun src toVisit (jsDelete dest item.slug)
          (s.deleteTagItem c item.item.id)
        ⟨res.dest, res.srv, .deleteItem c item.item.id :: res.trace, none⟩
    else syncTagRemovalsGo c dryRun src toVisit dest s

def syncCollectionToWebflowRemovals (c : WfColl)
    (src : List (String × WebsiteMapTag)) (dest : List (String × WebflowMapTag))
    (s : Server) (dryRun : Bool) : TagPhaseRes :=
  syncTagRemovalsGo c dryRun src dest dest s

/-! ## Reference resolution -/

inductive RefField where
  | mapTags
  | mapTerrains
deriving DecidableEq

def WebsiteMapInfo.getRefField (i : WebsiteMapInfo) : RefField → List String
  | .mapTags => i.mapTags
  | .mapTerrains => i.mapTerrains

def WebsiteMapInfo.setRefField (i : WebsiteMapInfo) :
    RefField → List String → WebsiteMapInfo
  | .mapTags, l => { i with mapTags := l }
  | .mapTerrains, l => { i with mapTerrains := l }

/-- Embeds the inner map of resolveItemRefsInMapInfos over one reference
list: a missing reference raises outside dry-run and is passed through
unchanged in dry-run. -/
def resolveRefList (refs : List (String × WebflowMapTag)) (dryRun : Bool)
    (fieldName : String) : List String → Except String (List String)
  | [] => .ok []
  | r :: rest =>
    match jsGet refs r with
    | none =>
      if dryRun then
        match resolveRefList refs dryRun fieldName rest with
        | .error e => .error e
        | .ok l => .ok (r :: l)
      else .error ("Missing " ++ fieldName ++ " " ++ r)
    | some t =>
      match resolveRefList refs dryRun fieldName rest with
      | .error e => .error e
      | .ok l => .ok (t.item.id :: l)

def refFieldName : RefField → String
  | .mapTags => "mapTags"
  | .mapTerrains => "mapTerrains"

/-- Embeds resolveItemRefsInMapInfos. -/
def resolveItemRefsInMapInfos :
    List (String × WebsiteMapInfo) → RefField → List (String × WebflowMapTag) →
    Bool → Except String (List (String × WebsiteMapInfo))
  | [], _, _, _ => .ok []
  | (k, info) :: rest, field, refs, dryRun =>
    match resolveRefList refs dryRun (refFieldName field) (info.getRefField field) with
    | .error e => .error e
    | .ok l =>
      match resolveItemRefsInMapInfos rest field refs dryRun with
      | .error e => .error e
      | .ok rest1 => .ok ((k, info.setRefField field l) :: rest1)

/-! ## Map collection reconciliation -/

structure MapPhaseRes where
  dest : List (String × WebflowMapInfo)
  srv : Server
  trace : List WfCall
  err : Option String
deriving DecidableEq

/-- Phase 1 of syncMapsToWebflow: create maps missing from the destination
and collect the computed equality for the present ones. -/
def syncMapsAdditionsGo (h : String → String) (dryRun : Bool) :
    List (String × WebsiteMapInfo) → List (String × WebflowMapInfo) → Server →
    List (Bool × WebsiteMapInfo × WebflowMapInfo) →
    List (String × WebflowMapInfo) × Server × List WfCall ×
      List (Bool × WebsiteMapInfo × WebflowMapInfo)
  | [], dest, s, ups => (dest, s, [], ups)
  | (_, map) :: rest, dest, s, ups =>
    match jsGet dest map.rowyId with
    | none =>
      if dryRun then syncMapsAdditionsGo h dryRun rest dest s ups
      else
        let fields := generateFields h map none
        let created := s.createMapItem fields
        let res := syncMapsAdditionsGo h dryRun rest
          (jsSet dest map.rowyId (WebflowMapInfo.ofItem created.2)) created.1 ups
        (res.1, res.2.1, .createMap fields :: res.2.2.1, res.2.2.2)
    | some webflowMap =>
      syncMapsAdditionsGo h dryRun rest dest s
        (ups ++ [(isWebflowMapInfoEqual h map webflowMap.toWebsiteMapInfo, map, webflowMap)])

/-- Phase 2 of syncMapsToWebflow: remove destination maps whose key is
absent from the source set. -/
def syncMapsRemovalsGo (dryRun : Bool) (src : List (String × WebsiteMapInfo)) :
    List (String × WebflowMapInfo) → List (String × WebflowMapInfo) → Server →
    List (String × WebflowMapInfo) × Server × List WfCall
  | [], dest, s => (dest, s, [])
  | (_, m) :: toVisit, dest, s =>
    if !(jsHas src m.rowyId) then
      if dryRun then syncMapsRemovalsGo dryRun src toVisit dest s
      else
        let res := syncMapsRemovalsGo dryRun src toVisit (jsDelete dest m.rowyId)
          (s.deleteMapItem m.item.id)
        (res.1, res.2.1, .deleteItem .maps m.item.id :: res.2.2)
    else syncMapsRemovalsGo dryRun src toVisit dest s

/-- Phase 3 of syncMapsToWebflow: update the collected unequal maps. -/
def syncMapsUpdatesGo (h : String → String) (dryRun : Bool) :
    List (Bool × WebsiteMapInfo × WebflowMapInfo) →
    List (String × WebflowMapInfo) → Server → MapPhaseRes
  | [], dest, s => ⟨dest, s, [], none⟩
  | (same, map, webflowMap) :: rest, dest, s =>
    if same then syncMapsUpdatesGo h dryRun rest dest s
    else if dryRun then syncMapsUpdatesGo h dryRun rest dest s
    else
      let fields := generateFields h map (some webflowMap)
      match s.updateMapItem webflowMap.item.id fields with
      | none => ⟨dest, s, [.updateMap webflowMap.item.id fields], some "ApiError"⟩
      | some pr =>
        let res := syncMapsUpdatesGo h dryRun rest
          (jsSet dest map.rowyId (WebflowMapInfo.ofItem pr.2)) pr.1
        ⟨res.dest, res.srv, .updateMap webflowMap.item.id fields :: res.trace, res.err⟩

/-- Embeds syncMapsToWebflow: additions, then removals, then updates. -/
def syncMapsToWebflow (h : String → String) (src : List (String × WebsiteMapInfo))
    (dest : List (String × WebflowMapInfo)) (s : Server) (dryRun : Bool) :
    MapPhaseRes :=
  let p1 := syncMapsAdditionsGo h dryRun src dest s []
  let p2 := syncMapsRemovalsGo dryRun src p1.1 p1.1 p1.2.1
  let p3 := syncMapsUpdatesGo h dryRun p1.2.2.2 p2.1 p2.2.1
  ⟨p3.dest, p3.srv, p1.2.2.1 ++ p2.2.2 ++ p3.trace, p3.err⟩

/-! ## Publish step -/

/-- Embeds publishUpdatedWebflowItems over a collection of in-memory
items: select the identifiers to publish and send them in batches of at
most 100 through the throttle. -/
def publishPhase {F : Type} (c : WfColl) (items : List (Item F)) (s : Server)
    (dryRun : Bool) : Server × List WfCall :=
  let itemIds := publishUpdatedItemIds items
  if dryRun then (s, [])
  else
    let batches := chunkList 100 itemIds
    (batches.foldl (fun srv b => srv.publishColl c b) s,
     batches.map (fun b => WfCall.publishItems c b))

/-! ## The sync command -/

def terrainEnum : List String :=
  ["lava", "ice", "acidic", "alien", "asteroid", "space", "desert", "forests",
   "grassy", "tropical", "swamp", "jungle", "wasteland", "metal", "industrial",
   "ruins", "sea", "water", "island", "shallows", "chokepoints", "asymmetrical",
   "flat", "hills"]

/-- Embeds getRowyMapTerrains: the terrain vocabulary from the schema enum,
each terrain acting as both name and slug. -/
def getRowyMapTerrains : List (String × WebsiteMapTag) :=
  terrainEnum.map (fun t => (t, (⟨t, t⟩ : WebsiteMapTag)))

structure SyncSources where
  maps : List (String × MapInfo)
  cdnInfo : List (String × MapCDNInfo)
  mapsMetadata : List (String × MapMeta)
deriving DecidableEq

structure SyncResult where
  server : Server
  trace : List WfCall
  err : Option String
deriving DecidableEq

/-- Embeds syncCommand: read the three collections, build the canonical
records and vocabularies, then reconcile tags, terrains and maps, publish,
and finally remove obsolete tags and terrains.  A failure inside the try
block terminates the run with the calls made so far. -/
def syncCommand (h enc : String → String)
    (derive : MapInfo → MapMeta → DerivedInfo) (src : SyncSources)
    (s0 : Server) (dryRun : Bool) : SyncResult :=
  let webflowMaps := getAllWebflowMaps s0.maps
  let webflowMapTags := getAllWebflowMapTags s0.tags
  let webflowMapTerrains := getAllWebflowMapTags s0.terrains
  match buildWebflowInfo enc derive src.maps src.cdnInfo src.mapsMetadata with
  | .error e => ⟨s0, [], some e⟩
  | .ok (rowyMapsInfo, rowyMapTagsInfo) =>
    let rowyMapTerrainsInfo := getRowyMapTerrains
    let ta := syncCollectionToWebflowAdditions isWebsiteMapTagEqual .tags
      rowyMapTagsInfo webflowMapTags s0 dryRun
    match ta.err with
    | some e => ⟨ta.srv, ta.trace, some e⟩
    | none =>
      match resolveItemRefsInMapInfos rowyMapsInfo .mapTags ta.dest dryRun with
      | .error e => ⟨ta.srv, ta.trace, some e⟩
      | .ok rowyMapsInfo1 =>
        let te := syncCollectionToWebflowAdditions isWebsiteMapTerrainEqual .terrains
          rowyMapTerrainsInfo webflowMapTerrains ta.srv dryRun
        match te.err with
        | some e => ⟨te.srv, ta.trace ++ te.trace, some e⟩
        | none =>
          match resolveItemRefsInMapInfos rowyMapsInfo1 .mapTerrains te.dest dryRun with
          | .error e => ⟨te.srv, ta.trace ++ te.trace, some e⟩
          | .ok rowyMapsInfo2 =>
            let ms := syncMapsToWebflow h rowyMapsInfo2 webflowMaps te.srv dryRun
            match ms.err with
            | some e => ⟨ms.srv, ta.trace ++ te.trace ++ ms.trace, some e⟩
            | none =>
              let pTer := publishPhase .terrains (te.dest.map (fun p => p.2.item))
                ms.srv dryRun
              let pTag := publishPhase .tags (ta.dest.map (fun p => p.2.item))
                pTer.1 dryRun
              let pMap := publishPhase .maps (ms.dest.map (fun p => p.2.item))
                pTag.1 dryRun
              let tr := syncCollectionToWebflowRemovals .tags rowyMapTagsInfo
                ta.dest pMap.1 dryRun
              let ter := syncCollectionToWebflowRemovals .terrains rowyMapTerrainsInfo
                te.dest tr.srv dryRun
              ⟨ter.srv,
               (ta.trace ++ te.trace ++ ms.trace ++ pTer.2 ++ pTag.2 ++ pMap.2) ++
                 (tr.trace ++ ter.trace),
               none⟩

def cexTerrains : List (Item TagFields) :=
  terrainEnum.map (fun t => ⟨"id-" ++ t, some 5, 3, ⟨t, t⟩⟩)

def cexServer : Server :=
  ⟨[], [⟨"A", some 5, 3, ⟨"x", "t"⟩⟩, ⟨"B", some 5, 3, ⟨"y", "t"⟩⟩], cexTerrains, 0⟩

def cexDerive : MapInfo → MapMeta → DerivedInfo :=
  fun _ _ => ⟨none, none, none, none, none, [], []⟩

/-! ## Basic lemmas about the JS Map embedding -/

theorem jsGet_nil {α : Type} (k : String) : jsGet ([] : List (String × α)) k = none := rfl

theorem jsGet_cons {α : Type} (p : String × α) (rest : List (String × α)) (k : String) :
    jsGet (p :: rest) k = if p.1 = k then some p.2 else jsGet rest k := by
  by_cases hp : p.1 = k
  · simp [jsGet, List.find?_cons_of_pos, hp]
  · rw [if_neg hp]
    simp only [jsGet]
    rw [List.find?_cons_of_neg _ (by simpa using hp)]

theorem jsHas_cons {α : Type} (p : String × α) (rest : List (String × α)) (k : String) :
    jsHas (p :: rest) k = ((p.1 == k) || jsHas rest k) := by
  simp [jsHas]

theorem jsHas_nil {α : Type} (k : String) : jsHas ([] : List (String × α)) k = false := rfl

theorem jsGet_eq_some_mem {α : Type} {m : List (String × α)} {k : String} {v : α}
    (h : jsGet m k = some v) : (k, v) ∈ m := by
  induction m with
  | nil => simp [jsGet] at h
  | cons p rest ih =>
    rw [jsGet_cons] at h
    by_cases hp : p.1 = k
    · rw [if_pos hp] at h
      injection h with h2
      refine List.mem_cons.mpr (Or.inl ?_)
      rcases p with ⟨a, b⟩
      simp only at hp h2
      rw [← hp, ← h2]
    · rw [if_neg hp] at h
      exact List.mem_cons_of_mem _ (ih h)

theorem jsGet_eq_none_iff {α : Type} {m : List (String × α)} {k : String} :
    jsGet m k = none ↔ ∀ p ∈ m, p.1 ≠ k := by
  induction m with
  | nil => simp [jsGet]
  | cons p rest ih =>
    rw [jsGet_cons]
    by_cases hp : p.1 = k
    · rw [if_pos hp]
      constructor
      · intro h
        cases h
      · intro h
        exact absurd hp (h p (List.mem_cons_self p rest))
    · rw [if_neg hp, ih]
      constructor
      · intro h q hq
        rcases List.mem_cons.mp hq with rfl | hq2
        · exact hp
        · exact h q hq2
      · intro h q hq
        exact h q (List.mem_cons_of_mem _ hq)

theorem jsHas_false_iff {α : Type} {m : List (String × α)} {k : String} :
    jsHas m k = false ↔ ∀ p ∈ m, p.1 ≠ k := by
  simp [jsHas, List.any_eq_false]

theorem jsHas_true_iff {α : Type} {m : List (String × α)} {k : String} :
    jsHas m k = true ↔ ∃ p ∈ m, p.1 = k := by
  simp [jsHas, List.any_eq_true]

theorem jsGet_replaceList_same {α : Type} (m : List (String × α)) (k : String) (v : α)
    (hh : jsHas m k = true) :
    jsGet (m.map (fun p => if p.1 == k then (k, v) else p)) k = some v := by
  induction m with
  | nil => simp [jsHas] at hh
  | cons p rest ih =>
    by_cases hp : p.1 = k
    · have hhead : (if p.1 == k then (k, v) else p) = (k, v) := by simp [hp]
      rw [List.map_cons, hhead, jsGet_cons, if_pos rfl]
    · have hhead : (if p.1 == k then (k, v) else p) = p := by simp [hp]
      rw [List.map_cons, hhead, jsGet_cons, if_neg hp]
      apply ih
      rw [jsHas_cons, Bool.or_eq_true] at hh
      rcases hh with hh | hh
      · exact absurd (by simpa using hh) hp
      · exact hh

theorem jsGet_replaceList_ne {α : Type} (m : List (String × α)) (k k' : String) (v : α)
    (hne : k' ≠ k) :
    jsGet (m.map (fun p => if p.1 == k then (k, v) else p)) k' = jsGet m k' := by
  induction m with
  | nil => rfl
  | cons p rest ih =>
    by_cases hp : p.1 = k
    · have hhead : (if p.1 == k then (k, v) else p) = (k, v) := by simp [hp]
      rw [List.map_cons, hhead, jsGet_cons, jsGet_cons,
        if_neg (show ¬((k, v).1 = k') from fun he => hne (he.symm)),
        if_neg (show ¬(p.1 = k') from fun he => hne (hp ▸ he).symm)]
      exact ih
    · have hhead : (if p.1 == k then (k, v) else p) = p := by simp [hp]
      rw [List.map_cons, hhead, jsGet_cons, jsGet_cons]
      by_cases hpk : p.1 = k'
      · rw [if_pos hpk, if_pos hpk]
      · rw [if_neg hpk, if_neg hpk]
        exact ih

theorem jsGet_append_single_same {α : Type} (m : List (String × α)) (k : String) (v : α)
    (hh : jsHas m k = false) : jsGet (m ++ [(k, v)]) k = some v := by
  induction m with
  | nil => simp [jsGet_cons]
  | cons p rest ih =>
    rw [jsHas_cons, Bool.or_eq_false_iff] at hh
    rw [List.cons_append, jsGet_cons, if_neg (by simpa using hh.1)]
    exact ih hh.2

theorem jsGet_append_single_ne {α : Type} (m : List (String × α)) (k k' : String) (v : α)
    (hne : k' ≠ k) : jsGet (m ++ [(k, v)]) k' = jsGet m k' := by
  induction m with
  | nil =>
    simp only [List.nil_append, jsGet_cons, jsGet_nil]
    rw [if_neg (show ¬((k, v).1 = k') from fun he => hne he.symm)]
  | cons p rest ih =>
    rw [List.cons_append, jsGet_cons, jsGet_cons]
    by_cases hpk : p.1 = k'
    · rw [if_pos hpk, if_pos hpk]
    · rw [if_neg hpk, if_neg hpk]
      exact ih

theorem jsGet_jsSet_same {α : Type} (m : List (String × α)) (k : String) (v : α) :
    jsGet (jsSet m k v) k = some v := by
  unfold jsSet
  by_cases hh : jsHas m k = true
  · rw [if_pos hh]
    exact jsGet_replaceList_same m k v hh
  · rw [if_neg hh]
    exact jsGet_append_single_same m k v (by simpa using hh)

theorem jsGet_jsSet_ne {α : Type} (m : List (String × α)) (k k' : String) (v : α)
    (hne : k' ≠ k) : jsGet (jsSet m k v) k' = jsGet m k' := by
  unfold jsSet
  by_cases hh : jsHas m k = true
  · rw [if_pos hh]
    exact jsGet_replaceList_ne m k k' v hne
  · rw [if_neg hh]
    exact jsGet_append_single_ne m k k' v hne

theorem jsGet_jsDelete {α : Type} (m : List (String × α)) (k k' : String) :
    jsGet (jsDelete m k) k' = if k' = k then none else jsGet m k' := by
  induction m with
  | nil =>
    simp only [jsDelete, List.filter_nil, jsGet_nil]
    split <;> rfl
  | cons p rest ih =>
    simp only [jsDelete, List.filter_cons] at ih ⊢
    by_cases hp : p.1 = k
    · rw [if_neg (by simp [hp])]
      rw [ih]
      by_cases hk : k' = k
      · simp [hk]
      · rw [if_neg hk, if_neg hk, jsGet_cons, if_neg (by rw [hp]; exact fun he => hk he.symm)]
    · rw [if_pos (by simp [hp])]
      rw [jsGet_cons, jsGet_cons, ih]
      by_cases hpk : p.1 = k'
      · rw [if_pos hpk, if_pos hpk, if_neg (by rw [← hpk]; exact fun he => hp he)]
      · rw [if_neg hpk, if_neg hpk]

/-- Last-wins lookup in an entry list, the observable behavior of the JS
Map constructor. -/
def lookupLast {α : Type} : List (String × α) → String → Option α
  | [], _ => none
  | p :: rest, k =>
    match lookupLast rest k with
    | some v => some v
    | none => if p.1 = k then some p.2 else none

theorem foldl_jsSet_get {α : Type} (l : List (String × α)) (m : List (String × α))
    (k : String) :
    jsGet (l.foldl (fun m p => jsSet m p.1 p.2) m) k =
      match lookupLast l k with
      | some v => some v
      | none => jsGet m k := by
  induction l generalizing m with
  | nil => simp [lookupLast]
  | cons p rest ih =>
    rw [List.foldl_cons, ih]
    simp only [lookupLast]
    cases hl : lookupLast rest k with
    | some v => simp
    | none =>
      simp only
      by_cases hp : p.1 = k
      · rw [if_pos hp, ← hp, jsGet_jsSet_same]
      · rw [if_neg hp, jsGet_jsSet_ne _ _ _ _ (fun he => hp he.symm)]

theorem jsGet_jsOfEntries {α : Type} (l : List (String × α)) (k : String) :
    jsGet (jsOfEntries l) k = lookupLast l k := by
  rw [jsOfEntries, foldl_jsSet_get]
  cases lookupLast l k <;> rfl

theorem lookupLast_eq_none_iff {α : Type} {l : List (String × α)} {k : String} :
    lookupLast l k = none ↔ ∀ p ∈ l, p.1 ≠ k := by
  induction l with
  | nil => simp [lookupLast]
  | cons p rest ih =>
    simp only [lookupLast]
    cases hl : lookupLast rest k with
    | some v =>
      simp only
      constructor
      · intro h
        cases h
      · intro h
        have hn : lookupLast rest k = none :=
          ih.mpr (fun q hq => h q (List.mem_cons_of_mem _ hq))
        rw [hn] at hl
        cases hl
    | none =>
      simp only
      by_cases hp : p.1 = k
      · rw [if_pos hp]
        constructor
        · intro h
          cases h
        · intro h
          exact absurd hp (h p (List.mem_cons_self p rest))
      · rw [if_neg hp]
        constructor
        · intro _ q hq
          rcases List.mem_cons.mp hq with rfl | hq2
          · exact hp
          · exact (ih.mp hl) q hq2
        · intro _
          rfl

theorem lookupLast_eq_some_mem {α : Type} {l : List (String × α)} {k : String} {v : α}
    (h : lookupLast l k = some v) : (k, v) ∈ l := by
  induction l with
  | nil => cases h
  | cons p rest ih =>
    simp only [lookupLast] at h
    cases hl : lookupLast rest k with
    | some w =>
      rw [hl] at h
      injection h with h2
      subst h2
      exact List.mem_cons_of_mem _ (ih hl)
    | none =>
      rw [hl] at h
      by_cases hp : p.1 = k
      · rw [if_pos hp] at h
        injection h with h2
        refine List.mem_cons.mpr (Or.inl ?_)
        rcases p with ⟨a, b⟩
        simp only at hp h2
        rw [← hp, ← h2]
      · rw [if_neg hp] at h
        cases h

/-! ## Helper lemmas for pointwise-fixed maps and filters -/

theorem map_fixed {α : Type} (f : α → α) (l : List α) (h : ∀ a ∈ l, f a = a) :
    l.map f = l := by
  induction l with
  | nil => rfl
  | cons a rest ih =>
    rw [List.map_cons, h a (List.mem_cons_self a rest),
      ih (fun b hb => h b (List.mem_cons_of_mem _ hb))]

theorem filter_all_true {α : Type} (p : α → Bool) (l : List α)
    (h : ∀ a ∈ l, p a = true) : l.filter p = l := by
  induction l with
  | nil => rfl
  | cons a rest ih =>
    rw [List.filter_cons, if_pos (h a (List.mem_cons_self a rest)),
      ih (fun b hb => h b (List.mem_cons_of_mem _ hb))]

/-! ## Slug lemmas (claim C8) -/

theorem slugKeep_toLower_fixed (c : Char) (hc : slugKeep c = true) :
    c.toLower = c := by
  by_cases hd : c = '-'
  · rw [hd]
    decide
  · have hv : (97 ≤ c.toNat ∧ c.toNat ≤ 122) ∨ (48 ≤ c.toNat ∧ c.toNat ≤ 57) := by
      simp only [slugKeep, isLowerAlnum, Bool.or_eq_true, Bool.and_eq_true,
        decide_eq_true_eq, beq_iff_eq] at hc
      rcases hc with (h | h) | h
      · exact Or.inl h
      · exact Or.inr h
      · exact absurd h hd
    simp only [Char.toLower]
    rw [if_neg (by omega)]

theorem slugMapDash_fixed (c : Char) (hc : slugKeep c = true) :
    slugMapDash c = c := by
  have h : (c == '.' || c == ' ' || c == '_') = false := by
    cases hd : (c == '.' || c == ' ' || c == '_') with
    | false => rfl
    | true =>
      exfalso
      simp only [Bool.or_eq_true, beq_iff_eq] at hd
      rcases hd with (rfl | rfl) | rfl <;> simp [slugKeep, isLowerAlnum] at hc
  simp [slugMapDash, h]

theorem slugFromName_data_keep (name : String) :
    ∀ c ∈ (slugFromName name).data, slugKeep c = true := by
  intro c hc
  exact (List.mem_filter.mp hc).2

/-- C8 counterexample: on the name "a..b" the code yields "a--b" — the run
of two dots becomes two hyphens — while the claimed collapse-and-strip
shape (slugSpecOfClaim) yields "a-b", so the claimed shape does not hold. -/
theorem slugFromName_run_counterexample :
    slugFromName "a..b" = "a--b" ∧ slugSpecOfClaim "a..b" = "a-b" ∧
      slugFromName "a..b" ≠ slugSpecOfClaim "a..b" :=
  ⟨by decide, by decide, by decide⟩

/-- C8 (amended): slugFromName is a pure function whose output contains
only lowercase alphanumerics and hyphens and which is idempotent; each of
dot, space and underscore is replaced by its own hyphen and every other
non-alphanumeric is deleted, so runs of separators are not collapsed and
leading or trailing hyphens are not stripped. -/
theorem slugFromName_charset_idem (name : String) :
    ((slugFromName name).data.all slugKeep = true) ∧
      slugFromName (slugFromName name) = slugFromName name := by
  have hkeep := slugFromName_data_keep name
  constructor
  · exact List.all_eq_true.mpr hkeep
  · show String.mk _ = _
    rw [map_fixed Char.toLower _ (fun c hc => slugKeep_toLower_fixed c (hkeep c hc)),
      map_fixed slugMapDash _ (fun c hc => slugMapDash_fixed c (hkeep c hc)),
      filter_all_true slugKeep _ hkeep]

/-- C9 counterexample: the tag names "a.b" and "a b" share the slug "a-b";
after processing both, the vocabulary stores the uppercased *later* name
"A B", not the first-seen "A.B" the claim requires. -/
theorem accumulateTags_first_seen_counterexample :
    slugFromName "a.b" = "a-b" ∧ slugFromName "a b" = "a-b" ∧
      jsToUpper "a.b" = "A.B" ∧
      jsGet (accumulateTags [] ["a.b", "a b"]) "a-b" = some ⟨"A B", "a-b"⟩ ∧
      ("A B" : String) ≠ "A.B" :=
  ⟨by decide, by decide, by decide, by decide, by decide⟩

/-- C9 (amended): while building canonical records, each discovered tag
name is stored in the shared vocabulary under its slug with the display
name uppercased, and a later occurrence of the same slug replaces the
stored entry — the last occurrence wins; slugs with no occurrence keep
whatever the accumulator already held. -/
theorem accumulateTags_last_wins (acc : List (String × WebsiteMapTag))
    (tags : List String) (s : String) :
    (∀ t, (tags.filter (fun t => slugFromName t == s)).getLast? = some t →
      jsGet (accumulateTags acc tags) s = some ⟨jsToUpper t, s⟩) ∧
    ((tags.filter (fun t => slugFromName t == s)) = [] →
      jsGet (accumulateTags acc tags) s = jsGet acc s) := by
  induction tags using List.reverseRecOn with
  | nil =>
    constructor
    · intro t h
      cases h
    · intro _
      rfl
  | append_singleton rest t ih =>
    have hacc : accumulateTags acc (rest ++ [t]) =
        jsSet (accumulateTags acc rest) (slugFromName t)
          ⟨jsToUpper t, slugFromName t⟩ := by
      simp [accumulateTags, List.foldl_append]
    by_cases hs : slugFromName t = s
    · constructor
      · intro u hu
        rw [List.filter_append, List.filter_cons, if_pos (by simpa using hs)] at hu
        simp only [List.filter_nil] at hu
        rw [List.getLast?_concat] at hu
        injection hu with hu2
        subst hu2
        rw [hacc, ← hs, jsGet_jsSet_same]
      · intro habs
        rw [List.filter_append, List.filter_cons, if_pos (by simpa using hs)] at habs
        simp at habs
    · have hfil : (rest ++ [t]).filter (fun t => slugFromName t == s) =
          rest.filter (fun t => slugFromName t == s) := by
        rw [List.filter_append, List.filter_cons, if_neg (by simpa using hs)]
        simp
      constructor
      · intro u hu
        rw [hfil] at hu
        rw [hacc, jsGet_jsSet_ne _ _ _ _ (fun he => hs he.symm)]
        exact ih.1 u hu
      · intro hnil
        rw [hfil] at hnil
        rw [hacc, jsGet_jsSet_ne _ _ _ _ (fun he => hs he.symm)]
        exact ih.2 hnil

/-- Witness for the amended C9 theorem at a concrete input: the later name
"a b" determines the stored entry for slug "a-b". -/
theorem accumulateTags_last_wins_witness :
    jsGet (accumulateTags [] ["a.b", "a b"]) "a-b" = some ⟨jsToUpper "a b", "a-b"⟩ :=
  (accumulateTags_last_wins [] ["a.b", "a b"] "a-b").1 "a b" (by decide)

/-- C3: single-image resolution — when an existing destination asset is
present and its digest equals the desired URL's digest, pickImage returns
the asset's file handle; when the asset is absent or the digests differ, it
returns the URL itself. -/
theorem pickImage_resolution (h : String → String) (url : String)
    (b : WebflowImageRef) :
    (getImageHash h (some url) = getImageHash h (some b.url) →
      pickImage h url (some b) = b.fileId) ∧
    (getImageHash h (some url) ≠ getImageHash h (some b.url) →
      pickImage h url (some b) = url) ∧
    pickImage h url none = url := by
  refine ⟨?_, ?_, rfl⟩
  · intro he
    simp [pickImage, sameImage, he]
  · intro hne
    simp [pickImage, sameImage, hne]

/-- Witness for C3 at concrete inputs: equal digests return the handle,
distinct digests return the URL. -/
theorem pickImage_resolution_witness :
    pickImage (fun _ => "d") "u" (some ⟨"f", "w"⟩) = "f" ∧
      pickImage (fun s => s) "u" (some ⟨"f", "w"⟩) = "u" :=
  ⟨(pickImage_resolution (fun _ => "d") "u" ⟨"f", "w"⟩).1 (by decide),
   (pickImage_resolution (fun s => s) "u" ⟨"f", "w"⟩).2.1 (by decide)⟩

/-- C4 counterexample: an existing asset whose file handle is the empty
string is ignored by pickImages even when its digest matches the desired
URL, which is then passed through as the URL instead of being mapped to
the asset's handle. -/
theorem pickImages_empty_handle_counterexample :
    getImageHash (fun _ => "d") (some "cdn") = getImageHash (fun _ => "d") (some "u") ∧
      pickImages (fun _ => "d") ["u"] (some [⟨"", "cdn"⟩]) = ["u"] ∧
      ("u" : String) ≠ "" :=
  ⟨by decide, by decide, by decide⟩

/-- C4 (amended): list-image resolution is a digest-based match over the
existing assets with non-empty file handles: a desired URL whose digest
matches no asset is passed through unchanged, and one that matches some
asset is mapped to the handle of a matching asset, independently of the
position in either list. -/
theorem pickImages_digest_match (h : String → String) (urls : List String)
    (base : List WebflowImageRef) (hfid : ∀ b ∈ base, b.fileId ≠ "") :
    (pickImages h urls (some base)).length = urls.length ∧
    ∀ i, i < urls.length → ∀ u, urls[i]? = some u →
      ((∀ b ∈ base, getImageHash h (some b.url) ≠ getImageHash h (some u)) →
        (pickImages h urls (some base))[i]? = some u) ∧
      ((∃ b ∈ base, getImageHash h (some b.url) = getImageHash h (some u)) →
        ∃ b ∈ base, getImageHash h (some b.url) = getImageHash h (some u) ∧
          (pickImages h urls (some base))[i]? = some b.fileId) := by
  constructor
  · simp [pickImages]
  · intro i hi u hu
    have hres : (pickImages h urls (some base))[i]? =
        some (match jsGet (jsOfEntries ((base.map
            (fun b => (getImageHash h (some b.url), b.fileId))))) (getImageHash h (some u)) with
          | some fid => if fid = "" then u else fid
          | none => u) := by
      simp only [pickImages, Option.getD_some, List.getElem?_map, hu, Option.map_some']
    rw [jsGet_jsOfEntries] at hres
    constructor
    · intro hno
      have hnone : lookupLast (base.map (fun b => (getImageHash h (some b.url), b.fileId)))
          (getImageHash h (some u)) = none := by
        rw [lookupLast_eq_none_iff]
        intro p hp
        rcases List.mem_map.mp hp with ⟨b, hb, rfl⟩
        exact hno b hb
      rw [hnone] at hres
      exact hres
    · intro hex
      rcases hex with ⟨b0, hb0, hdig0⟩
      cases hl : lookupLast (base.map (fun b => (getImageHash h (some b.url), b.fileId)))
          (getImageHash h (some u)) with
      | none =>
        exfalso
        exact (lookupLast_eq_none_iff.mp hl) _
          (List.mem_map.mpr ⟨b0, hb0, rfl⟩) hdig0
      | some fid =>
        have hmem := lookupLast_eq_some_mem hl
        rcases List.mem_map.mp hmem with ⟨b, hb, hbe⟩
        injection hbe with hbe1 hbe2
        refine ⟨b, hb, hbe1, ?_⟩
        rw [hl] at hres
        have hres2 : (pickImages h urls (some base))[i]? =
            some (if fid = "" then u else fid) := hres
        rw [if_neg (show ¬fid = "" from hbe2 ▸ hfid b hb)] at hres2
        rw [hbe2]
        exact hres2

/-- Witness for the amended C4 theorem at a concrete input: the single
desired URL is mapped to the handle of the digest-matching asset. -/
theorem pickImages_digest_match_witness :
    ∃ b ∈ [(⟨"f", "w"⟩ : WebflowImageRef)],
      getImageHash (fun _ => "d") (some b.url) = getImageHash (fun _ => "d") (some "u") ∧
        (pickImages (fun _ => "d") ["u"] (some [⟨"f", "w"⟩]))[0]? = some b.fileId :=
  ((pickImages_digest_match (fun _ => "d") ["u"] [⟨"f", "w"⟩]
      (by decide)).2 0 (by decide) "u" (by decide)).2 ⟨⟨"f", "w"⟩, by decide, by decide⟩

/-! ## Chunking lemmas (claim C7) -/

theorem chunkListGo_length_le {α : Type} (n : Nat) :
    ∀ fuel (l : List α), ∀ b ∈ chunkListGo n fuel l, b.length ≤ n := by
  intro fuel
  induction fuel with
  | zero =>
    intro l b hb
    cases l with
    | nil => cases hb
    | cons x xs => cases hb
  | succ fuel ih =>
    intro l b hb
    cases l with
    | nil => cases hb
    | cons x xs =>
      simp only [chunkListGo] at hb
      by_cases hn : n = 0
      · rw [if_pos hn] at hb
        cases hb
      · rw [if_neg hn] at hb
        rcases List.mem_cons.mp hb with rfl | hb2
        · rw [List.length_take]
          omega
        · exact ih _ b hb2

theorem chunkListGo_join {α : Type} (n : Nat) (hn : 0 < n) :
    ∀ fuel (l : List α), l.length ≤ fuel → (chunkListGo n fuel l).flatten = l := by
  intro fuel
  induction fuel with
  | zero =>
    intro l hl
    cases l with
    | nil => rfl
    | cons x xs => simp at hl
  | succ fuel ih =>
    intro l hl
    cases l with
    | nil => rfl
    | cons x xs =>
      simp only [chunkListGo]
      rw [if_neg (by omega)]
      rw [List.flatten_cons, ih ((x :: xs).drop n) (by simp at hl ⊢; omega),
        List.take_append_drop]

theorem chunkList_join {α : Type} (n : Nat) (hn : 0 < n) (l : List α) :
    (chunkList n l).flatten = l :=
  chunkListGo_join n hn l.length l (Nat.le_refl _)

/-- C7: the publish step selects exactly the items whose lastPublished is
missing or strictly older than lastUpdated (given distinct item ids), and
publishes them in batches of at most 100 identifiers per call which
together cover exactly the selected identifiers; dry-run publishes
nothing. -/
theorem publish_selection {F : Type} (items : List (Item F))
    (hids : (items.map Item.id).Nodup) :
    (∀ i ∈ items, (i.id ∈ publishUpdatedItemIds items ↔
      (i.lastPublished = none ∨ ∃ p, i.lastPublished = some p ∧ p < i.lastUpdated))) ∧
    (∀ b ∈ publishBatches items false, b.length ≤ 100) ∧
    (publishBatches items false).flatten = publishUpdatedItemIds items ∧
    publishBatches items true = [] := by
  refine ⟨?_, ?_, ?_, rfl⟩
  · intro i hi
    have hpred : (i.lastPublished = none ∨ ∃ p, i.lastPublished = some p ∧
        p < i.lastUpdated) ↔ publishPred i = true := by
      unfold publishPred
      cases hp : i.lastPublished with
      | none => simp
      | some p => simp [hp]
    rw [hpred]
    constructor
    · intro hmem
      rcases List.mem_map.mp hmem with ⟨j, hj, hje⟩
      have hjm := List.mem_filter.mp hj
      have : j = i :=
        List.inj_on_of_nodup_map hids hjm.1 hi hje
      rw [← this]
      exact hjm.2
    · intro hp
      exact List.mem_map.mpr ⟨i, List.mem_filter.mpr ⟨hi, hp⟩, rfl⟩
  · intro b hb
    unfold publishBatches at hb
    rw [if_neg (by simp)] at hb
    exact chunkListGo_length_le 100 _ _ b hb
  · unfold publishBatches
    rw [if_neg (by simp)]
    exact chunkList_join 100 (by omega) _

def pubItemsEx : List (Item TagFields) :=
  [⟨"a", none, 5, ⟨"n", "s"⟩⟩, ⟨"b", some 3, 7, ⟨"n", "s"⟩⟩, ⟨"c", some 9, 7, ⟨"n", "s"⟩⟩]

/-- Witness for C7 at a concrete list of three items with distinct ids. -/
theorem publish_selection_witness :
    (∀ i ∈ pubItemsEx, (i.id ∈ publishUpdatedItemIds pubItemsEx ↔
      (i.lastPublished = none ∨ ∃ p, i.lastPublished = some p ∧ p < i.lastUpdated))) ∧
    (∀ b ∈ publishBatches pubItemsEx false, b.length ≤ 100) ∧
    (publishBatches pubItemsEx false).flatten = publishUpdatedItemIds pubItemsEx ∧
    publishBatches pubItemsEx true = [] :=
  publish_selection pubItemsEx (by decide)

/-! ## Claim C5: canonical-record build failures -/

/-- The disjunction of all conditions the end-of-build sanity check
rejects: a field that is undefined or the empty string.  No condition
constrains the value of a defined number, so zero values are accepted. -/
def hasInvalidField (i : WebsiteMapInfo) : Prop :=
  i.name = "" ∨ i.rowyId = "" ∨ i.minimapUrl = "" ∨ i.minimapThumbUrl = "" ∨
  i.downloadUrl = none ∨ i.downloadUrl = some "" ∨ i.width = none ∨ i.height = none ∨
  i.title = some "" ∨ i.description = some "" ∨ i.author = "" ∨ i.bgImageUrl = some "" ∨
  i.perspectiveShotUrl = some "" ∨ i.windMin = none ∨ i.windMax = none ∨
  i.textureMapUrl = "" ∨ i.heightMapUrl = "" ∨ i.metalMapUrl = ""

instance (i : WebsiteMapInfo) : Decidable (hasInvalidField i) := by
  unfold hasInvalidField
  infer_instance

theorem ite_some_none {c : Prop} [Decidable c] {k : String} {rest : Option String}
    (h : (if c then some k else rest) = none) : ¬c ∧ rest = none := by
  by_cases hc : c
  · rw [if_pos hc] at h
    exact Option.noConfusion h
  · rw [if_neg hc] at h
    exact ⟨hc, h⟩

theorem firstInvalidKey_eq_none_iff (i : WebsiteMapInfo) :
    firstInvalidKey i = none ↔ ¬hasInvalidField i := by
  constructor
  · intro h
    unfold firstInvalidKey at h
    obtain ⟨n1, h⟩ := ite_some_none h
    obtain ⟨n2, h⟩ := ite_some_none h
    obtain ⟨n3, h⟩ := ite_some_none h
    obtain ⟨n4, h⟩ := ite_some_none h
    obtain ⟨n5, h⟩ := ite_some_none h
    obtain ⟨n6, h⟩ := ite_some_none h
    obtain ⟨n7, h⟩ := ite_some_none h
    obtain ⟨n8, h⟩ := ite_some_none h
    obtain ⟨n9, h⟩ := ite_some_none h
    obtain ⟨n10, h⟩ := ite_some_none h
    obtain ⟨n11, h⟩ := ite_some_none h
    obtain ⟨n12, h⟩ := ite_some_none h
    obtain ⟨n13, h⟩ := ite_some_none h
    obtain ⟨n14, h⟩ := ite_some_none h
    obtain ⟨n15, h⟩ := ite_some_none h
    obtain ⟨n16, h⟩ := ite_some_none h
    obtain ⟨n17, h⟩ := ite_some_none h
    rintro (hb|hb|hb|hb|hb|hb|hb|hb|hb|hb|hb|hb|hb|hb|hb|hb|hb|hb)
    · exact n1 hb
    · exact n2 hb
    · exact n3 hb
    · exact n4 hb
    · exact n5 (Or.inl hb)
    · exact n5 (Or.inr hb)
    · exact n6 hb
    · exact n7 hb
    · exact n8 hb
    · exact n9 hb
    · exact n10 hb
    · exact n11 hb
    · exact n12 hb
    · exact n13 hb
    · exact n14 hb
    · exact n15 hb
    · exact n16 hb
    · exact n17 hb
  · intro h
    unfold hasInvalidField at h
    push_neg at h
    obtain ⟨n1, n2, n3, n4, n5, n6, n7, n8, n9, n10, n11, n12, n13, n14, n15, n16, n17, n18⟩ := h
    unfold firstInvalidKey
    rw [if_neg n1, if_neg n2, if_neg n3, if_neg n4, if_neg (not_or.mpr ⟨n5, n6⟩),
      if_neg n7, if_neg n8, if_neg n9, if_neg n10, if_neg n11, if_neg n12, if_neg n13,
      if_neg n14, if_neg n15, if_neg n16, if_neg n17, if_neg n18]

/-- C5: buildOneStep fails with a descriptive error when the CDN entry for
the map's source name is missing, when a required auxiliary file is absent
from the metadata, or when a field of the constructed record is undefined
or the empty string; it succeeds — with the constructed record and the
extended tag vocabulary — whenever the lookups succeed, the photo list is
non-empty, the required files are present, and no field is
undefined-or-empty, independently of numeric values; and a build failure
makes syncCommand abort with an empty call trace, before any remote
mutating call. -/
theorem buildWebflowInfo_failure_modes (enc : String → String)
    (derive : MapInfo → MapMeta → DerivedInfo)
    (cdnInfo : List (String × MapCDNInfo)) (mapsMetadata : List (String × MapMeta))
    (rowyId : String) (map : MapInfo) (acc : List (String × WebsiteMapTag)) :
    (jsGet cdnInfo map.springName = none →
      ∃ e, buildOneStep enc derive cdnInfo mapsMetadata rowyId map acc = .error e) ∧
    (∀ meta, jsGet mapsMetadata rowyId = some meta →
      (∃ f ∈ requiredExtractedFiles, f ∉ meta.extractedFiles) →
      ∃ e, buildOneStep enc derive cdnInfo mapsMetadata rowyId map acc = .error e) ∧
    (∀ mi meta photo0 rest, jsGet cdnInfo map.springName = some mi →
      jsGet mapsMetadata rowyId = some meta → map.photo = photo0 :: rest →
      hasInvalidField (buildOneMapInfo enc rowyId map mi meta (derive map meta) photo0) →
      ∃ e, buildOneStep enc derive cdnInfo mapsMetadata rowyId map acc = .error e) ∧
    (∀ mi meta photo0 rest, jsGet cdnInfo map.springName = some mi →
      jsGet mapsMetadata rowyId = some meta → map.photo = photo0 :: rest →
      (∀ f ∈ requiredExtractedFiles, f ∈ meta.extractedFiles) →
      ¬hasInvalidField (buildOneMapInfo enc rowyId map mi meta (derive map meta) photo0) →
      buildOneStep enc derive cdnInfo mapsMetadata rowyId map acc =
        .ok (buildOneMapInfo enc rowyId map mi meta (derive map meta) photo0,
             accumulateTags acc (derive map meta).tags)) ∧
    (∀ (h : String → String) (src : SyncSources) (s0 : Server) (dryRun : Bool) e,
      buildWebflowInfo enc derive src.maps src.cdnInfo src.mapsMetadata = .error e →
      syncCommand h enc derive src s0 dryRun = ⟨s0, [], some e⟩) := by
  refine ⟨?_, ?_, ?_, ?_, ?_⟩
  · intro hc
    refine ⟨"Missing download url for " ++ map.springName, ?_⟩
    simp only [buildOneStep, hc]
  · intro meta hm hf
    refine ⟨?_, ?_⟩
    · exact
        match jsGet cdnInfo map.springName with
        | none => "Missing download url for " ++ map.springName
        | some _ => "AssertionError: missing extracted file for " ++ map.springName
    cases hc : jsGet cdnInfo map.springName with
    | none => simp only [buildOneStep, hc]
    | some mi =>
      have hall : requiredExtractedFiles.all (fun f => meta.extractedFiles.contains f) = false := by
        rcases hf with ⟨f, hfm, hfa⟩
        rw [List.all_eq_false]
        exact ⟨f, hfm, by simpa using hfa⟩
      simp only [buildOneStep, hc, hm, hall, Bool.not_false, if_true]
  · intro mi meta photo0 rest hc hm hp hbad
    by_cases hall : requiredExtractedFiles.all (fun f => meta.extractedFiles.contains f) = true
    · have hbadk : firstInvalidKey
          (buildOneMapInfo enc rowyId map mi meta (derive map meta) photo0) ≠ none :=
        fun hn => ((firstInvalidKey_eq_none_iff _).mp hn) hbad
      rcases Option.ne_none_iff_exists'.mp hbadk with ⟨k, hk⟩
      refine ⟨"Missing value for map " ++ map.springName ++ " key " ++ k, ?_⟩
      simp only [buildOneStep, hc, hm, hall, Bool.not_true, if_false, hp, hk]
      rw [if_neg (by simp)]
    · rw [Bool.not_eq_true] at hall
      refine ⟨"AssertionError: missing extracted file for " ++ map.springName, ?_⟩
      simp only [buildOneStep, hc, hm, hall, Bool.not_false, if_true]
  · intro mi meta photo0 rest hc hm hp hfiles hok
    have hall : requiredExtractedFiles.all (fun f => meta.extractedFiles.contains f) = true := by
      rw [List.all_eq_true]
      intro f hf
      simpa using hfiles f hf
    have hnone := (firstInvalidKey_eq_none_iff
      (buildOneMapInfo enc rowyId map mi meta (derive map meta) photo0)).mpr hok
    simp only [buildOneStep, hc, hm, hall, Bool.not_true, if_false, hp, hnone]
    rw [if_neg (by simp)]
  · intro h src s0 dryRun e hb
    simp only [syncCommand, hb]

def c5map : MapInfo :=
  { springName := "sm", displayName := "Map", author := "au", title := none,
    description := none, photo := [⟨"ph"⟩], backgroundImage := [],
    perspectiveShot := [], inGameShots := [], playerCount := 0, teamCount := 0 }

def c5meta : MapMeta :=
  ⟨⟨"b", "p"⟩, ["height.png", "metal.png", "texture.jpg"]⟩

def c5derive : MapInfo → MapMeta → DerivedInfo :=
  fun _ _ => ⟨some 0, some 0, some 0, some 0, none, [], []⟩

/-- Witness for C5 at concrete inputs: a missing CDN entry fails; with the
CDN entry present and every numeric field zero, the build succeeds (zeros
are accepted); a failing build aborts syncCommand with an empty trace. -/
theorem buildWebflowInfo_failure_modes_witness :
    (∃ e, buildOneStep (fun s => s) c5derive [] [("r", c5meta)] "r" c5map [] = .error e) ∧
    buildOneStep (fun s => s) c5derive [("sm", ⟨["http://m"]⟩)] [("r", c5meta)] "r" c5map []
      = .ok (buildOneMapInfo (fun s => s) "r" c5map ⟨["http://m"]⟩ c5meta
          (c5derive c5map c5meta) ⟨"ph"⟩, accumulateTags [] (c5derive c5map c5meta).tags) ∧
    syncCommand (fun _ => "d") (fun s => s) c5derive ⟨[("r", c5map)], [], []⟩ ⟨[], [], [], 0⟩
      false = ⟨⟨[], [], [], 0⟩, [], some "Missing download url for sm"⟩ :=
  ⟨(buildWebflowInfo_failure_modes (fun s => s) c5derive [] [("r", c5meta)] "r" c5map []).1
      (by decide),
   (buildWebflowInfo_failure_modes (fun s => s) c5derive [("sm", ⟨["http://m"]⟩)]
      [("r", c5meta)] "r" c5map []).2.2.2.1 ⟨["http://m"]⟩ c5meta ⟨"ph"⟩ [] (by decide)
      (by decide) rfl (by decide) (by decide),
   (buildWebflowInfo_failure_modes (fun s => s) c5derive [] [] "r" c5map []).2.2.2.2
      (fun _ => "d") ⟨[("r", c5map)], [], []⟩ ⟨[], [], [], 0⟩ false
      "Missing download url for sm" rfl⟩

/-! ## Claim C10: sentinels for absent destination fields -/

theorem isSameRefs_eq_iff : ∀ (a b : List String), isSameRefs a b = true ↔ a = b
  | [], [] => by simp [isSameRefs]
  | [], _ :: _ => by simp [isSameRefs]
  | _ :: _, [] => by simp [isSameRefs]
  | x :: xs, y :: ys => by
    have ih := isSameRefs_eq_iff xs ys
    simp only [isSameRefs, List.length_cons, List.zip_cons_cons, List.all_cons,
      Bool.and_eq_true, beq_iff_eq] at ih ⊢
    constructor
    · rintro ⟨hlen, hxy, hall⟩
      have hxs : xs = ys := ih.mp ⟨by omega, hall⟩
      simp [hxy, hxs]
    · rintro h
      injection h with h1 h2
      subst h1
      subst h2
      refine ⟨rfl, rfl, (ih.mpr rfl).2⟩

theorem sameImages_nil_right (h : String → String) (l : List String)
    (he : sameImages h l [] = true) : l = [] := by
  cases l with
  | nil => rfl
  | cons x xs => simp [sameImages] at he

theorem getImageHash_empty (h : String → String) : getImageHash h (some "") = "" := rfl

/-- C10: constructing the internal representation from an item whose field
data lacks fields is total — an absent required number reads as -1, an
absent required string as the empty string, an absent array as the empty
list, an absent optional field as null — and such an item is never judged
equal to a canonical record whose corresponding field holds a genuine
non-sentinel value (the digest oracle maps no non-empty URL to the empty
digest), so an update is triggered. -/
theorem read_missing_field_sentinels (h : String → String)
    (hne : ∀ s, s ≠ "" → h s ≠ "")
    (it : Item WebflowMapFieldsRead) (info : WebsiteMapInfo) :
    ((it.fieldData.width = none → (WebflowMapInfo.ofItem it).width = some (-1)) ∧
     (it.fieldData.rowyid = none → (WebflowMapInfo.ofItem it).rowyId = "") ∧
     (it.fieldData.minimap = none → (WebflowMapInfo.ofItem it).minimapUrl = "") ∧
     (it.fieldData.gameTags = none → (WebflowMapInfo.ofItem it).mapTags = []) ∧
     (it.fieldData.moreImages = none → (WebflowMapInfo.ofItem it).moreImagesUrl = []) ∧
     (it.fieldData.title = none → (WebflowMapInfo.ofItem it).title = none)) ∧
    ((it.fieldData.width = none → info.width ≠ some (-1) →
       isWebflowMapInfoEqual h info (WebflowMapInfo.ofItem it).toWebsiteMapInfo = false) ∧
     (it.fieldData.rowyid = none → info.rowyId ≠ "" →
       isWebflowMapInfoEqual h info (WebflowMapInfo.ofItem it).toWebsiteMapInfo = false) ∧
     (it.fieldData.minimap = none → info.minimapUrl ≠ "" →
       isWebflowMapInfoEqual h info (WebflowMapInfo.ofItem it).toWebsiteMapInfo = false) ∧
     (it.fieldData.gameTags = none → info.mapTags ≠ [] →
       isWebflowMapInfoEqual h info (WebflowMapInfo.ofItem it).toWebsiteMapInfo = false) ∧
     (it.fieldData.moreImages = none → info.moreImagesUrl ≠ [] →
       isWebflowMapInfoEqual h info (WebflowMapInfo.ofItem it).toWebsiteMapInfo = false) ∧
     (it.fieldData.title = none → info.title ≠ none →
       isWebflowMapInfoEqual h info (WebflowMapInfo.ofItem it).toWebsiteMapInfo = false)) := by
  constructor
  · refine ⟨?_, ?_, ?_, ?_, ?_, ?_⟩ <;>
      (intro hf; simp [WebflowMapInfo.ofItem, readWebsiteInfo, hf, reqRNum, reqRStr, reqRArr, reqR, optR])
  · have hdecomp : isWebflowMapInfoEqual h info (WebflowMapInfo.ofItem it).toWebsiteMapInfo
        = true →
        (sameImage h (some info.minimapUrl)
          (some (WebflowMapInfo.ofItem it).minimapUrl) = true ∧
         sameImages h info.moreImagesUrl (WebflowMapInfo.ofItem it).moreImagesUrl = true ∧
         info.rowyId = (WebflowMapInfo.ofItem it).rowyId ∧
         info.width = (WebflowMapInfo.ofItem it).width ∧
         info.title = (WebflowMapInfo.ofItem it).title ∧
         isSameRefs info.mapTags (WebflowMapInfo.ofItem it).mapTags = true) := by
      intro heq
      simp only [isWebflowMapInfoEqual, Bool.and_eq_true, beq_iff_eq, and_assoc] at heq
      obtain ⟨e1, e2, e3, e4, e5, e6, e7, e8, e9, e10, e11, e12, e13, e14, e15, e16,
        e17, e18, e19, e20, e21, e22, e23, e24⟩ := heq
      exact ⟨e1, e5, e10, e12, e15, e23⟩
    refine ⟨?_, ?_, ?_, ?_, ?_, ?_⟩ <;> intro hf hval <;>
      (rw [← Bool.not_eq_true]; intro heq; obtain ⟨e1, e5, e10, e12, e15, e23⟩ := hdecomp heq)
    · apply hval
      rw [e12]
      simp [WebflowMapInfo.ofItem, readWebsiteInfo, hf, reqRNum, reqR]
    · apply hval
      rw [e10]
      simp [WebflowMapInfo.ofItem, readWebsiteInfo, hf, reqRStr, reqR]
    · have hmini : (WebflowMapInfo.ofItem it).minimapUrl = "" := by
        simp [WebflowMapInfo.ofItem, readWebsiteInfo, hf, reqRStr, reqR]
      rw [hmini] at e1
      unfold sameImage at e1
      rw [beq_iff_eq, getImageHash_empty] at e1
      have : getImageHash h (some info.minimapUrl) = h info.minimapUrl := by
        simp [getImageHash, hval]
      rw [this] at e1
      exact hne info.minimapUrl hval e1
    · apply hval
      have htags : (WebflowMapInfo.ofItem it).mapTags = [] := by
        simp [WebflowMapInfo.ofItem, readWebsiteInfo, hf, reqRArr, reqR]
      rw [htags] at e23
      exact (isSameRefs_eq_iff _ _).mp e23
    · apply hval
      have hmore : (WebflowMapInfo.ofItem it).moreImagesUrl = [] := by
        simp [WebflowMapInfo.ofItem, readWebsiteInfo, hf, reqRArr, reqR]
      rw [hmore] at e5
      exact sameImages_nil_right h _ e5
    · apply hval
      rw [e15]
      simp [WebflowMapInfo.ofItem, readWebsiteInfo, hf, optR]

def c10fields : WebflowMapFieldsRead :=
  { name := "N", slug := "n", rowyid := none, minimap := none,
    minimapPhotoThumb := none, downloadurl := none, width := none, height := none,
    mapsize := none, title := none, description := none, author := none,
    bgImage := none, perspectiveShot := none, moreImages := none, windMin := none,
    windMax := none, tidalStrength := none, teamCount := none, maxPlayers := none,
    miniMap := none, heightMap := none, metalMap := none, gameTags := none,
    terrainTypes := none }

def c10info : WebsiteMapInfo :=
  { name := "N", rowyId := "r", minimapUrl := "u", minimapThumbUrl := "u2",
    downloadUrl := some "d", width := some 3, height := some 4, mapSize := some 12,
    title := some "t", description := none, author := "a", bgImageUrl := none,
    perspectiveShotUrl := none, moreImagesUrl := ["m"], windMin := some 0,
    windMax := some 0, tidalStrength := none, teamCount := 2, maxPlayers := 8,
    textureMapUrl := "tx", heightMapUrl := "hm", metalMapUrl := "mm",
    mapTags := ["t1"], mapTerrains := ["sea"] }

/-- Witness for C10 at a concrete item with every optional field absent: a
genuine width forces inequality, triggering an update. -/
theorem read_missing_field_sentinels_witness :
    isWebflowMapInfoEqual (fun _ => "d") c10info
      (WebflowMapInfo.ofItem ⟨"i1", none, 0, c10fields⟩).toWebsiteMapInfo = false :=
  (read_missing_field_sentinels (fun _ => "d") (fun _ _ => (by decide : ("d" : String) ≠ ""))
    ⟨"i1", none, 0, c10fields⟩ c10info).2.1 rfl (by decide)

/-! ## Dry-run lemmas (claim C2) -/

theorem syncTagAdditionsGo_dry (equalsFn : WebsiteMapTag → WebflowMapTag → Bool)
    (c : WfColl) (src : List (String × WebsiteMapTag))
    (dest : List (String × WebflowMapTag)) (s : Server) :
    syncTagAdditionsGo equalsFn c true src dest s = ⟨dest, s, [], none⟩ := by
  induction src generalizing dest s with
  | nil => rfl
  | cons p rest ih =>
    rcases p with ⟨k, item⟩
    unfold syncTagAdditionsGo
    cases jsGet dest item.slug with
    | none => simpa using ih dest s
    | some webflowTag =>
      by_cases heq : equalsFn item webflowTag = true
      · simpa [heq] using ih dest s
      · simp only [heq]
        simpa using ih dest s

theorem syncTagRemovalsGo_dry (c : WfColl) (src : List (String × WebsiteMapTag))
    (toVisit dest : List (String × WebflowMapTag)) (s : Server) :
    syncTagRemovalsGo c true src toVisit dest s = ⟨dest, s, [], none⟩ := by
  induction toVisit generalizing dest s with
  | nil => rfl
  | cons p rest ih =>
    rcases p with ⟨k, item⟩
    unfold syncTagRemovalsGo
    by_cases hh : jsHas src item.slug = true
    · simpa [hh] using ih dest s
    · simp only [Bool.not_eq_true] at hh
      simpa [hh] using ih dest s

theorem resolveRefList_dry (refs : List (String × WebflowMapTag)) (fieldName : String)
    (l : List String) :
    resolveRefList refs true fieldName l =
      .ok (l.map (fun r =>
        match jsGet refs r with
        | some t => t.item.id
        | none => r)) := by
  induction l with
  | nil => rfl
  | cons r rest ih =>
    unfold resolveRefList
    cases hr : jsGet refs r with
    | none => simp [ih, hr]
    | some t => simp [ih, hr]

theorem resolveItemRefsInMapInfos_dry (mapInfos : List (String × WebsiteMapInfo))
    (field : RefField) (refs : List (String × WebflowMapTag)) :
    resolveItemRefsInMapInfos mapInfos field refs true =
      .ok (mapInfos.map (fun p =>
        (p.1, p.2.setRefField field ((p.2.getRefField field).map (fun r =>
          match jsGet refs r with
          | some t => t.item.id
          | none => r))))) := by
  induction mapInfos with
  | nil => rfl
  | cons p rest ih =>
    rcases p with ⟨k, info⟩
    unfold resolveItemRefsInMapInfos
    rw [resolveRefList_dry, ih]
    simp

theorem syncMapsAdditionsGo_dry (h : String → String)
    (src : List (String × WebsiteMapInfo)) (dest : List (String × WebflowMapInfo))
    (s : Server) (ups : List (Bool × WebsiteMapInfo × WebflowMapInfo)) :
    ∃ ups1, syncMapsAdditionsGo h true src dest s ups = (dest, s, [], ups1) := by
  induction src generalizing ups with
  | nil => exact ⟨ups, rfl⟩
  | cons p rest ih =>
    rcases p with ⟨k, map⟩
    unfold syncMapsAdditionsGo
    cases jsGet dest map.rowyId with
    | none => simpa using ih ups
    | some webflowMap => simpa using ih _

theorem syncMapsRemovalsGo_dry (src : List (String × WebsiteMapInfo))
    (toVisit dest : List (String × WebflowMapInfo)) (s : Server) :
    syncMapsRemovalsGo true src toVisit dest s = (dest, s, []) := by
  induction toVisit generalizing dest s with
  | nil => rfl
  | cons p rest ih =>
    rcases p with ⟨k, m⟩
    unfold syncMapsRemovalsGo
    by_cases hh : jsHas src m.rowyId = true
    · simpa [hh] using ih dest s
    · simp only [Bool.not_eq_true] at hh
      simpa [hh] using ih dest s

theorem syncMapsUpdatesGo_dry (h : String → String)
    (ups : List (Bool × WebsiteMapInfo × WebflowMapInfo))
    (dest : List (String × WebflowMapInfo)) (s : Server) :
    syncMapsUpdatesGo h true ups dest s = ⟨dest, s, [], none⟩ := by
  induction ups generalizing dest s with
  | nil => rfl
  | cons p rest ih =>
    rcases p with ⟨same, map, webflowMap⟩
    unfold syncMapsUpdatesGo
    by_cases hs : same = true
    · simpa [hs] using ih dest s
    · simp only [Bool.not_eq_true] at hs
      simpa [hs] using ih dest s

theorem syncMapsToWebflow_dry (h : String → String)
    (src : List (String × WebsiteMapInfo)) (dest : List (String × WebflowMapInfo))
    (s : Server) : syncMapsToWebflow h src dest s true = ⟨dest, s, [], none⟩ := by
  unfold syncMapsToWebflow
  rcases syncMapsAdditionsGo_dry h src dest s [] with ⟨ups1, hadd⟩
  rw [hadd]
  simp only
  rw [syncMapsRemovalsGo_dry]
  simp only
  rw [syncMapsUpdatesGo_dry]
  rfl

theorem publishPhase_dry {F : Type} (c : WfColl) (items : List (Item F)) (s : Server) :
    publishPhase c items s true = (s, []) := rfl

theorem resolveRefList_missing (refs : List (String × WebflowMapTag))
    (fieldName : String) (l : List String)
    (hex : ∃ r ∈ l, jsGet refs r = none) :
    ∃ e, resolveRefList refs false fieldName l = .error e := by
  induction l with
  | nil =>
    rcases hex with ⟨r, hr, _⟩
    cases hr
  | cons r0 rest ih =>
    unfold resolveRefList
    cases h0 : jsGet refs r0 with
    | none => exact ⟨"Missing " ++ fieldName ++ " " ++ r0, rfl⟩
    | some t =>
      have hex2 : ∃ r ∈ rest, jsGet refs r = none := by
        rcases hex with ⟨r, hr, hn⟩
        rcases List.mem_cons.mp hr with rfl | hm
        · rw [h0] at hn
          cases hn
        · exact ⟨r, hm, hn⟩
      rcases ih hex2 with ⟨e, he⟩
      exact ⟨e, by rw [he]⟩

theorem resolveItemRefsInMapInfos_missing (mapInfos : List (String × WebsiteMapInfo))
    (field : RefField) (refs : List (String × WebflowMapTag)) :
    (∃ p ∈ mapInfos, ∃ r ∈ p.2.getRefField field, jsGet refs r = none) →
    ∃ e, resolveItemRefsInMapInfos mapInfos field refs false = .error e := by
  intro hex
  induction mapInfos with
  | nil =>
    rcases hex with ⟨p, hp, _⟩
    cases hp
  | cons q rest ih =>
    rcases q with ⟨k, info⟩
    unfold resolveItemRefsInMapInfos
    rcases hex with ⟨p, hp, r, hr, hnone⟩
    rcases List.mem_cons.mp hp with rfl | hmem
    · rcases resolveRefList_missing refs (refFieldName field) _ ⟨r, hr, hnone⟩ with ⟨e, he⟩
      exact ⟨e, by rw [he]⟩
    · cases hcur : resolveRefList refs false (refFieldName field)
          (info.getRefField field) with
      | error e => exact ⟨e, rfl⟩
      | ok l =>
        rcases ih ⟨p, hmem, r, hr, hnone⟩ with ⟨e, he⟩
        exact ⟨e, by rw [he]⟩

/-- C2: with the dry-run flag the sync performs zero mutating calls and
leaves the destination state identical, whatever the computed diffs; in
dry-run an unresolved tag or terrain reference is passed through unresolved
and resolution never fails, whereas outside dry-run a missing reference in
some record raises an error. -/
theorem dry_run_purity (h enc : String → String)
    (derive : MapInfo → MapMeta → DerivedInfo) (src : SyncSources) (s0 : Server)
    (mapInfos : List (String × WebsiteMapInfo)) (field : RefField)
    (refs : List (String × WebflowMapTag)) :
    ((syncCommand h enc derive src s0 true).server = s0 ∧
     (syncCommand h enc derive src s0 true).trace = []) ∧
    (resolveItemRefsInMapInfos mapInfos field refs true =
      .ok (mapInfos.map (fun p =>
        (p.1, p.2.setRefField field ((p.2.getRefField field).map (fun r =>
          match jsGet refs r with
          | some t => t.item.id
          | none => r)))))) ∧
    ((∃ p ∈ mapInfos, ∃ r ∈ p.2.getRefField field, jsGet refs r = none) →
      ∃ e, resolveItemRefsInMapInfos mapInfos field refs false = .error e) := by
  refine ⟨?_, resolveItemRefsInMapInfos_dry mapInfos field refs, ?_⟩
  · unfold syncCommand
    cases hb : buildWebflowInfo enc derive src.maps src.cdnInfo src.mapsMetadata with
    | error e => exact ⟨rfl, rfl⟩
    | ok v =>
      rcases v with ⟨rowyMapsInfo, rowyMapTagsInfo⟩
      simp only [syncCollectionToWebflowAdditions, syncTagAdditionsGo_dry,
        resolveItemRefsInMapInfos_dry, syncMapsToWebflow_dry, publishPhase_dry,
        syncCollectionToWebflowRemovals, syncTagRemovalsGo_dry]
      exact ⟨by trivial, by trivial⟩
  · exact resolveItemRefsInMapInfos_missing mapInfos field refs

/-- Witness for C2: a dry run on a concrete populated destination keeps the
state and makes no calls, and the same unresolved reference that dry-run
tolerates raises outside dry-run. -/
theorem dry_run_purity_witness :
    ((syncCommand (fun _ => "d") (fun s => s) cexDerive ⟨[], [], []⟩ cexServer true).server
        = cexServer ∧
     (syncCommand (fun _ => "d") (fun s => s) cexDerive ⟨[], [], []⟩ cexServer true).trace
        = []) ∧
    ∃ e, resolveItemRefsInMapInfos [("r", c10info)] .mapTags [] false = .error e :=
  ⟨(dry_run_purity (fun _ => "d") (fun s => s) cexDerive ⟨[], [], []⟩ cexServer
      [("r", c10info)] .mapTags []).1,
   (dry_run_purity (fun _ => "d") (fun s => s) cexDerive ⟨[], [], []⟩ cexServer
      [("r", c10info)] .mapTags []).2.2 ⟨("r", c10info), by decide, "t1", by decide, rfl⟩⟩

/-! ## Trace-shape lemmas (claim C6) -/

theorem syncTagAdditionsGo_trace_kinds (equalsFn : WebsiteMapTag → WebflowMapTag → Bool)
    (c : WfColl) (dry : Bool) (src : List (String × WebsiteMapTag))
    (dest : List (String × WebflowMapTag)) (s : Server) :
    ∀ e ∈ (syncTagAdditionsGo equalsFn c dry src dest s).trace,
      e.isTagOrTerrainDelete = false ∧ e.isMapUpdate = false := by
  induction src generalizing dest s with
  | nil =>
    intro e he
    cases he
  | cons p rest ih =>
    rcases p with ⟨k, item⟩
    intro e he
    unfold syncTagAdditionsGo at he
    simp only [] at he
    split at he
    · split at he
      · exact ih _ _ e he
      · split at he
        · rcases List.mem_singleton.mp he with rfl
          exact ⟨rfl, rfl⟩
        · rcases List.mem_cons.mp he with rfl | he2
          · exact ⟨rfl, rfl⟩
          · exact ih _ _ e he2
    · split at he
      · exact ih _ _ e he
      · split at he
        · exact ih _ _ e he
        · split at he
          · rcases List.mem_singleton.mp he with rfl
            exact ⟨rfl, rfl⟩
          · split at he
            · rcases List.mem_singleton.mp he with rfl
              exact ⟨rfl, rfl⟩
            · rcases List.mem_cons.mp he with rfl | he2
              · exact ⟨rfl, rfl⟩
              · exact ih _ _ e he2

theorem syncTagRemovalsGo_trace_kinds (c : WfColl) (dry : Bool)
    (src : List (String × WebsiteMapTag)) (toVisit dest : List (String × WebflowMapTag))
    (s : Server) :
    ∀ e ∈ (syncTagRemovalsGo c dry src toVisit dest s).trace,
      e.isMapUpdate = false := by
  induction toVisit generalizing dest s with
  | nil =>
    intro e he
    cases he
  | cons p rest ih =>
    rcases p with ⟨k, item⟩
    intro e he
    unfold syncTagRemovalsGo at he
    simp only [] at he
    split at he
    · split at he
      · exact ih _ _ e he
      · rcases List.mem_cons.mp he with rfl | he2
        · rfl
        · exact ih _ _ e he2
    · exact ih _ _ e he

theorem syncMapsAdditionsGo_trace_kinds (h : String → String) (dry : Bool)
    (src : List (String × WebsiteMapInfo)) (dest : List (String × WebflowMapInfo))
    (s : Server) (ups : List (Bool × WebsiteMapInfo × WebflowMapInfo)) :
    ∀ e ∈ (syncMapsAdditionsGo h dry src dest s ups).2.2.1,
      e.isTagOrTerrainDelete = false ∧ e.isMapUpdate = false := by
  induction src generalizing dest s ups with
  | nil =>
    intro e he
    cases he
  | cons p rest ih =>
    rcases p with ⟨k, map⟩
    intro e he
    unfold syncMapsAdditionsGo at he
    simp only [] at he
    split at he
    · split at he
      · exact ih _ _ _ e he
      · rcases List.mem_cons.mp he with rfl | he2
        · exact ⟨rfl, rfl⟩
        · exact ih _ _ _ e he2
    · exact ih _ _ _ e he

theorem syncMapsRemovalsGo_trace_kinds (dry : Bool)
    (src : List (String × WebsiteMapInfo))
    (toVisit dest : List (String × WebflowMapInfo)) (s : Server) :
    ∀ e ∈ (syncMapsRemovalsGo dry src toVisit dest s).2.2,
      e.isTagOrTerrainDelete = false := by
  induction toVisit generalizing dest s with
  | nil =>
    intro e he
    cases he
  | cons p rest ih =>
    rcases p with ⟨k, m⟩
    intro e he
    unfold syncMapsRemovalsGo at he
    simp only [] at he
    split at he
    · split at he
      · exact ih _ _ e he
      · rcases List.mem_cons.mp he with rfl | he2
        · rfl
        · exact ih _ _ e he2
    · exact ih _ _ e he

theorem syncMapsUpdatesGo_trace_kinds (h : String → String) (dry : Bool)
    (ups : List (Bool × WebsiteMapInfo × WebflowMapInfo))
    (dest : List (String × WebflowMapInfo)) (s : Server) :
    ∀ e ∈ (syncMapsUpdatesGo h dry ups dest s).trace,
      e.isTagOrTerrainDelete = false := by
  induction ups generalizing dest s with
  | nil =>
    intro e he
    cases he
  | cons p rest ih =>
    rcases p with ⟨same, map, webflowMap⟩
    intro e he
    unfold syncMapsUpdatesGo at he
    simp only [] at he
    split at he
    · exact ih _ _ e he
    · split at he
      · exact ih _ _ e he
      · split at he
        · rcases List.mem_singleton.mp he with rfl
          rfl
        · rcases List.mem_cons.mp he with rfl | he2
          · rfl
          · exact ih _ _ e he2

theorem syncMapsToWebflow_trace_kinds (h : String → String)
    (src : List (String × WebsiteMapInfo)) (dest : List (String × WebflowMapInfo))
    (s : Server) (dry : Bool) :
    ∀ e ∈ (syncMapsToWebflow h src dest s dry).trace,
      e.isTagOrTerrainDelete = false := by
  unfold syncMapsToWebflow
  intro e he
  simp only at he
  rcases List.mem_append.mp he with he1 | he2
  rcases List.mem_append.mp he1 with he11 | he12
  · exact (syncMapsAdditionsGo_trace_kinds h dry src dest s [] e he11).1
  · exact syncMapsRemovalsGo_trace_kinds dry src _ _ _ e he12
  · exact syncMapsUpdatesGo_trace_kinds h dry _ _ _ e he2

theorem publishPhase_trace_kinds {F : Type} (c : WfColl) (items : List (Item F))
    (s : Server) (dry : Bool) :
    ∀ e ∈ (publishPhase c items s dry).2,
      e.isTagOrTerrainDelete = false ∧ e.isMapUpdate = false := by
  unfold publishPhase
  intro e he
  revert he
  cases dry with
  | true =>
    intro he
    cases he
  | false =>
    simp only [Bool.false_eq_true, if_false]
    intro he
    rcases List.mem_map.mp he with ⟨b, _, rfl⟩
    exact ⟨rfl, rfl⟩

theorem trace_split_order {l t1 t2 : List WfCall} (hsplit : l = t1 ++ t2)
    (h1 : ∀ e ∈ t1, e.isTagOrTerrainDelete = false)
    (h2 : ∀ e ∈ t2, e.isMapUpdate = false) :
    ∀ (i j : Nat) (e1 e2 : WfCall), l[i]? = some e1 → e1.isTagOrTerrainDelete = true →
      l[j]? = some e2 → e2.isMapUpdate = true → j < i := by
  subst hsplit
  intro i j e1 e2 hi he1 hj he2
  have hi2 : t1.length ≤ i := by
    by_contra hlt
    push_neg at hlt
    rw [List.getElem?_append_left hlt] at hi
    have hm : e1 ∈ t1 := List.getElem?_mem hi
    rw [h1 e1 hm] at he1
    cases he1
  have hj2 : j < t1.length := by
    by_contra hge
    push_neg at hge
    rw [List.getElem?_append_right hge] at hj
    have hm : e2 ∈ t2 := List.getElem?_mem hj
    rw [h2 e2 hm] at he2
    cases he2
  omega

theorem mem_nil_elim {α : Type} {e : α} {P : Prop} (he : e ∈ ([] : List α)) : P := by
  cases he

/-- The trace of any sync run splits into a first part free of tag and
terrain deletions followed by a part free of map updates. -/
theorem syncCommand_trace_split (h enc : String → String)
    (derive : MapInfo → MapMeta → DerivedInfo) (src : SyncSources) (s0 : Server)
    (dry : Bool) :
    ∃ t1 t2, (syncCommand h enc derive src s0 dry).trace = t1 ++ t2 ∧
      (∀ e ∈ t1, e.isTagOrTerrainDelete = false) ∧
      (∀ e ∈ t2, e.isMapUpdate = false) := by
  unfold syncCommand
  cases hb : buildWebflowInfo enc derive src.maps src.cdnInfo src.mapsMetadata with
  | error e =>
    exact ⟨[], [], rfl, fun e he => mem_nil_elim he, fun e he => mem_nil_elim he⟩
  | ok v =>
    rcases v with ⟨mi0, ti0⟩
    simp only []
    split
    · -- tag additions failed
      refine ⟨_, [], (List.append_nil _).symm,
        fun e he => (syncTagAdditionsGo_trace_kinds _ _ _ _ _ _ e he).1,
        fun e he => mem_nil_elim he⟩
    · split
      · -- tag resolution failed
        refine ⟨_, [], (List.append_nil _).symm,
          fun e he => (syncTagAdditionsGo_trace_kinds _ _ _ _ _ _ e he).1,
          fun e he => mem_nil_elim he⟩
      · split
        · -- terrain additions failed
          refine ⟨_, [], (List.append_nil _).symm, ?_, fun e he => mem_nil_elim he⟩
          intro e he
          rcases List.mem_append.mp he with h1 | h2
          · exact (syncTagAdditionsGo_trace_kinds _ _ _ _ _ _ e h1).1
          · exact (syncTagAdditionsGo_trace_kinds _ _ _ _ _ _ e h2).1
        · split
          · -- terrain resolution failed
            refine ⟨_, [], (List.append_nil _).symm, ?_, fun e he => mem_nil_elim he⟩
            intro e he
            rcases List.mem_append.mp he with h1 | h2
            · exact (syncTagAdditionsGo_trace_kinds _ _ _ _ _ _ e h1).1
            · exact (syncTagAdditionsGo_trace_kinds _ _ _ _ _ _ e h2).1
          · split
            · -- map phase failed
              refine ⟨_, [], (List.append_nil _).symm, ?_, fun e he => mem_nil_elim he⟩
              intro e he
              rcases List.mem_append.mp he with h12 | h3
              · rcases List.mem_append.mp h12 with h1 | h2
                · exact (syncTagAdditionsGo_trace_kinds _ _ _ _ _ _ e h1).1
                · exact (syncTagAdditionsGo_trace_kinds _ _ _ _ _ _ e h2).1
              · exact syncMapsToWebflow_trace_kinds _ _ _ _ _ e h3
            · -- full run
              refine ⟨_, _, rfl, ?_, ?_⟩
              · intro e he
                rcases List.mem_append.mp he with h15 | h6
                rcases List.mem_append.mp h15 with h14 | h5
                rcases List.mem_append.mp h14 with h13 | h4
                rcases List.mem_append.mp h13 with h12 | h3
                rcases List.mem_append.mp h12 with h1 | h2
                · exact (syncTagAdditionsGo_trace_kinds _ _ _ _ _ _ e h1).1
                · exact (syncTagAdditionsGo_trace_kinds _ _ _ _ _ _ e h2).1
                · exact syncMapsToWebflow_trace_kinds _ _ _ _ _ e h3
                · exact (publishPhase_trace_kinds _ _ _ _ e h4).1
                · exact (publishPhase_trace_kinds _ _ _ _ e h5).1
                · exact (publishPhase_trace_kinds _ _ _ _ e h6).1
              · intro e he
                rcases List.mem_append.mp he with h7 | h8
                · exact syncTagRemovalsGo_trace_kinds _ _ _ _ _ _ e h7
                · exact syncTagRemovalsGo_trace_kinds _ _ _ _ _ _ e h8

/-- C6: in a sync run, a delete call on the tag or terrain collection never
precedes a map update call: whenever the trace holds a tag or terrain
deletion at position i and a map update at position j, then j < i, so
now-unused tags and terrains are deleted only after every map referencing
them has been updated. -/
theorem tag_terrain_removal_ordering (h enc : String → String)
    (derive : MapInfo → MapMeta → DerivedInfo) (src : SyncSources) (s0 : Server)
    (i j : Nat) (c : WfColl) (id mid : String) (f : WebflowMapFieldsWrite)
    (hi : (syncCommand h enc derive src s0 false).trace[i]? = some (.deleteItem c id))
    (hc : c = .tags ∨ c = .terrains)
    (hj : (syncCommand h enc derive src s0 false).trace[j]? = some (.updateMap mid f)) :
    j < i := by
  rcases syncCommand_trace_split h enc derive src s0 false with ⟨t1, t2, hsp, h1, h2⟩
  refine trace_split_order hsp h1 h2 i j _ _ hi ?_ hj rfl
  rcases hc with rfl | rfl <;> rfl

def c6basefields : WebflowMapFieldsRead :=
  { name := "Old", slug := "old", rowyid := some "r1", minimap := none,
    minimapPhotoThumb := none, downloadurl := none, width := none, height := none,
    mapsize := none, title := none, description := none, author := none,
    bgImage := none, perspectiveShot := none, moreImages := none, windMin := none,
    windMax := none, tidalStrength := none, teamCount := none, maxPlayers := none,
    miniMap := none, heightMap := none, metalMap := none, gameTags := none,
    terrainTypes := none }

def c6server : Server :=
  ⟨[⟨"m1", none, 0, c6basefields⟩], [⟨"t1", some 5, 3, ⟨"x", "t"⟩⟩], cexTerrains, 0⟩

def c6derive : MapInfo → MapMeta → DerivedInfo :=
  fun _ _ => ⟨some 1, some 1, some 5, some 25, none, [], []⟩

def c6src : SyncSources :=
  ⟨[("r1", c5map)], [("sm", ⟨["http://m"]⟩)], [("r1", c5meta)]⟩

def c6run : SyncResult :=
  syncCommand (fun _ => "d") (fun s => s) c6derive c6src c6server false

def c6fallback : WebflowMapFieldsWrite :=
  { name := "", slug := "", rowyid := "", minimap := "", minimapPhotoThumb := "",
    downloadurl := none, width := none, height := none, mapsize := none,
    title := none, description := none, author := "", bgImage := none,
    perspectiveShot := none, moreImages := [], windMin := none, windMax := none,
    tidalStrength := none, teamCount := 0, maxPlayers := 0, miniMap := "",
    heightMap := "", metalMap := "", gameTags := [], terrainTypes := [] }

def c6updateFields : WebflowMapFieldsWrite :=
  match c6run.trace[0]? with
  | some (WfCall.updateMap _ f) => f
  | _ => c6fallback

/-- Witness for C6 on a concrete run whose trace holds a map update at
position 0 and a tag deletion at position 2. -/
theorem tag_terrain_removal_ordering_witness :
    c6run.trace[2]? = some (.deleteItem .tags "t1") ∧
    c6run.trace[0]? = some (.updateMap "m1" c6updateFields) ∧
    (0 : Nat) < 2 :=
  ⟨by decide, by decide,
   tag_terrain_removal_ordering (fun _ => "d") (fun s => s) c6derive c6src c6server
     2 0 .tags "t1" "m1" c6updateFields (by decide) (Or.inl rfl) (by decide)⟩

/-! ## Infrastructure for the idempotence analysis (claim C1) -/

def strHasPrefix (p s : String) : Prop := ∃ t, s = p ++ t

theorem maxLen_le (l : List String) : ∀ x ∈ l, x.length ≤ maxLen l := by
  induction l with
  | nil =>
    intro x hx
    cases hx
  | cons a rest ih =>
    intro x hx
    rcases List.mem_cons.mp hx with rfl | hm
    · simp [maxLen]
    · have := ih x hm
      simp only [maxLen, List.foldr_cons] at *
      omega

theorem freshStringOver_length (l : List String) :
    (freshStringOver l).length = maxLen l + 1 := by
  simp [freshStringOver, String.length]

theorem freshStringOver_not_mem (l : List String) : freshStringOver l ∉ l := by
  intro hm
  have h1 := maxLen_le l _ hm
  rw [freshStringOver_length] at h1
  omega

theorem strHasPrefix_imagor_head {u : String} (hp : strHasPrefix imagorUrlBase u) :
    u.data.head? = some 'h' := by
  rcases hp with ⟨t, rfl⟩
  rfl

theorem fresh_no_imagor (l : List String) :
    ¬strHasPrefix imagorUrlBase (freshStringOver l) := by
  intro hp
  have h1 := strHasPrefix_imagor_head hp
  have h2 : (freshStringOver l).data.head? = some 'i' := by
    simp [freshStringOver, List.replicate_succ]
  rw [h1] at h2
  cases h2

theorem imagor_ne_of_unprefixed {u f : String} (hu : strHasPrefix imagorUrlBase u)
    (hf : ¬strHasPrefix imagorUrlBase f) : f ≠ u := by
  intro he
  exact hf (he ▸ hu)

theorem jsSet_append_fresh {α : Type} (m : List (String × α)) (k : String) (v : α)
    (hnot : jsHas m k = false) : jsSet m k v = m ++ [(k, v)] := by
  unfold jsSet
  rw [if_neg (by rw [hnot]; exact Bool.false_ne_true)]

theorem jsOfEntries_nodup {α : Type} (l : List (String × α))
    (hn : (l.map Prod.fst).Nodup) : jsOfEntries l = l := by
  induction l using List.reverseRecOn with
  | nil => rfl
  | append_singleton rest p ih =>
    rw [List.map_append] at hn
    rcases List.nodup_append.mp hn with ⟨hn1, hn2, hdisj⟩
    have hfresh : jsHas rest p.1 = false := by
      rw [jsHas_false_iff]
      intro q hq he
      have hmem : p.1 ∈ rest.map Prod.fst := by
        rw [← he]
        exact List.mem_map_of_mem _ hq
      exact hdisj hmem (by simp)
    unfold jsOfEntries at ih ⊢
    rw [List.foldl_append, List.foldl_cons, List.foldl_nil, ih hn1,
      jsSet_append_fresh rest p.1 p.2 hfresh]

def tagEntry (it : Item TagFields) : String × WebflowMapTag :=
  (it.fieldData.slug, WebflowMapTag.ofItem it)

theorem getAllWebflowMapTags_nodup (items : List (Item TagFields))
    (hn : (items.map (fun it => it.fieldData.slug)).Nodup) :
    getAllWebflowMapTags items = items.map tagEntry := by
  unfold getAllWebflowMapTags
  rw [List.map_map]
  rw [show ((fun t => (t.slug, t)) ∘ WebflowMapTag.ofItem) = tagEntry from rfl]
  apply jsOfEntries_nodup
  rw [List.map_map]
  exact hn

def mapEntry (it : Item WebflowMapFieldsRead) : String × WebflowMapInfo :=
  (reqRStr it.fieldData.rowyid, WebflowMapInfo.ofItem it)

theorem dedupeMapsGo_nodup (ms : List WebflowMapInfo)
    (res : List (String × WebflowMapInfo)) (d : Nat)
    (hn : (res.map Prod.fst ++ ms.map (fun m => m.rowyId)).Nodup) :
    dedupeMapsGo ms res d = res ++ ms.map (fun m => (m.rowyId, m)) := by
  induction ms generalizing res d with
  | nil => simp [dedupeMapsGo]
  | cons m rest ih =>
    have hfresh : jsHas res m.rowyId = false := by
      rw [jsHas_false_iff]
      intro q hq he
      rcases List.nodup_append.mp hn with ⟨_, _, hdisj⟩
      have hmem : m.rowyId ∈ res.map Prod.fst := by
        rw [← he]
        exact List.mem_map_of_mem _ hq
      exact hdisj hmem (by simp)
    unfold dedupeMapsGo
    rw [if_neg (by rw [hfresh]; exact Bool.false_ne_true),
      jsSet_append_fresh res m.rowyId m hfresh, ih (res ++ [(m.rowyId, m)]) d ?_]
    · simp
    · simp only [List.map_append, List.map_cons, List.map_nil] at hn ⊢
      have : res.map Prod.fst ++ [m.rowyId] ++ rest.map (fun m => m.rowyId) =
          res.map Prod.fst ++ ([m.rowyId] ++ rest.map (fun m => m.rowyId)) := by
        simp
      rw [this]
      simpa using hn

theorem getAllWebflowMaps_nodup (items : List (Item WebflowMapFieldsRead))
    (hn : (items.map (fun it => reqRStr it.fieldData.rowyid)).Nodup) :
    getAllWebflowMaps items = items.map mapEntry := by
  unfold getAllWebflowMaps
  rw [dedupeMapsGo_nodup _ [] 0 (by simpa [List.map_map] using hn)]
  rw [List.nil_append, List.map_map]
  rfl

theorem sameImage_refl (h : String → String) (u : Option String) :
    sameImage h u u = true := by
  simp [sameImage]

theorem sameImages_of_digest_eq (h : String → String) (l1 l2 : List String)
    (hlen : l1.length = l2.length)
    (hdig : l1.map (fun u => getImageHash h (some u)) =
      l2.map (fun u => getImageHash h (some u))) : sameImages h l1 l2 = true := by
  unfold sameImages
  rw [if_neg (by simp [hlen])]
  simp [sortStrings, hdig]

theorem isSameRefs_refl (l : List String) : isSameRefs l l = true :=
  (isSameRefs_eq_iff l l).mpr rfl

theorem pickImages_none (h : String → String) (urls : List String) :
    pickImages h urls none = urls := by
  unfold pickImages
  simp only []
  apply map_fixed
  intro u _
  rfl

theorem imagor_ne_empty {u : String} (hp : strHasPrefix imagorUrlBase u) : u ≠ "" := by
  intro he
  rw [he] at hp
  have := strHasPrefix_imagor_head hp
  cases this

/-- An image value produced by pickImage, resolved by the destination
against the same prior asset, stores a URL with the digest of the desired
URL. -/
theorem pickResolve_single (h : String → String) (u : String)
    (prior : Option WebflowImageRef)
    (hpre : ∀ r, prior = some r → ¬strHasPrefix imagorUrlBase r.fileId)
    (hu : strHasPrefix imagorUrlBase u) :
    ∀ used, getImageHash h
        (some ((resolveOneRef prior (pickImage h u prior) used).1.url)) =
      getImageHash h (some u) := by
  intro used
  cases prior with
  | none => rfl
  | some r =>
    unfold pickImage
    simp only []
    by_cases hs : sameImage h (some u) (some r.url) = true
    · rw [if_pos hs]
      unfold resolveOneRef
      simp only []
      rw [if_pos (beq_self_eq_true r.fileId)]
      unfold sameImage at hs
      rw [beq_iff_eq] at hs
      exact hs.symm
    · rw [if_neg hs]
      unfold resolveOneRef
      simp only []
      rw [if_neg ?hne]
      case hne =>
        intro hbe
        exact (imagor_ne_of_unprefixed hu (hpre r rfl)) (beq_iff_eq.mp hbe)

/-- Per-element digest preservation for the list case: each value produced
by pickImages resolves to an asset whose URL carries the digest of the
corresponding desired URL, and the resolved list keeps the length. -/
theorem pickResolve_list (h : String → String) (urls : List String)
    (priorList : List WebflowImageRef)
    (hnd : (priorList.map (fun r => r.fileId)).Nodup)
    (hpre : ∀ r ∈ priorList, ¬strHasPrefix imagorUrlBase r.fileId)
    (hurls : ∀ u ∈ urls, strHasPrefix imagorUrlBase u) :
    ∀ used,
      ((resolveListRefs priorList (pickImages h urls (some priorList)) used).1).map
          (fun r => getImageHash h (some r.url)) =
        urls.map (fun u => getImageHash h (some u)) ∧
      ((resolveListRefs priorList (pickImages h urls (some priorList)) used).1).length
        = urls.length := by
  have hBaseDef : pickImages h urls (some priorList) = urls.map (fun url =>
      match jsGet (jsOfEntries (priorList.map
          (fun i => (getImageHash h (some i.url), i.fileId))))
        (getImageHash h (some url)) with
      | some fid => if fid = "" then url else fid
      | none => url) := rfl
  rw [hBaseDef]
  clear hBaseDef
  induction urls with
  | nil =>
    intro used
    exact ⟨rfl, rfl⟩
  | cons u rest ih =>
    intro used
    have hu := hurls u (List.mem_cons_self u rest)
    have hrest : ∀ v ∈ rest, strHasPrefix imagorUrlBase v :=
      fun v hv => hurls v (List.mem_cons_of_mem _ hv)
    rw [List.map_cons]
    have hfindu : priorList.find? (fun r => r.fileId == u) = none := by
      rw [List.find?_eq_none]
      intro r hr hbe
      exact (imagor_ne_of_unprefixed hu (hpre r hr)) (beq_iff_eq.mp hbe)
    cases hj : jsGet (jsOfEntries (priorList.map
        (fun i => (getImageHash h (some i.url), i.fileId))))
      (getImageHash h (some u)) with
    | none =>
      simp only []
      unfold resolveListRefs
      rw [hfindu]
      simp only []
      rcases ih hrest (freshStringOver used :: used) with ⟨ihd, ihl⟩
      refine ⟨?_, ?_⟩
      · rw [List.map_cons, ihd, List.map_cons]
      · rw [List.length_cons, List.length_cons, ihl]
    | some fid =>
      simp only []
      by_cases hfe : fid = ""
      · rw [if_pos hfe]
        unfold resolveListRefs
        rw [hfindu]
        simp only []
        rcases ih hrest (freshStringOver used :: used) with ⟨ihd, ihl⟩
        refine ⟨?_, ?_⟩
        · rw [List.map_cons, ihd, List.map_cons]
        · rw [List.length_cons, List.length_cons, ihl]
      · rw [if_neg hfe]
        rw [jsGet_jsOfEntries] at hj
        have hmem := lookupLast_eq_some_mem hj
        rcases List.mem_map.mp hmem with ⟨r, hr, hre⟩
        injection hre with hre1 hre2
        have hsome : (priorList.find? (fun q => q.fileId == fid)).isSome = true := by
          rw [List.find?_isSome]
          exact ⟨r, hr, by rw [hre2]; exact beq_self_eq_true _⟩
        rcases Option.isSome_iff_exists.mp hsome with ⟨r2, hr2⟩
        unfold resolveListRefs
        rw [hr2]
        simp only []
        have hr2mem := List.mem_of_find?_eq_some hr2
        have hr2p := List.find?_some hr2
        have hr2id : r2.fileId = fid := beq_iff_eq.mp hr2p
        have hr2r : r2 = r := by
          apply List.inj_on_of_nodup_map hnd hr2mem hr
          rw [hr2id, hre2]
        rcases ih hrest used with ⟨ihd, ihl⟩
        refine ⟨?_, ?_⟩
        · rw [List.map_cons, ihd, hr2r, hre1, List.map_cons]
        · rw [List.length_cons, List.length_cons, ihl]

/-! ## C1: well-formedness predicates for the idempotence theorem -/

/-- Well-formedness of a stored map item's image assets: the file handles
are pairwise distinct and none of them is shaped like a hosted image URL. -/
def fdAssetsWf (fd : WebflowMapFieldsRead) : Prop :=
  (refFileIds fd).Nodup ∧ ∀ f ∈ refFileIds fd, ¬strHasPrefix imagorUrlBase f

/-- The canonical-record properties the destination write/read roundtrip
relies on: the possibly-undefined fields are present and every image URL is
hosted under the imagor base. -/
def infoReady (i : WebsiteMapInfo) : Prop :=
  i.downloadUrl.isSome ∧ i.width.isSome ∧ i.height.isSome ∧ i.mapSize.isSome ∧
  i.windMin.isSome ∧ i.windMax.isSome ∧
  strHasPrefix imagorUrlBase i.minimapUrl ∧
  strHasPrefix imagorUrlBase i.minimapThumbUrl ∧
  strHasPrefix imagorUrlBase i.textureMapUrl ∧
  strHasPrefix imagorUrlBase i.heightMapUrl ∧
  strHasPrefix imagorUrlBase i.metalMapUrl ∧
  (∀ u, i.bgImageUrl = some u → strHasPrefix imagorUrlBase u) ∧
  (∀ u, i.perspectiveShotUrl = some u → strHasPrefix imagorUrlBase u) ∧
  (∀ u ∈ i.moreImagesUrl, strHasPrefix imagorUrlBase u)

theorem cwf_name (p : Option WebflowMapFieldsRead) (f : WebflowMapFieldsWrite)
    (u : List String) : (convertWriteFields p f u).1.name = f.name := rfl

theorem cwf_minimap (p : Option WebflowMapFieldsRead) (f : WebflowMapFieldsWrite)
    (u : List String) : ∃ w, (convertWriteFields p f u).1.minimap =
      some (resolveOneRef (p.bind (fun q => q.minimap)) f.minimap w).1 :=
  ⟨u, rfl⟩

theorem cwf_thumb (p : Option WebflowMapFieldsRead) (f : WebflowMapFieldsWrite)
    (u : List String) : ∃ w, (convertWriteFields p f u).1.minimapPhotoThumb =
      some (resolveOneRef (p.bind (fun q => q.minimapPhotoThumb))
        f.minimapPhotoThumb w).1 :=
  ⟨(resolveOneRef (p.bind (fun q => q.minimap)) f.minimap u).2, rfl⟩

theorem cwf_bgImage (p : Option WebflowMapFieldsRead) (f : WebflowMapFieldsWrite)
    (u : List String) : ∃ w, (convertWriteFields p f u).1.bgImage =
      (resolveOptRef (p.bind (fun q => q.bgImage)) f.bgImage w).1 :=
  ⟨_, rfl⟩

theorem cwf_perspectiveShot (p : Option WebflowMapFieldsRead)
    (f : WebflowMapFieldsWrite) (u : List String) :
    ∃ w, (convertWriteFields p f u).1.perspectiveShot =
      (resolveOptRef (p.bind (fun q => q.perspectiveShot)) f.perspectiveShot w).1 :=
  ⟨_, rfl⟩

theorem cwf_moreImages (p : Option WebflowMapFieldsRead) (f : WebflowMapFieldsWrite)
    (u : List String) : ∃ w, (convertWriteFields p f u).1.moreImages =
      some (resolveListRefs ((p.bind (fun q => q.moreImages)).getD [])
        f.moreImages w).1 :=
  ⟨_, rfl⟩

theorem cwf_miniMap (p : Option WebflowMapFieldsRead) (f : WebflowMapFieldsWrite)
    (u : List String) : ∃ w, (convertWriteFields p f u).1.miniMap =
      some (resolveOneRef (p.bind (fun q => q.miniMap)) f.miniMap w).1 :=
  ⟨_, rfl⟩

theorem cwf_heightMap (p : Option WebflowMapFieldsRead) (f : WebflowMapFieldsWrite)
    (u : List String) : ∃ w, (convertWriteFields p f u).1.heightMap =
      some (resolveOneRef (p.bind (fun q => q.heightMap)) f.heightMap w).1 :=
  ⟨_, rfl⟩

theorem cwf_metalMap (p : Option WebflowMapFieldsRead) (f : WebflowMapFieldsWrite)
    (u : List String) : ∃ w, (convertWriteFields p f u).1.metalMap =
      some (resolveOneRef (p.bind (fun q => q.metalMap)) f.metalMap w).1 :=
  ⟨_, rfl⟩

theorem cwf_scalars (p : Option WebflowMapFieldsRead) (f : WebflowMapFieldsWrite)
    (u : List String) :
    (convertWriteFields p f u).1.slug = f.slug ∧
    (convertWriteFields p f u).1.rowyid = some f.rowyid ∧
    (convertWriteFields p f u).1.downloadurl = f.downloadurl ∧
    (convertWriteFields p f u).1.width = f.width ∧
    (convertWriteFields p f u).1.height = f.height ∧
    (convertWriteFields p f u).1.mapsize = f.mapsize ∧
    (convertWriteFields p f u).1.title = f.title ∧
    (convertWriteFields p f u).1.description = f.description ∧
    (convertWriteFields p f u).1.author = some f.author ∧
    (convertWriteFields p f u).1.windMin = f.windMin ∧
    (convertWriteFields p f u).1.windMax = f.windMax ∧
    (convertWriteFields p f u).1.tidalStrength = f.tidalStrength ∧
    (convertWriteFields p f u).1.teamCount = some f.teamCount ∧
    (convertWriteFields p f u).1.maxPlayers = some f.maxPlayers ∧
    (convertWriteFields p f u).1.gameTags = some f.gameTags ∧
    (convertWriteFields p f u).1.terrainTypes = some f.terrainTypes :=
  ⟨rfl, rfl, rfl, rfl, rfl, rfl, rfl, rfl, rfl, rfl, rfl, rfl, rfl, rfl, rfl, rfl⟩

theorem refFileIds_mem {fd : WebflowMapFieldsRead} {r : WebflowImageRef}
    (hmem : r ∈ fd.minimap.toList ++ fd.minimapPhotoThumb.toList ++ fd.bgImage.toList ++
      fd.perspectiveShot.toList ++ fd.moreImages.getD [] ++ fd.miniMap.toList ++
      fd.heightMap.toList ++ fd.metalMap.toList) : r.fileId ∈ refFileIds fd :=
  List.mem_map_of_mem _ hmem

theorem fdAssetsWf_more {fd : WebflowMapFieldsRead} (hwf : fdAssetsWf fd) :
    ((fd.moreImages.getD []).map (fun r => r.fileId)).Nodup ∧
    ∀ q ∈ fd.moreImages.getD [], ¬strHasPrefix imagorUrlBase q.fileId := by
  rcases hwf with ⟨hnd, hpre⟩
  constructor
  · unfold refFileIds at hnd
    have hsub : List.Sublist (fd.moreImages.getD [])
        (fd.minimap.toList ++ fd.minimapPhotoThumb.toList ++ fd.bgImage.toList ++
         fd.perspectiveShot.toList ++ fd.moreImages.getD [] ++ fd.miniMap.toList ++
         fd.heightMap.toList ++ fd.metalMap.toList) :=
      (((List.sublist_append_right _ _).trans
        (List.sublist_append_left _ _)).trans
        (List.sublist_append_left _ _)).trans
        (List.sublist_append_left _ _)
    exact List.Nodup.sublist (hsub.map _) hnd
  · intro q hq
    exact hpre _ (refFileIds_mem (by simp [hq]))

/-- One required single-image field of the roundtrip: the stored asset's
URL carries the digest of the canonical URL. -/
theorem singleFieldRoundtrip (h : String → String) (u : String)
    (pr : Option WebflowImageRef) (w : List String)
    (hu : strHasPrefix imagorUrlBase u)
    (hpre : ∀ r, pr = some r → ¬strHasPrefix imagorUrlBase r.fileId) :
    sameImage h (some u)
      (some (reqRStr ((some (resolveOneRef pr (pickImage h u pr) w).1).map
        (fun i => i.url)))) = true := by
  have hd := pickResolve_single h u pr hpre hu w
  unfold sameImage
  rw [beq_iff_eq]
  exact hd.symm

theorem genF_bgImage (h : String → String) (m : WebsiteMapInfo)
    (base : Option WebflowMapInfo) :
    (generateFields h m base).bgImage = match m.bgImageUrl with
      | some u => if u = "" then none
          else some (pickImage h u (base.bind (fun b => b.item.fieldData.bgImage)))
      | none => none := rfl

theorem genF_perspectiveShot (h : String → String) (m : WebsiteMapInfo)
    (base : Option WebflowMapInfo) :
    (generateFields h m base).perspectiveShot = match m.perspectiveShotUrl with
      | some u => if u = "" then none
          else some (pickImage h u (base.bind (fun b => b.item.fieldData.perspectiveShot)))
      | none => none := rfl

/-- One optional image field of the roundtrip, present case. -/
theorem optFieldRoundtrip_some (h : String → String) (u : String)
    (pr : Option WebflowImageRef) (w : List String)
    (hu : strHasPrefix imagorUrlBase u)
    (hpre : ∀ r, pr = some r → ¬strHasPrefix imagorUrlBase r.fileId) :
    sameImage h (some u)
      (optR ((resolveOptRef pr
        (if u = "" then none else some (pickImage h u pr)) w).1.map
        (fun i => i.url))) = true := by
  have hune := imagor_ne_empty hu
  rw [if_neg hune]
  have hd := pickResolve_single h u pr hpre hu w
  unfold resolveOptRef
  simp only []
  unfold sameImage
  rw [beq_iff_eq]
  exact hd.symm

/-- The list image field of the roundtrip. -/
theorem listFieldRoundtrip (h : String → String) (urls : List String)
    (bs : Option (List WebflowImageRef)) (w : List String)
    (hnd : ((bs.getD []).map (fun r => r.fileId)).Nodup)
    (hpre : ∀ r ∈ bs.getD [], ¬strHasPrefix imagorUrlBase r.fileId)
    (hurls : ∀ u ∈ urls, strHasPrefix imagorUrlBase u) :
    sameImages h urls
      (reqRArr ((some (resolveListRefs (bs.getD [])
        (pickImages h urls bs) w).1).map
        (fun l => l.map (fun i => i.url)))) = true := by
  rcases pickResolve_list h urls (bs.getD []) hnd hpre hurls w with ⟨hdig, hlen⟩
  apply sameImages_of_digest_eq
  · show urls.length = ((resolveListRefs (bs.getD [])
      (pickImages h urls (some (bs.getD []))) w).1.map (fun i => i.url)).length
    rw [List.length_map, hlen]
  · show urls.map _ = ((resolveListRefs (bs.getD [])
      (pickImages h urls (some (bs.getD []))) w).1.map (fun i => i.url)).map _
    rw [List.map_map]
    exact hdig.symm

/-- Digest-level write/read roundtrip: the stored fields of a created or
updated map item are judged equal by the sync's comparison to the canonical
record they were generated from. -/
theorem mapWriteReadRoundtrip (h : String → String) (m : WebsiteMapInfo)
    (base : Option WebflowMapInfo) (used : List String)
    (hm : infoReady m)
    (hbase : ∀ b, base = some b → fdAssetsWf b.item.fieldData) :
    isWebflowMapInfoEqual h m
      (readWebsiteInfo
        (convertWriteFields (base.map (fun b => b.item.fieldData))
          (generateFields h m base) used).1) = true := by
  rcases hm with ⟨hdl, hwi, hhe, hms, hwmin, hwmax, hmini, hthumb, htex, hhei, hmet,
    hbg, hps, hmore⟩
  rcases Option.isSome_iff_exists.mp hdl with ⟨dv, hdv⟩
  rcases Option.isSome_iff_exists.mp hwi with ⟨wv, hwv⟩
  rcases Option.isSome_iff_exists.mp hhe with ⟨hv, hhv⟩
  rcases Option.isSome_iff_exists.mp hms with ⟨msv, hmsv⟩
  rcases Option.isSome_iff_exists.mp hwmin with ⟨wminv, hwminv⟩
  rcases Option.isSome_iff_exists.mp hwmax with ⟨wmaxv, hwmaxv⟩
  cases base with
  | none =>
    simp only [isWebflowMapInfoEqual, readWebsiteInfo, Bool.and_eq_true, and_assoc]
    refine ⟨?_, ?_, ?_, ?_, ?_, ?_, ?_, ?_, ?_, ?_, ?_, ?_, ?_, ?_, ?_, ?_, ?_, ?_,
      ?_, ?_, ?_, ?_, ?_, ?_⟩
    · obtain ⟨w, hw⟩ := cwf_minimap (Option.map (fun b : WebflowMapInfo => b.item.fieldData) none)
        (generateFields h m none) used
      rw [hw]
      exact singleFieldRoundtrip h m.minimapUrl _ w hmini (fun r hr => by simp at hr)
    · obtain ⟨w, hw⟩ := cwf_thumb (Option.map (fun b : WebflowMapInfo => b.item.fieldData) none)
        (generateFields h m none) used
      rw [hw]
      exact singleFieldRoundtrip h m.minimapThumbUrl _ w hthumb (fun r hr => by simp at hr)
    · obtain ⟨w, hw⟩ := cwf_bgImage (Option.map (fun b : WebflowMapInfo => b.item.fieldData) none)
        (generateFields h m none) used
      rw [hw, genF_bgImage]
      cases hbgu : m.bgImageUrl with
      | none => exact sameImage_refl h none
      | some u =>
        refine optFieldRoundtrip_some h u _ w (hbg u hbgu) ?_
        intro r hr
        simp at hr
    · obtain ⟨w, hw⟩ := cwf_perspectiveShot (Option.map (fun b : WebflowMapInfo => b.item.fieldData) none)
        (generateFields h m none) used
      rw [hw, genF_perspectiveShot]
      cases hpsu : m.perspectiveShotUrl with
      | none => exact sameImage_refl h none
      | some u =>
        refine optFieldRoundtrip_some h u _ w (hps u hpsu) ?_
        intro r hr
        simp at hr
    · obtain ⟨w, hw⟩ := cwf_moreImages (Option.map (fun b : WebflowMapInfo => b.item.fieldData) none)
        (generateFields h m none) used
      rw [hw]
      exact listFieldRoundtrip h m.moreImagesUrl _ w (by simp) (by simp) hmore
    · obtain ⟨w, hw⟩ := cwf_miniMap (Option.map (fun b : WebflowMapInfo => b.item.fieldData) none)
        (generateFields h m none) used
      rw [hw]
      exact singleFieldRoundtrip h m.textureMapUrl _ w htex (fun r hr => by simp at hr)
    · obtain ⟨w, hw⟩ := cwf_heightMap (Option.map (fun b : WebflowMapInfo => b.item.fieldData) none)
        (generateFields h m none) used
      rw [hw]
      exact singleFieldRoundtrip h m.heightMapUrl _ w hhei (fun r hr => by simp at hr)
    · obtain ⟨w, hw⟩ := cwf_metalMap (Option.map (fun b : WebflowMapInfo => b.item.fieldData) none)
        (generateFields h m none) used
      rw [hw]
      exact singleFieldRoundtrip h m.metalMapUrl _ w hmet (fun r hr => by simp at hr)
    · exact beq_self_eq_true m.name
    · exact beq_self_eq_true m.rowyId
    · show (m.downloadUrl == some (reqRStr m.downloadUrl)) = true
      rw [hdv]
      exact beq_self_eq_true _
    · show (m.width == some (reqRNum m.width)) = true
      rw [hwv]
      exact beq_self_eq_true _
    · show (m.height == some (reqRNum m.height)) = true
      rw [hhv]
      exact beq_self_eq_true _
    · show (m.mapSize == some (reqRNum m.mapSize)) = true
      rw [hmsv]
      exact beq_self_eq_true _
    · exact beq_self_eq_true m.title
    · exact beq_self_eq_true m.description
    · exact beq_self_eq_true m.author
    · show (m.windMin == some (reqRNum m.windMin)) = true
      rw [hwminv]
      exact beq_self_eq_true _
    · show (m.windMax == some (reqRNum m.windMax)) = true
      rw [hwmaxv]
      exact beq_self_eq_true _
    · exact beq_self_eq_true m.tidalStrength
    · exact beq_self_eq_true m.teamCount
    · exact beq_self_eq_true m.maxPlayers
    · exact isSameRefs_refl m.mapTags
    · exact isSameRefs_refl m.mapTerrains
  | some wm =>
    have hwf := hbase wm rfl
    have hmoreWf := fdAssetsWf_more hwf
    simp only [isWebflowMapInfoEqual, readWebsiteInfo, Bool.and_eq_true, and_assoc]
    refine ⟨?_, ?_, ?_, ?_, ?_, ?_, ?_, ?_, ?_, ?_, ?_, ?_, ?_, ?_, ?_, ?_, ?_, ?_,
      ?_, ?_, ?_, ?_, ?_, ?_⟩
    · obtain ⟨w, hw⟩ := cwf_minimap (Option.map (fun b => b.item.fieldData) (some wm))
        (generateFields h m (some wm)) used
      rw [hw]
      exact singleFieldRoundtrip h m.minimapUrl _ w hmini
        (fun r hr => hwf.2 r.fileId (refFileIds_mem (by simp at hr; simp [hr])))
    · obtain ⟨w, hw⟩ := cwf_thumb (Option.map (fun b => b.item.fieldData) (some wm))
        (generateFields h m (some wm)) used
      rw [hw]
      exact singleFieldRoundtrip h m.minimapThumbUrl _ w hthumb
        (fun r hr => hwf.2 r.fileId (refFileIds_mem (by simp at hr; simp [hr])))
    · obtain ⟨w, hw⟩ := cwf_bgImage (Option.map (fun b => b.item.fieldData) (some wm))
        (generateFields h m (some wm)) used
      rw [hw, genF_bgImage]
      cases hbgu : m.bgImageUrl with
      | none => exact sameImage_refl h none
      | some u =>
        refine optFieldRoundtrip_some h u _ w (hbg u hbgu) ?_
        intro r hr
        simp at hr
        exact hwf.2 r.fileId (refFileIds_mem (by simp [hr]))
    · obtain ⟨w, hw⟩ := cwf_perspectiveShot
        (Option.map (fun b => b.item.fieldData) (some wm))
        (generateFields h m (some wm)) used
      rw [hw, genF_perspectiveShot]
      cases hpsu : m.perspectiveShotUrl with
      | none => exact sameImage_refl h none
      | some u =>
        refine optFieldRoundtrip_some h u _ w (hps u hpsu) ?_
        intro r hr
        simp at hr
        exact hwf.2 r.fileId (refFileIds_mem (by simp [hr]))
    · obtain ⟨w, hw⟩ := cwf_moreImages
        (Option.map (fun b => b.item.fieldData) (some wm))
        (generateFields h m (some wm)) used
      rw [hw]
      exact listFieldRoundtrip h m.moreImagesUrl _ w
        (by simpa using hmoreWf.1) (by simpa using hmoreWf.2) hmore
    · obtain ⟨w, hw⟩ := cwf_miniMap (Option.map (fun b => b.item.fieldData) (some wm))
        (generateFields h m (some wm)) used
      rw [hw]
      exact singleFieldRoundtrip h m.textureMapUrl _ w htex
        (fun r hr => hwf.2 r.fileId (refFileIds_mem (by simp at hr; simp [hr])))
    · obtain ⟨w, hw⟩ := cwf_heightMap (Option.map (fun b => b.item.fieldData) (some wm))
        (generateFields h m (some wm)) used
      rw [hw]
      exact singleFieldRoundtrip h m.heightMapUrl _ w hhei
        (fun r hr => hwf.2 r.fileId (refFileIds_mem (by simp at hr; simp [hr])))
    · obtain ⟨w, hw⟩ := cwf_metalMap (Option.map (fun b => b.item.fieldData) (some wm))
        (generateFields h m (some wm)) used
      rw [hw]
      exact singleFieldRoundtrip h m.metalMapUrl _ w hmet
        (fun r hr => hwf.2 r.fileId (refFileIds_mem (by simp at hr; simp [hr])))
    · exact beq_self_eq_true m.name
    · exact beq_self_eq_true m.rowyId
    · show (m.downloadUrl == some (reqRStr m.downloadUrl)) = true
      rw [hdv]
      exact beq_self_eq_true _
    · show (m.width == some (reqRNum m.width)) = true
      rw [hwv]
      exact beq_self_eq_true _
    · show (m.height == some (reqRNum m.height)) = true
      rw [hhv]
      exact beq_self_eq_true _
    · show (m.mapSize == some (reqRNum m.mapSize)) = true
      rw [hmsv]
      exact beq_self_eq_true _
    · exact beq_self_eq_true m.title
    · exact beq_self_eq_true m.description
    · exact beq_self_eq_true m.author
    · show (m.windMin == some (reqRNum m.windMin)) = true
      rw [hwminv]
      exact beq_self_eq_true _
    · show (m.windMax == some (reqRNum m.windMax)) = true
      rw [hwmaxv]
      exact beq_self_eq_true _
    · exact beq_self_eq_true m.tidalStrength
    · exact beq_self_eq_true m.teamCount
    · exact beq_self_eq_true m.maxPlayers
    · exact isSameRefs_refl m.mapTags
    · exact isSameRefs_refl m.mapTerrains

/-! ## C1: server operation characterizations -/

theorem tagColl_set_same (s : Server) (c : WfColl) (l : List (Item TagFields))
    (hc : c ≠ WfColl.maps) : (s.setTagColl c l).tagColl c = l := by
  cases c with
  | maps => exact absurd rfl hc
  | tags => rfl
  | terrains => rfl

theorem tagColl_set_other (s : Server) (c c' : WfColl) (l : List (Item TagFields))
    (hne : c' ≠ c) : (s.setTagColl c l).tagColl c' = s.tagColl c' := by
  cases c <;> cases c' <;> first | rfl | exact absurd rfl hne

theorem setTagColl_maps (s : Server) (c : WfColl) (l : List (Item TagFields)) :
    (s.setTagColl c l).maps = s.maps := by
  cases c <;> rfl

theorem tagColl_ids_sub_used (s : Server) (c : WfColl) (hc : c ≠ WfColl.maps) :
    ∀ x ∈ (s.tagColl c).map (fun it => it.id), x ∈ s.usedStrings := by
  intro x hx
  unfold Server.usedStrings
  cases c with
  | maps => exact absurd rfl hc
  | tags =>
    simp only [Server.tagColl] at hx
    simp [hx]
  | terrains =>
    simp only [Server.tagColl] at hx
    simp [hx]

theorem createTagItem_props (s : Server) (c : WfColl) (f : TagFields)
    (hc : c ≠ WfColl.maps) :
    (s.createTagItem c f).2.fieldData = f ∧
    (s.createTagItem c f).2.id = freshStringOver s.usedStrings ∧
    (s.createTagItem c f).1.tagColl c = s.tagColl c ++ [(s.createTagItem c f).2] ∧
    (s.createTagItem c f).1.maps = s.maps ∧
    (∀ c', c' ≠ c → (s.createTagItem c f).1.tagColl c' = s.tagColl c') := by
  refine ⟨rfl, rfl, ?_, ?_, ?_⟩
  · show ({ s.setTagColl c (s.tagColl c ++ [_]) with
      clock := s.clock + 1 } : Server).tagColl c = _
    cases c with
    | maps => exact absurd rfl hc
    | tags => rfl
    | terrains => rfl
  · cases c <;> rfl
  · intro c' hne
    cases c <;> cases c' <;> first | rfl | exact absurd rfl hne

theorem find_id_of_mem_nodup {F : Type} {l : List (Item F)} {it : Item F}
    (hmem : it ∈ l) (hnd : (l.map (fun x => x.id)).Nodup) :
    l.find? (fun x => x.id == it.id) = some it := by
  induction l with
  | nil => cases hmem
  | cons a rest ih =>
    rcases List.mem_cons.mp hmem with rfl | hmem2
    · simp only [List.find?_cons, beq_self_eq_true, cond_true]
    · rw [List.map_cons, List.nodup_cons] at hnd
      have hane : (a.id == it.id) = false := by
        rw [beq_eq_false_iff_ne]
        intro he
        exact hnd.1 (he ▸ List.mem_map_of_mem (fun x => x.id) hmem2)
      simp only [List.find?_cons, hane, cond_false]
      exact ih hmem2 hnd.2

theorem mem_of_entry_get {F V : Type} {ent : Item F → String × V}
    {l : List (Item F)} {k : String} {v : V}
    (hget : jsGet (l.map ent) k = some v) :
    ∃ it ∈ l, ent it = (k, v) := by
  have hmem := jsGet_eq_some_mem hget
  rcases List.mem_map.mp hmem with ⟨it, hit, hent⟩
  exact ⟨it, hit, hent⟩

/-- Replacing an item by id in the collection matches replacing its entry
by key in the entry map. -/
theorem jsSet_replace_map_entry {F V : Type} (ent : Item F → String × V)
    (l : List (Item F)) (it0 ni : Item F)
    (hmem : it0 ∈ l) (hkeys : (l.map (fun x => (ent x).1)).Nodup)
    (hids : (l.map (fun x => x.id)).Nodup)
    (hni : (ent ni).1 = (ent it0).1) :
    jsSet (l.map ent) (ent it0).1 (ent ni).2 =
      (l.map (fun x => if x.id == it0.id then ni else x)).map ent := by
  have hhas : jsHas (l.map ent) (ent it0).1 = true := by
    rw [jsHas_true_iff]
    exact ⟨ent it0, List.mem_map_of_mem ent hmem, rfl⟩
  unfold jsSet
  rw [if_pos hhas, List.map_map, List.map_map]
  apply List.map_congr_left
  intro x hx
  simp only [Function.comp]
  by_cases hkx : (ent x).1 = (ent it0).1
  · have hxeq : x = it0 := List.inj_on_of_nodup_map hkeys hx hmem hkx
    rw [hxeq, if_pos (beq_self_eq_true _), if_pos (beq_self_eq_true _)]
    rw [show ((ent it0).1 : String) = (ent ni).1 from hni.symm]
  · have hkne : ((ent x).1 == (ent it0).1) = false := beq_eq_false_iff_ne.mpr hkx
    have hidne : (x.id == it0.id) = false := by
      rw [beq_eq_false_iff_ne]
      intro he
      exact hkx (by rw [List.inj_on_of_nodup_map hids hx hmem he])
    rw [if_neg (by rw [hkne]; exact Bool.false_ne_true),
      if_neg (by rw [hidne]; exact Bool.false_ne_true)]

theorem updateTagItem_found (s : Server) (c : WfColl) (it0 : Item TagFields)
    (f : TagFields)
    (hfind : (s.tagColl c).find? (fun x => x.id == it0.id) = some it0) :
    s.updateTagItem c it0.id f = some
      ({ s.setTagColl c ((s.tagColl c).map (fun x =>
          if x.id == it0.id then (⟨it0.id, it0.lastPublished, s.clock, f⟩ : Item TagFields)
          else x))
         with clock := s.clock + 1 },
       ⟨it0.id, it0.lastPublished, s.clock, f⟩) := by
  unfold Server.updateTagItem
  rw [hfind]

/-- Pointwise projection preservation of an id-keyed replacement. -/
theorem map_replace_proj {F : Type} {β : Type} (proj : Item F → β)
    (l : List (Item F)) (it0 ni : Item F)
    (hids : (l.map (fun x => x.id)).Nodup) (hmem : it0 ∈ l)
    (hni : proj ni = proj it0) :
    (l.map (fun x => if x.id == it0.id then ni else x)).map proj = l.map proj := by
  rw [List.map_map]
  apply List.map_congr_left
  intro x hx
  simp only [Function.comp]
  by_cases hid : (x.id == it0.id) = true
  · rw [if_pos hid]
    have hxe : x = it0 := List.inj_on_of_nodup_map hids hx hmem (beq_iff_eq.mp hid)
    rw [hni, hxe]
  · rw [if_neg hid]

theorem tagColl_clock (s : Server) (c : WfColl) (n : Nat) :
    ({ s with clock := n } : Server).tagColl c = s.tagColl c := by
  cases c <;> rfl

/-- Characterization of a successful non-dry run of the tag/terrain
additions phase: the in-memory destination map stays the entry view of the
server collection, slug and id uniqueness are preserved, other collections
are untouched, every source entry ends up present with matching fields, and
entries at keys outside the source are untouched. -/
theorem syncTagAdditionsGo_run (equalsFn : WebsiteMapTag → WebflowMapTag → Bool)
    (c : WfColl) (hc : c ≠ WfColl.maps)
    (heq : ∀ t wt, equalsFn t wt = true ↔ (wt.name = t.name ∧ wt.slug = t.slug))
    (src : List (String × WebsiteMapTag)) :
    ∀ (s : Server) (res : TagPhaseRes),
    ((s.tagColl c).map (fun it => it.fieldData.slug)).Nodup →
    ((s.tagColl c).map (fun it => it.id)).Nodup →
    (∀ p ∈ src, p.2.slug = p.1) →
    (src.map Prod.fst).Nodup →
    syncTagAdditionsGo equalsFn c false src ((s.tagColl c).map tagEntry) s = res →
    res.err = none →
    res.dest = (res.srv.tagColl c).map tagEntry ∧
    ((res.srv.tagColl c).map (fun it => it.fieldData.slug)).Nodup ∧
    ((res.srv.tagColl c).map (fun it => it.id)).Nodup ∧
    res.srv.maps = s.maps ∧
    (∀ c', c' ≠ c → res.srv.tagColl c' = s.tagColl c') ∧
    (∀ p ∈ src, ∃ it, it.fieldData.name = p.2.name ∧ it.fieldData.slug = p.2.slug ∧
      jsGet res.dest p.2.slug = some (WebflowMapTag.ofItem it)) ∧
    (∀ sl, (∀ p ∈ src, p.1 ≠ sl) →
      jsGet res.dest sl = jsGet ((s.tagColl c).map tagEntry) sl) := by
  induction src with
  | nil =>
    intro s res hs hi _ _ h _
    rw [← h]
    exact ⟨rfl, hs, hi, rfl, fun c' _ => rfl,
      fun p hp => absurd hp (List.not_mem_nil p), fun sl _ => rfl⟩
  | cons p rest ih =>
    rcases p with ⟨k, t⟩
    intro s res hs hi hk hnk h herr
    have hkt : t.slug = k := hk (k, t) (List.mem_cons_self _ _)
    have hkrest : ∀ q ∈ rest, q.2.slug = q.1 :=
      fun q hq => hk q (List.mem_cons_of_mem _ hq)
    rw [List.map_cons, List.nodup_cons] at hnk
    have hknotin : k ∉ rest.map Prod.fst := hnk.1
    have hnkrest := hnk.2
    have hrestne : ∀ q ∈ rest, q.1 ≠ t.slug := by
      intro q hq he
      apply hknotin
      rw [← hkt, ← he]
      exact List.mem_map_of_mem _ hq
    unfold syncTagAdditionsGo at h
    cases hget : jsGet ((s.tagColl c).map tagEntry) t.slug with
    | none =>
      rw [hget] at h
      simp only [] at h
      rw [if_neg Bool.false_ne_true] at h
      rcases createTagItem_props s c (tagGenerateFields t) hc with
        ⟨hfd, hid, hcoll, hmaps, hoth⟩
      have hcs : (s.createTagItem c (tagGenerateFields t)).2.fieldData.slug = t.slug := rfl
      rw [hcs] at h
      by_cases hts : t.slug = ""
      · rw [if_pos hts] at h
        rw [← h] at herr
        simp at herr
      · rw [if_neg hts] at h
        have hhasF : jsHas ((s.tagColl c).map tagEntry) t.slug = false :=
          jsHas_false_iff.mpr (jsGet_eq_none_iff.mp hget)
        have hslugnot : t.slug ∉ (s.tagColl c).map (fun it => it.fieldData.slug) := by
          intro hmem
          rcases List.mem_map.mp hmem with ⟨it, hit, hsl⟩
          exact jsGet_eq_none_iff.mp hget (tagEntry it)
            (List.mem_map_of_mem tagEntry hit) hsl
        have hidnot : freshStringOver s.usedStrings ∉
            (s.tagColl c).map (fun it => it.id) := by
          intro hmem
          exact freshStringOver_not_mem s.usedStrings
            (tagColl_ids_sub_used s c hc _ hmem)
        have hdest2 : jsSet ((s.tagColl c).map tagEntry) t.slug
            (WebflowMapTag.ofItem (s.createTagItem c (tagGenerateFields t)).2) =
            ((s.createTagItem c (tagGenerateFields t)).1.tagColl c).map tagEntry := by
          rw [jsSet_append_fresh _ _ _ hhasF, hcoll, List.map_append]
          rfl
        rw [hdest2] at h
        have hslugs2 : ((s.createTagItem c (tagGenerateFields t)).1.tagColl c).map
            (fun it => it.fieldData.slug) =
            (s.tagColl c).map (fun it => it.fieldData.slug) ++ [t.slug] := by
          rw [hcoll, List.map_append]
          rfl
        have hids2 : ((s.createTagItem c (tagGenerateFields t)).1.tagColl c).map
            (fun it => it.id) =
            (s.tagColl c).map (fun it => it.id) ++ [freshStringOver s.usedStrings] := by
          rw [hcoll, List.map_append]
          rfl
        have hrec := ih (s.createTagItem c (tagGenerateFields t)).1 _
          (by
            rw [hslugs2]
            exact List.Nodup.append hs (List.nodup_singleton _)
              (fun x hx1 hx2 => hslugnot ((List.mem_singleton.mp hx2) ▸ hx1)))
          (by
            rw [hids2]
            exact List.Nodup.append hi (List.nodup_singleton _)
              (fun x hx1 hx2 => hidnot ((List.mem_singleton.mp hx2) ▸ hx1)))
          hkrest hnkrest rfl
          (by rw [← h] at herr; exact herr)
        rcases hrec with ⟨B1, B2, B3, B4, B5, B6, B7⟩
        rw [← h]
        refine ⟨B1, B2, B3, by rw [B4, hmaps], ?_, ?_, ?_⟩
        · intro c' hne
          rw [B5 c' hne, hoth c' hne]
        · intro q hq
          rcases List.mem_cons.mp hq with heqq | hq2
          · rw [heqq]
            refine ⟨(s.createTagItem c (tagGenerateFields t)).2, rfl, rfl, ?_⟩
            show jsGet (syncTagAdditionsGo equalsFn c false rest _ _).dest t.slug = _
            rw [B7 t.slug hrestne, ← hdest2, jsGet_jsSet_same]
          · exact B6 q hq2
        · intro sl hsl
          have hslne : t.slug ≠ sl := by
            rw [hkt]
            exact hsl (k, t) (List.mem_cons_self _ _)
          have hslrest : ∀ q ∈ rest, q.1 ≠ sl :=
            fun q hq => hsl q (List.mem_cons_of_mem _ hq)
          rw [B7 sl hslrest, ← hdest2,
            jsGet_jsSet_ne _ _ _ _ (fun he => hslne he.symm)]
    | some wt =>
      rw [hget] at h
      simp only [] at h
      rcases mem_of_entry_get hget with ⟨it0, hit0, hent0⟩
      have hslug0 : it0.fieldData.slug = t.slug := congrArg Prod.fst hent0
      have hwt : wt = WebflowMapTag.ofItem it0 := (congrArg Prod.snd hent0).symm
      by_cases hequal : equalsFn t wt = true
      · rw [if_pos hequal] at h
        have hrec := ih s _ hs hi hkrest hnkrest rfl
          (by rw [← h] at herr; exact herr)
        rcases hrec with ⟨B1, B2, B3, B4, B5, B6, B7⟩
        rw [← h]
        refine ⟨B1, B2, B3, B4, B5, ?_, ?_⟩
        · intro q hq
          rcases List.mem_cons.mp hq with heqq | hq2
          · rw [heqq]
            rcases (heq t wt).mp hequal with ⟨hn, hsl⟩
            refine ⟨it0, ?_, hslug0, ?_⟩
            · rw [show it0.fieldData.name = wt.name from by rw [hwt]; rfl]
              exact hn
            · show jsGet (syncTagAdditionsGo equalsFn c false rest _ _).dest t.slug = _
              rw [B7 t.slug hrestne, hget, hwt]
          · exact B6 q hq2
        · intro sl hsl
          exact B7 sl (fun q hq => hsl q (List.mem_cons_of_mem _ hq))
      · rw [if_neg hequal, if_neg Bool.false_ne_true] at h
        have hfind : (s.tagColl c).find? (fun x => x.id == it0.id) = some it0 :=
          find_id_of_mem_nodup hit0 hi
        rw [hwt] at h
        rw [show (WebflowMapTag.ofItem it0).item.id = it0.id from rfl] at h
        simp only [show tagGenerateFields t = (⟨t.name, t.slug⟩ : TagFields) from rfl] at h
        rw [updateTagItem_found s c it0 ⟨t.name, t.slug⟩ hfind] at h
        simp only [] at h
        by_cases hts : t.slug = ""
        · rw [if_pos hts] at h
          rw [← h] at herr
          simp at herr
        · rw [if_neg hts] at h
          have hnislug : ((⟨it0.id, it0.lastPublished, s.clock,
              (⟨t.name, t.slug⟩ : TagFields)⟩ : Item TagFields)).fieldData.slug
              = it0.fieldData.slug := by
            rw [hslug0]
          have hrepl : jsSet ((s.tagColl c).map tagEntry) t.slug
              (WebflowMapTag.ofItem (⟨it0.id, it0.lastPublished, s.clock,
                (⟨t.name, t.slug⟩ : TagFields)⟩ : Item TagFields)) =
              ((s.tagColl c).map (fun x => if x.id == it0.id then
                (⟨it0.id, it0.lastPublished, s.clock,
                  (⟨t.name, t.slug⟩ : TagFields)⟩ : Item TagFields)
                else x)).map tagEntry := by
            have base := jsSet_replace_map_entry tagEntry (s.tagColl c) it0
              (⟨it0.id, it0.lastPublished, s.clock,
                (⟨t.name, t.slug⟩ : TagFields)⟩ : Item TagFields) hit0 hs hi hnislug
            rw [show ((tagEntry it0).1 : String) = t.slug from hslug0] at base
            exact base
          rw [hrepl] at h
          have hS : ({ s.setTagColl c ((s.tagColl c).map (fun x =>
              if x.id == it0.id then (⟨it0.id, it0.lastPublished, s.clock,
                (⟨t.name, t.slug⟩ : TagFields)⟩ : Item TagFields) else x))
              with clock := s.clock + 1 } : Server).tagColl c =
              (s.tagColl c).map (fun x => if x.id == it0.id then
                (⟨it0.id, it0.lastPublished, s.clock,
                  (⟨t.name, t.slug⟩ : TagFields)⟩ : Item TagFields) else x) := by
            rw [tagColl_clock, tagColl_set_same _ _ _ hc]
          have hslugpres := map_replace_proj (fun x => x.fieldData.slug) (s.tagColl c)
            it0 ⟨it0.id, it0.lastPublished, s.clock, ⟨t.name, t.slug⟩⟩ hi hit0 hnislug
          have hidpres := map_replace_proj (fun x => x.id) (s.tagColl c)
            it0 ⟨it0.id, it0.lastPublished, s.clock, ⟨t.name, t.slug⟩⟩ hi hit0 rfl
          have hrec := ih ({ s.setTagColl c ((s.tagColl c).map (fun x =>
              if x.id == it0.id then (⟨it0.id, it0.lastPublished, s.clock,
                (⟨t.name, t.slug⟩ : TagFields)⟩ : Item TagFields) else x))
              with clock := s.clock + 1 } : Server) _
            (by rw [hS, hslugpres]; exact hs)
            (by rw [hS, hidpres]; exact hi)
            hkrest hnkrest (by rw [hS])
            (by rw [← h] at herr; exact herr)
          rcases hrec with ⟨B1, B2, B3, B4, B5, B6, B7⟩
          rw [← h]
          refine ⟨B1, ?_, ?_, ?_, ?_, ?_, ?_⟩
          · exact B2
          · exact B3
          · rw [B4]
            exact setTagColl_maps s c _
          · intro c' hne
            rw [B5 c' hne, tagColl_clock, tagColl_set_other s c c' _ hne]
          · intro q hq
            rcases List.mem_cons.mp hq with heqq | hq2
            · rw [heqq]
              refine ⟨⟨it0.id, it0.lastPublished, s.clock, ⟨t.name, t.slug⟩⟩,
                rfl, rfl, ?_⟩
              show jsGet (syncTagAdditionsGo equalsFn c false rest _ _).dest t.slug = _
              rw [B7 t.slug hrestne, hS, ← hrepl, jsGet_jsSet_same]
            · exact B6 q hq2
          · intro sl hsl
            have hslne : t.slug ≠ sl := by
              rw [hkt]
              exact hsl (k, t) (List.mem_cons_self _ _)
            have hslrest : ∀ q ∈ rest, q.1 ≠ sl :=
              fun q hq => hsl q (List.mem_cons_of_mem _ hq)
            rw [B7 sl hslrest, hS, ← hrepl,
              jsGet_jsSet_ne _ _ _ _ (fun he => hslne he.symm)]

theorem setTagColl_setTagColl (s : Server) (c : WfColl)
    (L1 L2 : List (Item TagFields)) :
    (s.setTagColl c L1).setTagColl c L2 = s.setTagColl c L2 := by
  cases c <;> rfl

/-- Characterization of a non-dry removals pass over a tag/terrain
collection: the server ends with the items not deleted by any visited
entry whose slug is outside the source, and no error is possible. -/
theorem syncTagRemovalsGo_run (c : WfColl) (hc : c ≠ WfColl.maps)
    (src : List (String × WebsiteMapTag)) :
    ∀ (visit dest : List (String × WebflowMapTag)) (s : Server),
    (syncTagRemovalsGo c false src visit dest s).srv =
      s.setTagColl c ((s.tagColl c).filter (fun it =>
        visit.all (fun e => jsHas src e.2.slug || e.2.item.id != it.id))) ∧
    (syncTagRemovalsGo c false src visit dest s).err = none := by
  intro visit
  induction visit with
  | nil =>
    intro dest s
    constructor
    · show s = s.setTagColl c ((s.tagColl c).filter (fun it => List.all [] _))
      simp only [List.all_nil]
      rw [List.filter_true]
      cases c <;> rfl
    · rfl
  | cons e restV ih =>
    rcases e with ⟨k2, tg⟩
    intro dest s
    unfold syncTagRemovalsGo
    by_cases hh : jsHas src tg.slug = true
    · rw [hh]
      simp only [Bool.not_true]
      rw [if_neg Bool.false_ne_true]
      have hfe : (s.tagColl c).filter (fun it =>
          ((k2, tg) :: restV).all (fun e => jsHas src e.2.slug || e.2.item.id != it.id)) =
          (s.tagColl c).filter (fun it =>
          restV.all (fun e => jsHas src e.2.slug || e.2.item.id != it.id)) := by
        apply List.filter_congr
        intro it _
        simp [List.all_cons, hh]
      rw [hfe]
      exact ih dest s
    · rw [Bool.not_eq_true] at hh
      rw [hh]
      simp only [Bool.not_false, if_true]
      rw [if_neg Bool.false_ne_true]
      simp only []
      rcases ih (jsDelete dest tg.slug) (s.deleteTagItem c tg.item.id) with ⟨ih1, ih2⟩
      refine ⟨?_, by trivial⟩
      show (syncTagRemovalsGo c false src restV _ _).srv = _
      rw [ih1]
      rw [show s.deleteTagItem c tg.item.id = s.setTagColl c
        ((s.tagColl c).filter (fun it => it.id != tg.item.id)) from rfl]
      rw [setTagColl_setTagColl]
      rw [tagColl_set_same s c _ hc]
      rw [List.filter_filter]
      congr 1
      apply List.filter_congr
      intro it _
      simp only [List.all_cons, hh, Bool.false_or]
      by_cases hid : it.id = tg.item.id
      · rw [hid]
        simp
      · have h1 : (it.id != tg.item.id) = true := by
          simp [bne, hid]
        have h2 : (tg.item.id != it.id) = true := by
          simp [bne]
          exact fun he => hid he.symm
        rw [h1, h2]
        simp

/-! ## C1: the publish step only changes publication timestamps -/

def itemCores {F : Type} (l : List (Item F)) : List (String × F) :=
  l.map (fun it => (it.id, it.fieldData))

theorem cores_proj {F : Type} {β : Type} (f : String → F → β) (l : List (Item F)) :
    (itemCores l).map (fun p => f p.1 p.2) = l.map (fun it => f it.id it.fieldData) := by
  unfold itemCores
  rw [List.map_map]
  rfl

theorem publishMark_cores {F : Type} (cl : Nat) (ids : List String)
    (l : List (Item F)) : itemCores (publishMark cl ids l) = itemCores l := by
  unfold itemCores publishMark
  rw [List.map_map]
  apply List.map_congr_left
  intro it _
  simp only [Function.comp]
  by_cases hm : ids.contains it.id = true
  · rw [if_pos hm]
  · rw [if_neg hm]

theorem publishColl_cores (s : Server) (c : WfColl) (ids : List String) :
    itemCores (s.publishColl c ids).maps = itemCores s.maps ∧
    itemCores (s.publishColl c ids).tags = itemCores s.tags ∧
    itemCores (s.publishColl c ids).terrains = itemCores s.terrains := by
  cases c with
  | maps => exact ⟨publishMark_cores _ _ _, rfl, rfl⟩
  | tags => exact ⟨rfl, publishMark_cores _ _ _, rfl⟩
  | terrains => exact ⟨rfl, rfl, publishMark_cores _ _ _⟩

theorem publishFold_cores (c : WfColl) (batches : List (List String)) :
    ∀ s : Server,
    itemCores ((batches.foldl (fun srv b => srv.publishColl c b) s)).maps =
      itemCores s.maps ∧
    itemCores ((batches.foldl (fun srv b => srv.publishColl c b) s)).tags =
      itemCores s.tags ∧
    itemCores ((batches.foldl (fun srv b => srv.publishColl c b) s)).terrains =
      itemCores s.terrains := by
  induction batches with
  | nil => exact fun s => ⟨rfl, rfl, rfl⟩
  | cons b rest ih =>
    intro s
    rw [List.foldl_cons]
    rcases ih (s.publishColl c b) with ⟨i1, i2, i3⟩
    rcases publishColl_cores s c b with ⟨p1, p2, p3⟩
    exact ⟨by rw [i1, p1], by rw [i2, p2], by rw [i3, p3]⟩

theorem publishPhase_cores {F : Type} (c : WfColl) (items : List (Item F))
    (s : Server) :
    itemCores (publishPhase c items s false).1.maps = itemCores s.maps ∧
    itemCores (publishPhase c items s false).1.tags = itemCores s.tags ∧
    itemCores (publishPhase c items s false).1.terrains = itemCores s.terrains := by
  unfold publishPhase
  rw [if_neg Bool.false_ne_true]
  exact publishFold_cores c _ s

theorem cores_mem {F : Type} {l l2 : List (Item F)} {it : Item F}
    (hc : itemCores l = itemCores l2) (hmem : it ∈ l) :
    ∃ it2 ∈ l2, it2.id = it.id ∧ it2.fieldData = it.fieldData := by
  have h1 : (it.id, it.fieldData) ∈ itemCores l2 := by
    rw [← hc]
    exact List.mem_map_of_mem _ hmem
  rcases List.mem_map.mp h1 with ⟨it2, hmem2, he⟩
  exact ⟨it2, hmem2, congrArg Prod.fst he, congrArg Prod.snd he⟩

/-! ## C1: reference resolution characterizations -/

theorem resolveRefList_ok_some (refs : List (String × WebflowMapTag))
    (n : String) (rs : List String) :
    ∀ l, resolveRefList refs false n rs = .ok l →
    ∀ r ∈ rs, (jsGet refs r).isSome = true := by
  induction rs with
  | nil =>
    intro l _ r hr
    cases hr
  | cons r0 rest ih =>
    intro l h r hr
    unfold resolveRefList at h
    cases hg : jsGet refs r0 with
    | none =>
      rw [hg] at h
      rw [if_neg Bool.false_ne_true] at h
      cases h
    | some t =>
      rw [hg] at h
      simp only [] at h
      cases hrec : resolveRefList refs false n rest with
      | error e =>
        rw [hrec] at h
        cases h
      | ok l2 =>
        rcases List.mem_cons.mp hr with rfl | hr2
        · rw [hg]
          rfl
        · exact ih l2 hrec r hr2

theorem resolveRefList_ok_eq (refs : List (String × WebflowMapTag))
    (n : String) (rs : List String) :
    ∀ l, resolveRefList refs false n rs = .ok l →
    l = rs.map (fun r => ((jsGet refs r).map (fun t => t.item.id)).getD "") := by
  induction rs with
  | nil =>
    intro l h
    injection h with h2
    rw [← h2]
    rfl
  | cons r0 rest ih =>
    intro l h
    unfold resolveRefList at h
    cases hg : jsGet refs r0 with
    | none =>
      rw [hg] at h
      rw [if_neg Bool.false_ne_true] at h
      cases h
    | some t =>
      rw [hg] at h
      simp only [] at h
      cases hrec : resolveRefList refs false n rest with
      | error e =>
        rw [hrec] at h
        cases h
      | ok l2 =>
        rw [hrec] at h
        injection h with h2
        rw [← h2, List.map_cons, hg, ih l2 hrec]
        rfl

theorem resolveRefList_congr (refs2 refs : List (String × WebflowMapTag))
    (n : String) (rs : List String)
    (hpt : ∀ r ∈ rs, Option.map (fun t => t.item.id) (jsGet refs2 r) =
      Option.map (fun t => t.item.id) (jsGet refs r)) :
    resolveRefList refs2 false n rs = resolveRefList refs false n rs := by
  induction rs with
  | nil => rfl
  | cons r0 rest ih =>
    have hpt0 := hpt r0 (List.mem_cons_self _ _)
    have hptr : ∀ r ∈ rest, Option.map (fun t => t.item.id) (jsGet refs2 r) =
        Option.map (fun t => t.item.id) (jsGet refs r) :=
      fun r hr => hpt r (List.mem_cons_of_mem _ hr)
    unfold resolveRefList
    cases hg : jsGet refs r0 with
    | none =>
      rw [hg, Option.map_none'] at hpt0
      rw [Option.map_eq_none'] at hpt0
      rw [hpt0]
      rfl
    | some t =>
      rw [hg, Option.map_some'] at hpt0
      rcases Option.map_eq_some'.mp hpt0 with ⟨t2, hg2, hid⟩
      rw [hg2, ih hptr]
      cases resolveRefList refs false n rest with
      | error e => rfl
      | ok l2 =>
        simp only []
        rw [hid]

theorem resolveItemRefsInMapInfos_congr
    (infos : List (String × WebsiteMapInfo)) (field : RefField)
    (refs2 refs : List (String × WebflowMapTag))
    (hpt : ∀ p ∈ infos, ∀ r ∈ p.2.getRefField field,
      Option.map (fun t => t.item.id) (jsGet refs2 r) =
      Option.map (fun t => t.item.id) (jsGet refs r)) :
    resolveItemRefsInMapInfos infos field refs2 false =
      resolveItemRefsInMapInfos infos field refs false := by
  induction infos with
  | nil => rfl
  | cons p rest ih =>
    rcases p with ⟨k, info⟩
    unfold resolveItemRefsInMapInfos
    rw [resolveRefList_congr refs2 refs _ _
      (hpt (k, info) (List.mem_cons_self _ _)),
      ih (fun q hq => hpt q (List.mem_cons_of_mem _ hq))]

theorem resolveItemRefsInMapInfos_ok_some
    (infos : List (String × WebsiteMapInfo)) (field : RefField)
    (refs : List (String × WebflowMapTag)) :
    ∀ out, resolveItemRefsInMapInfos infos field refs false = .ok out →
    ∀ p ∈ infos, ∀ r ∈ p.2.getRefField field, (jsGet refs r).isSome = true := by
  induction infos with
  | nil =>
    intro out _ p hp
    cases hp
  | cons q rest ih =>
    rcases q with ⟨k, info⟩
    intro out h p hp
    unfold resolveItemRefsInMapInfos at h
    cases hr1 : resolveRefList refs false (refFieldName field)
        (info.getRefField field) with
    | error e =>
      rw [hr1] at h
      cases h
    | ok l =>
      rw [hr1] at h
      simp only [] at h
      cases hr2 : resolveItemRefsInMapInfos rest field refs false with
      | error e =>
        rw [hr2] at h
        cases h
      | ok out2 =>
        rcases List.mem_cons.mp hp with rfl | hp2
        · exact resolveRefList_ok_some refs _ _ l hr1
        · exact ih out2 hr2 p hp2

theorem resolveItemRefsInMapInfos_ok_eq
    (infos : List (String × WebsiteMapInfo)) (field : RefField)
    (refs : List (String × WebflowMapTag)) :
    ∀ out, resolveItemRefsInMapInfos infos field refs false = .ok out →
    out = infos.map (fun p => (p.1, p.2.setRefField field
      ((p.2.getRefField field).map (fun r =>
        ((jsGet refs r).map (fun t => t.item.id)).getD "")))) := by
  induction infos with
  | nil =>
    intro out h
    injection h with h2
    rw [← h2]
    rfl
  | cons q rest ih =>
    rcases q with ⟨k, info⟩
    intro out h
    unfold resolveItemRefsInMapInfos at h
    cases hr1 : resolveRefList refs false (refFieldName field)
        (info.getRefField field) with
    | error e =>
      rw [hr1] at h
      cases h
    | ok l =>
      rw [hr1] at h
      simp only [] at h
      cases hr2 : resolveItemRefsInMapInfos rest field refs false with
      | error e =>
        rw [hr2] at h
        cases h
      | ok out2 =>
        rw [hr2] at h
        injection h with h2
        rw [← h2, List.map_cons, ih out2 hr2,
          resolveRefList_ok_eq refs _ _ l hr1]

theorem setRefField_rowyId (i : WebsiteMapInfo) (field : RefField) (l : List String) :
    (i.setRefField field l).rowyId = i.rowyId := by
  cases field <;> rfl

theorem setRefField_infoReady (i : WebsiteMapInfo) (field : RefField)
    (l : List String) (hi : infoReady i) : infoReady (i.setRefField field l) := by
  cases field <;> exact hi

/-! ## C1: map collection server operations -/

theorem jsGet_of_mem_nodup {α : Type} {m : List (String × α)} {k : String} {v : α}
    (hnd : (m.map Prod.fst).Nodup) (hmem : (k, v) ∈ m) : jsGet m k = some v := by
  induction m with
  | nil => cases hmem
  | cons p rest ih =>
    rw [List.map_cons, List.nodup_cons] at hnd
    rcases List.mem_cons.mp hmem with heqp | hmem2
    · rw [← heqp, jsGet_cons, if_pos rfl]
    · rw [jsGet_cons, if_neg ?hne]
      · exact ih hnd.2 hmem2
      case hne =>
        intro he
        apply hnd.1
        rw [he]
        exact List.mem_map_of_mem _ hmem2

theorem resolveOneRef_used_mono (pr : Option WebflowImageRef) (v : String)
    (used : List String) : ∀ x ∈ used, x ∈ (resolveOneRef pr v used).2 := by
  intro x hx
  unfold resolveOneRef
  cases pr with
  | none => exact List.mem_cons_of_mem _ hx
  | some r =>
    simp only []
    by_cases hb : (r.fileId == v) = true
    · rw [if_pos hb]
      exact hx
    · rw [if_neg hb]
      exact List.mem_cons_of_mem _ hx

theorem resolveOptRef_used_mono (pr : Option WebflowImageRef) (v : Option String)
    (used : List String) : ∀ x ∈ used, x ∈ (resolveOptRef pr v used).2 := by
  intro x hx
  unfold resolveOptRef
  cases v with
  | none => exact hx
  | some u =>
    simp only []
    exact resolveOneRef_used_mono pr u used x hx

theorem resolveListRefs_used_mono (prior : List WebflowImageRef) :
    ∀ (vs : List String) (used : List String), ∀ x ∈ used,
      x ∈ (resolveListRefs prior vs used).2 := by
  intro vs
  induction vs with
  | nil =>
    intro used x hx
    exact hx
  | cons v rest ih =>
    intro used x hx
    unfold resolveListRefs
    cases prior.find? (fun r => r.fileId == v) with
    | some r =>
      simp only []
      exact ih used x hx
    | none =>
      simp only []
      exact ih _ x (List.mem_cons_of_mem _ hx)

theorem convertWriteFields_used_mono (p : Option WebflowMapFieldsRead)
    (f : WebflowMapFieldsWrite) (used : List String) :
    ∀ x ∈ used, x ∈ (convertWriteFields p f used).2 := by
  intro x hx
  exact resolveOneRef_used_mono _ _ _ _ (resolveOneRef_used_mono _ _ _ _
    (resolveOneRef_used_mono _ _ _ _ (resolveListRefs_used_mono _ _ _ _
      (resolveOptRef_used_mono _ _ _ _ (resolveOptRef_used_mono _ _ _ _
        (resolveOneRef_used_mono _ _ _ _ (resolveOneRef_used_mono _ _ _ _ hx)))))))

theorem maps_ids_sub_used (s : Server) :
    ∀ x ∈ s.maps.map (fun it => it.id), x ∈ s.usedStrings := by
  intro x hx
  unfold Server.usedStrings
  simp [hx]

theorem createMapItem_props (s : Server) (f : WebflowMapFieldsWrite) :
    (s.createMapItem f).2.fieldData = (convertWriteFields none f s.usedStrings).1 ∧
    (s.createMapItem f).2.id = freshStringOver (convertWriteFields none f s.usedStrings).2 ∧
    (s.createMapItem f).1.maps = s.maps ++ [(s.createMapItem f).2] ∧
    (s.createMapItem f).1.tags = s.tags ∧
    (s.createMapItem f).1.terrains = s.terrains := by
  exact ⟨rfl, rfl, rfl, rfl, rfl⟩

theorem createMapItem_id_fresh (s : Server) (f : WebflowMapFieldsWrite) :
    (s.createMapItem f).2.id ∉ s.maps.map (fun it => it.id) := by
  intro hmem
  have h1 : (s.createMapItem f).2.id ∈ (convertWriteFields none f s.usedStrings).2 :=
    convertWriteFields_used_mono none f s.usedStrings _ (maps_ids_sub_used s _ hmem)
  exact freshStringOver_not_mem _ h1

theorem updateMapItem_found (s : Server) (it0 : Item WebflowMapFieldsRead)
    (f : WebflowMapFieldsWrite)
    (hfind : s.maps.find? (fun x => x.id == it0.id) = some it0) :
    s.updateMapItem it0.id f = some
      (Server.mk (s.maps.map (fun x => if x.id == it0.id then
          (⟨it0.id, it0.lastPublished, s.clock,
            (convertWriteFields (some it0.fieldData) f s.usedStrings).1⟩ :
            Item WebflowMapFieldsRead) else x)) s.tags s.terrains (s.clock + 1),
       ⟨it0.id, it0.lastPublished, s.clock,
         (convertWriteFields (some it0.fieldData) f s.usedStrings).1⟩) := by
  unfold Server.updateMapItem
  rw [hfind]

/-- Characterization of a non-dry run of the map additions pass: missing
maps are created (and are immediately read back equal), found maps are
collected with their computed equality, and the in-memory map stays the
entry view of the server collection. -/
theorem syncMapsAdditionsGo_run (h : String → String)
    (src : List (String × WebsiteMapInfo)) :
    ∀ (s : Server) (ups : List (Bool × WebsiteMapInfo × WebflowMapInfo))
      (res : List (String × WebflowMapInfo) × Server × List WfCall ×
        List (Bool × WebsiteMapInfo × WebflowMapInfo)),
    (s.maps.map (fun it => reqRStr it.fieldData.rowyid)).Nodup →
    (s.maps.map (fun it => it.id)).Nodup →
    (∀ p ∈ src, p.2.rowyId = p.1) →
    (src.map Prod.fst).Nodup →
    (∀ p ∈ src, infoReady p.2) →
    syncMapsAdditionsGo h false src (s.maps.map mapEntry) s ups = res →
    res.1 = (res.2.1.maps).map mapEntry ∧
    ((res.2.1.maps).map (fun it => reqRStr it.fieldData.rowyid)).Nodup ∧
    ((res.2.1.maps).map (fun it => it.id)).Nodup ∧
    res.2.1.tags = s.tags ∧
    res.2.1.terrains = s.terrains ∧
    (∀ it ∈ s.maps, it ∈ res.2.1.maps) ∧
    (∃ nt, res.2.2.2 = ups ++ nt ∧
      ((nt.map (fun trip => trip.2.1.rowyId)).Nodup) ∧
      (∀ trip ∈ nt, trip.2.1.rowyId ∈ src.map Prod.fst) ∧
      (∀ trip ∈ nt,
        trip.1 = isWebflowMapInfoEqual h trip.2.1 trip.2.2.toWebsiteMapInfo ∧
        infoReady trip.2.1 ∧
        ∃ it ∈ s.maps, mapEntry it = (trip.2.1.rowyId, trip.2.2)) ∧
      (∀ p ∈ src, (∃ trip ∈ nt, trip.2.1 = p.2) ∨
        ((∀ trip ∈ nt, trip.2.1.rowyId ≠ p.2.rowyId) ∧
          ∃ it ∈ res.2.1.maps, reqRStr it.fieldData.rowyid = p.2.rowyId ∧
          isWebflowMapInfoEqual h p.2 (readWebsiteInfo it.fieldData) = true))) := by
  induction src with
  | nil =>
    intro s ups res h1 h2 _ _ _ hsync
    rw [← hsync]
    exact ⟨rfl, h1, h2, rfl, rfl, fun it hmem => hmem,
      ⟨[], (List.append_nil ups).symm, List.nodup_nil,
        fun trip htrip => absurd htrip (List.not_mem_nil trip),
        fun trip htrip => absurd htrip (List.not_mem_nil trip),
        fun p hp => absurd hp (List.not_mem_nil p)⟩⟩
  | cons q rest ih =>
    rcases q with ⟨k, mp⟩
    intro s ups res hrk hik hk hnk hready hsync
    have hkm : mp.rowyId = k := hk (k, mp) (List.mem_cons_self _ _)
    have hkrest : ∀ p ∈ rest, p.2.rowyId = p.1 :=
      fun p hp => hk p (List.mem_cons_of_mem _ hp)
    rw [List.map_cons, List.nodup_cons] at hnk
    have hknotin : k ∉ rest.map Prod.fst := hnk.1
    have hnkrest := hnk.2
    have hreadyrest : ∀ p ∈ rest, infoReady p.2 :=
      fun p hp => hready p (List.mem_cons_of_mem _ hp)
    unfold syncMapsAdditionsGo at hsync
    cases hget : jsGet (s.maps.map mapEntry) mp.rowyId with
    | none =>
      rw [hget] at hsync
      simp only [] at hsync
      rw [if_neg Bool.false_ne_true] at hsync
      have hhasF : jsHas (s.maps.map mapEntry) mp.rowyId = false :=
        jsHas_false_iff.mpr (jsGet_eq_none_iff.mp hget)
      have hkeynot : mp.rowyId ∉ s.maps.map (fun it => reqRStr it.fieldData.rowyid) := by
        intro hmem
        rcases List.mem_map.mp hmem with ⟨it, hit, hsl⟩
        exact jsGet_eq_none_iff.mp hget (mapEntry it)
          (List.mem_map_of_mem mapEntry hit) hsl
      have hidnot := createMapItem_id_fresh s (generateFields h mp none)
      rcases createMapItem_props s (generateFields h mp none) with
        ⟨hfd, hid, hcoll, htg, hter⟩
      have hdest2 : jsSet (s.maps.map mapEntry) mp.rowyId
          (WebflowMapInfo.ofItem (s.createMapItem (generateFields h mp none)).2) =
          ((s.createMapItem (generateFields h mp none)).1.maps).map mapEntry := by
        rw [jsSet_append_fresh _ _ _ hhasF, hcoll, List.map_append]
        rfl
      rw [hdest2] at hsync
      have hrk2 : ((s.createMapItem (generateFields h mp none)).1.maps).map
          (fun it => reqRStr it.fieldData.rowyid) =
          s.maps.map (fun it => reqRStr it.fieldData.rowyid) ++ [mp.rowyId] := by
        rw [hcoll, List.map_append]
        rfl
      have hik2 : ((s.createMapItem (generateFields h mp none)).1.maps).map
          (fun it => it.id) =
          s.maps.map (fun it => it.id) ++
            [(s.createMapItem (generateFields h mp none)).2.id] := by
        rw [hcoll, List.map_append]
        rfl
      have hrec := ih (s.createMapItem (generateFields h mp none)).1 ups _
        (by
          rw [hrk2]
          exact List.Nodup.append hrk (List.nodup_singleton _)
            (fun x hx1 hx2 => hkeynot ((List.mem_singleton.mp hx2) ▸ hx1)))
        (by
          rw [hik2]
          exact List.Nodup.append hik (List.nodup_singleton _)
            (fun x hx1 hx2 => hidnot ((List.mem_singleton.mp hx2) ▸ hx1)))
        hkrest hnkrest hreadyrest rfl
      rcases hrec with ⟨B1, B2, B3, B4, B5, B6, nt, C1, C2, C3, C4, C5⟩
      rw [← hsync]
      refine ⟨B1, B2, B3, by rw [B4, htg], by rw [B5, hter], ?_, ?_⟩
      · intro it hmem
        apply B6
        rw [hcoll]
        exact List.mem_append_left _ hmem
      · refine ⟨nt, C1, C2, ?_, ?_, ?_⟩
        · intro trip htrip
          exact List.mem_cons_of_mem _ (C3 trip htrip)
        · intro trip htrip
          rcases C4 trip htrip with ⟨D1, D2, it, hitmem, hitent⟩
          refine ⟨D1, D2, it, ?_, hitent⟩
          rw [hcoll] at hitmem
          rcases List.mem_append.mp hitmem with hl | hr
          · exact hl
          · exfalso
            rw [List.mem_singleton] at hr
            have hkey : reqRStr it.fieldData.rowyid = trip.2.1.rowyId :=
              congrArg Prod.fst hitent
            rw [hr] at hkey
            have hkey2 : mp.rowyId = trip.2.1.rowyId := hkey
            apply hknotin
            rw [← hkm, hkey2]
            exact C3 trip htrip
        · intro p hp
          rcases List.mem_cons.mp hp with heqp | hp2
          · right
            refine ⟨?_, (s.createMapItem (generateFields h mp none)).2, ?_, ?_, ?_⟩
            · intro trip htrip hkeq
              have hkeq2 : trip.2.1.rowyId = mp.rowyId := by rw [hkeq, heqp]
              apply hknotin
              rw [← hkm, ← hkeq2]
              exact C3 trip htrip
            · apply B6
              rw [hcoll]
              exact List.mem_append_right _ (List.mem_singleton_self _)
            · rw [heqp]
              rfl
            · rw [heqp]
              exact mapWriteReadRoundtrip h mp none s.usedStrings
                (hready (k, mp) (List.mem_cons_self _ _))
                (fun b hb => nomatch hb)
          · rcases C5 p hp2 with hl | ⟨hnone, hres⟩
            · exact Or.inl hl
            · exact Or.inr ⟨hnone, hres⟩
    | some wm =>
      rw [hget] at hsync
      simp only [] at hsync
      rcases mem_of_entry_get hget with ⟨it1, hit1, hent1⟩
      have hrec := ih s (ups ++
        [(isWebflowMapInfoEqual h mp wm.toWebsiteMapInfo, mp, wm)]) res
        hrk hik hkrest hnkrest hreadyrest hsync
      rcases hrec with ⟨B1, B2, B3, B4, B5, B6, nt, C1, C2, C3, C4, C5⟩
      refine ⟨B1, B2, B3, B4, B5, B6,
        ⟨(isWebflowMapInfoEqual h mp wm.toWebsiteMapInfo, mp, wm) :: nt,
          ?_, ?_, ?_, ?_, ?_⟩⟩
      · rw [C1, List.append_assoc]
        rfl
      · rw [List.map_cons, List.nodup_cons]
        refine ⟨?_, C2⟩
        intro hmem
        rcases List.mem_map.mp hmem with ⟨trip, htrip, hkey⟩
        apply hknotin
        rw [← hkm]
        exact (show trip.2.1.rowyId = mp.rowyId from hkey) ▸ C3 trip htrip
      · intro trip htrip
        rcases List.mem_cons.mp htrip with heqt | htrip2
        · rw [heqt, List.map_cons]
          exact List.mem_cons.mpr (Or.inl hkm)
        · rw [List.map_cons]
          exact List.mem_cons_of_mem _ (C3 trip htrip2)
      · intro trip htrip
        rcases List.mem_cons.mp htrip with heqt | htrip2
        · rw [heqt]
          exact ⟨rfl, hready (k, mp) (List.mem_cons_self _ _), it1, hit1, hent1⟩
        · exact C4 trip htrip2
      · intro p hp
        rcases List.mem_cons.mp hp with heqp | hp2
        · left
          refine ⟨(isWebflowMapInfoEqual h mp wm.toWebsiteMapInfo, mp, wm),
            List.mem_cons_self _ _, ?_⟩
          rw [heqp]
        · rcases C5 p hp2 with ⟨trip, htrip, he⟩ | ⟨hnone, hres⟩
          · exact Or.inl ⟨trip, List.mem_cons_of_mem _ htrip, he⟩
          · refine Or.inr ⟨?_, hres⟩
            intro trip htrip hkeq
            rcases List.mem_cons.mp htrip with heqt | htrip2
            · apply hknotin
              rw [← hkm]
              have hkeq2 : mp.rowyId = p.1 := by
                rw [show mp.rowyId = trip.2.1.rowyId from by rw [heqt], hkeq,
                  hkrest p hp2]
              rw [hkeq2]
              exact List.mem_map_of_mem Prod.fst hp2
            · exact hnone trip htrip2 hkeq
/-- Characterization of a non-dry removals pass over the map collection:
the server keeps the items not deleted by any visited entry whose key is
outside the source, and the in-memory map is filtered the same way by
key. -/
theorem syncMapsRemovalsGo_run (src : List (String × WebsiteMapInfo)) :
    ∀ (visit dest : List (String × WebflowMapInfo)) (s : Server),
    (syncMapsRemovalsGo false src visit dest s).2.1 =
      { s with maps := s.maps.filter (fun it =>
          visit.all (fun e => jsHas src e.2.rowyId || it.id != e.2.item.id)) } ∧
    (syncMapsRemovalsGo false src visit dest s).1 =
      dest.filter (fun en =>
        visit.all (fun e => jsHas src e.2.rowyId || en.1 != e.2.rowyId)) := by
  intro visit
  induction visit with
  | nil =>
    intro dest s
    constructor
    · show s = _
      simp only [List.all_nil]
      rw [List.filter_true]
    · show dest = _
      simp only [List.all_nil]
      rw [List.filter_true]
  | cons e restV ih =>
    rcases e with ⟨k2, m⟩
    intro dest s
    unfold syncMapsRemovalsGo
    by_cases hh : jsHas src m.rowyId = true
    · rw [hh]
      simp only [Bool.not_true]
      rw [if_neg Bool.false_ne_true]
      have hfe1 : s.maps.filter (fun it =>
          ((k2, m) :: restV).all (fun e => jsHas src e.2.rowyId || it.id != e.2.item.id)) =
          s.maps.filter (fun it =>
          restV.all (fun e => jsHas src e.2.rowyId || it.id != e.2.item.id)) := by
        apply List.filter_congr
        intro it _
        simp [List.all_cons, hh]
      have hfe2 : dest.filter (fun en =>
          ((k2, m) :: restV).all (fun e => jsHas src e.2.rowyId || en.1 != e.2.rowyId)) =
          dest.filter (fun en =>
          restV.all (fun e => jsHas src e.2.rowyId || en.1 != e.2.rowyId)) := by
        apply List.filter_congr
        intro en _
        simp [List.all_cons, hh]
      rw [hfe1, hfe2]
      exact ih dest s
    · rw [Bool.not_eq_true] at hh
      rw [hh]
      simp only [Bool.not_false, if_true]
      rw [if_neg Bool.false_ne_true]
      simp only []
      rcases ih (jsDelete dest m.rowyId) (s.deleteMapItem m.item.id) with ⟨ih1, ih2⟩
      constructor
      · show (syncMapsRemovalsGo false src restV _ _).2.1 = _
        rw [ih1]
        show ({ s.deleteMapItem m.item.id with maps := _ } : Server) = _
        rw [show s.deleteMapItem m.item.id =
          { s with maps := s.maps.filter (fun it => it.id != m.item.id) } from rfl]
        show ({ s with maps := _ } : Server) = _
        rw [List.filter_filter]
        congr 1
        apply List.filter_congr
        intro it _
        simp only [List.all_cons, hh, Bool.false_or]
        by_cases hid : (it.id != m.item.id) = true
        · rw [hid]
          simp
        · rw [Bool.not_eq_true] at hid
          rw [hid]
          simp
      · show (syncMapsRemovalsGo false src restV _ _).1 = _
        rw [ih2]
        rw [show jsDelete dest m.rowyId =
          dest.filter (fun p => p.1 != m.rowyId) from rfl]
        rw [List.filter_filter]
        apply List.filter_congr
        intro en _
        simp only [List.all_cons, hh, Bool.false_or]
        by_cases hke : (en.1 != m.rowyId) = true
        · rw [hke]
          simp
        · rw [Bool.not_eq_true] at hke
          rw [hke]
          simp

/-- Characterization of a non-dry run of the map updates pass: every
collected map ends up stored equal to its canonical record, keys are
preserved, untouched keys keep their entries, and no error occurs. -/
theorem syncMapsUpdatesGo_run (h : String → String)
    (ups : List (Bool × WebsiteMapInfo × WebflowMapInfo)) :
    ∀ (s : Server) (dest : List (String × WebflowMapInfo)) (res : MapPhaseRes),
    dest = (s.maps).map mapEntry →
    (s.maps.map (fun it => reqRStr it.fieldData.rowyid)).Nodup →
    (s.maps.map (fun it => it.id)).Nodup →
    (ups.map (fun trip => trip.2.1.rowyId)).Nodup →
    (∀ trip ∈ ups, ∃ it ∈ s.maps, mapEntry it = (trip.2.1.rowyId, trip.2.2)) →
    (∀ trip ∈ ups, trip.1 = isWebflowMapInfoEqual h trip.2.1 trip.2.2.toWebsiteMapInfo) →
    (∀ trip ∈ ups, infoReady trip.2.1) →
    (∀ trip ∈ ups, fdAssetsWf trip.2.2.item.fieldData) →
    syncMapsUpdatesGo h false ups dest s = res →
    res.dest = (res.srv.maps).map mapEntry ∧
    res.srv.tags = s.tags ∧
    res.srv.terrains = s.terrains ∧
    res.err = none ∧
    ((res.srv.maps).map (fun it => reqRStr it.fieldData.rowyid) =
      (s.maps).map (fun it => reqRStr it.fieldData.rowyid)) ∧
    ((res.srv.maps).map (fun it => it.id) = (s.maps).map (fun it => it.id)) ∧
    (∀ trip ∈ ups, ∃ it ∈ res.srv.maps,
      reqRStr it.fieldData.rowyid = trip.2.1.rowyId ∧
      isWebflowMapInfoEqual h trip.2.1 (readWebsiteInfo it.fieldData) = true) ∧
    (∀ kk, (∀ trip ∈ ups, trip.2.1.rowyId ≠ kk) →
      jsGet res.dest kk = jsGet dest kk) := by
  induction ups with
  | nil =>
    intro s dest res hdest _ _ _ _ _ _ _ hsync
    rw [← hsync]
    exact ⟨hdest, rfl, rfl, rfl, rfl, rfl,
      fun trip htrip => absurd htrip (List.not_mem_nil trip), fun kk _ => rfl⟩
  | cons trip0 rest ih =>
    rcases trip0 with ⟨same, m, wm⟩
    intro s dest res hdest hrk hik hnt hment heqd hready hwf hsync
    rw [List.map_cons, List.nodup_cons] at hnt
    have hknotin := hnt.1
    have hntrest := hnt.2
    have hmentrest : ∀ trip ∈ rest, ∃ it ∈ s.maps,
        mapEntry it = (trip.2.1.rowyId, trip.2.2) :=
      fun trip htrip => hment trip (List.mem_cons_of_mem _ htrip)
    have heqdrest : ∀ trip ∈ rest,
        trip.1 = isWebflowMapInfoEqual h trip.2.1 trip.2.2.toWebsiteMapInfo :=
      fun trip htrip => heqd trip (List.mem_cons_of_mem _ htrip)
    have hreadyrest : ∀ trip ∈ rest, infoReady trip.2.1 :=
      fun trip htrip => hready trip (List.mem_cons_of_mem _ htrip)
    have hwfrest : ∀ trip ∈ rest, fdAssetsWf trip.2.2.item.fieldData :=
      fun trip htrip => hwf trip (List.mem_cons_of_mem _ htrip)
    have hrestne : ∀ trip ∈ rest, trip.2.1.rowyId ≠ m.rowyId := by
      intro trip htrip he
      exact hknotin (he ▸ List.mem_map_of_mem _ htrip)
    rcases hment (same, m, wm) (List.mem_cons_self _ _) with ⟨it0, hit0, hent0⟩
    have hkey0 : reqRStr it0.fieldData.rowyid = m.rowyId := congrArg Prod.fst hent0
    have hwm : wm = WebflowMapInfo.ofItem it0 := (congrArg Prod.snd hent0).symm
    have hentry : jsGet dest m.rowyId = some wm := by
      rw [hdest]
      apply jsGet_of_mem_nodup
      · rw [List.map_map]
        exact hrk
      · rw [← hent0]
        exact List.mem_map_of_mem mapEntry hit0
    unfold syncMapsUpdatesGo at hsync
    by_cases hsame : same = true
    · rw [if_pos hsame] at hsync
      have hrec := ih s dest res hdest hrk hik hntrest hmentrest heqdrest
        hreadyrest hwfrest hsync
      rcases hrec with ⟨B1, B2, B3, B4, B5, B6, B7, B8⟩
      refine ⟨B1, B2, B3, B4, B5, B6, ?_, ?_⟩
      · intro trip htrip
        rcases List.mem_cons.mp htrip with heqt | htrip2
        · have hstab : jsGet res.dest m.rowyId = some wm := by
            rw [B8 m.rowyId hrestne, hentry]
          rw [B1] at hstab
          rcases mem_of_entry_get hstab with ⟨it2, hit2, hent2⟩
          refine ⟨it2, hit2, ?_, ?_⟩
          · rw [heqt]
            exact congrArg Prod.fst hent2
          · rw [heqt]
            have hwm2 : wm = WebflowMapInfo.ofItem it2 := (congrArg Prod.snd hent2).symm
            have heqv : isWebflowMapInfoEqual h m wm.toWebsiteMapInfo = true := by
              rw [← heqd (same, m, wm) (List.mem_cons_self _ _)]
              exact hsame
            rw [show readWebsiteInfo it2.fieldData =
              wm.toWebsiteMapInfo from by rw [hwm2]; rfl]
            exact heqv
        · exact B7 trip htrip2
      · intro kk hkk
        exact B8 kk (fun trip htrip => hkk trip (List.mem_cons_of_mem _ htrip))
    · rw [if_neg hsame, if_neg Bool.false_ne_true] at hsync
      simp only [] at hsync
      have hfind : s.maps.find? (fun x => x.id == it0.id) = some it0 :=
        find_id_of_mem_nodup hit0 hik
      rw [hwm] at hsync
      rw [show (WebflowMapInfo.ofItem it0).item.id = it0.id from rfl] at hsync
      rw [updateMapItem_found s it0
        (generateFields h m (some (WebflowMapInfo.ofItem it0))) hfind] at hsync
      simp only [] at hsync
      have hfdwf0 : fdAssetsWf it0.fieldData := by
        have := hwf (same, m, wm) (List.mem_cons_self _ _)
        rw [hwm] at this
        exact this
      have hni1 : (mapEntry (⟨it0.id, it0.lastPublished, s.clock,
          (convertWriteFields (some it0.fieldData)
            (generateFields h m (some (WebflowMapInfo.ofItem it0)))
            s.usedStrings).1⟩ : Item WebflowMapFieldsRead)).1 = (mapEntry it0).1 := by
        show m.rowyId = reqRStr it0.fieldData.rowyid
        exact hkey0.symm
      have hrepl : jsSet dest m.rowyId
          (WebflowMapInfo.ofItem (⟨it0.id, it0.lastPublished, s.clock,
            (convertWriteFields (some it0.fieldData)
              (generateFields h m (some (WebflowMapInfo.ofItem it0)))
              s.usedStrings).1⟩ : Item WebflowMapFieldsRead)) =
          (s.maps.map (fun x => if x.id == it0.id then
            (⟨it0.id, it0.lastPublished, s.clock,
              (convertWriteFields (some it0.fieldData)
                (generateFields h m (some (WebflowMapInfo.ofItem it0)))
                s.usedStrings).1⟩ : Item WebflowMapFieldsRead)
            else x)).map mapEntry := by
        rw [hdest]
        have base := jsSet_replace_map_entry mapEntry s.maps it0
          (⟨it0.id, it0.lastPublished, s.clock,
            (convertWriteFields (some it0.fieldData)
              (generateFields h m (some (WebflowMapInfo.ofItem it0)))
              s.usedStrings).1⟩ : Item WebflowMapFieldsRead) hit0
          hrk hik hni1
        rw [show ((mapEntry it0).1 : String) = m.rowyId from hkey0] at base
        exact base
      rw [hrepl] at hsync
      have hkeypres := map_replace_proj (fun it => reqRStr it.fieldData.rowyid)
        s.maps it0
        (⟨it0.id, it0.lastPublished, s.clock,
          (convertWriteFields (some it0.fieldData)
            (generateFields h m (some (WebflowMapInfo.ofItem it0)))
            s.usedStrings).1⟩ : Item WebflowMapFieldsRead) hik hit0
        (by show reqRStr _ = reqRStr it0.fieldData.rowyid; exact hkey0.symm)
      have hidpres := map_replace_proj (fun it => it.id)
        s.maps it0
        (⟨it0.id, it0.lastPublished, s.clock,
          (convertWriteFields (some it0.fieldData)
            (generateFields h m (some (WebflowMapInfo.ofItem it0)))
            s.usedStrings).1⟩ : Item WebflowMapFieldsRead) hik hit0 rfl
      have hmementS2 : ∀ trip ∈ rest, ∃ it ∈ (s.maps.map (fun x =>
          if x.id == it0.id then
            (⟨it0.id, it0.lastPublished, s.clock,
              (convertWriteFields (some it0.fieldData)
                (generateFields h m (some (WebflowMapInfo.ofItem it0)))
                s.usedStrings).1⟩ : Item WebflowMapFieldsRead)
            else x)), mapEntry it = (trip.2.1.rowyId, trip.2.2) := by
        intro trip htrip
        rcases hmentrest trip htrip with ⟨itr, hitr, hentr⟩
        have hkr : reqRStr itr.fieldData.rowyid = trip.2.1.rowyId :=
          congrArg Prod.fst hentr
        have hitrne : itr ≠ it0 := by
          intro he
          apply hrestne trip htrip
          rw [← hkr, he, hkey0]
        have hidne : (itr.id == it0.id) = false := by
          rw [beq_eq_false_iff_ne]
          intro he
          exact hitrne (List.inj_on_of_nodup_map hik hitr hit0 he)
        refine ⟨itr, ?_, hentr⟩
        apply List.mem_map.mpr
        refine ⟨itr, hitr, ?_⟩
        rw [if_neg (by rw [hidne]; exact Bool.false_ne_true)]
      have hrkS2 : ((s.maps.map (fun x => if x.id == it0.id then
          (⟨it0.id, it0.lastPublished, s.clock,
            (convertWriteFields (some it0.fieldData)
              (generateFields h m (some (WebflowMapInfo.ofItem it0)))
              s.usedStrings).1⟩ : Item WebflowMapFieldsRead)
          else x)).map (fun it => reqRStr it.fieldData.rowyid)).Nodup := by
        rw [hkeypres]
        exact hrk
      have hikS2 : ((s.maps.map (fun x => if x.id == it0.id then
          (⟨it0.id, it0.lastPublished, s.clock,
            (convertWriteFields (some it0.fieldData)
              (generateFields h m (some (WebflowMapInfo.ofItem it0)))
              s.usedStrings).1⟩ : Item WebflowMapFieldsRead)
          else x)).map (fun it => it.id)).Nodup := by
        rw [hidpres]
        exact hik
      have hrec := ih (Server.mk (s.maps.map (fun x => if x.id == it0.id then
          (⟨it0.id, it0.lastPublished, s.clock,
            (convertWriteFields (some it0.fieldData)
              (generateFields h m (some (WebflowMapInfo.ofItem it0)))
              s.usedStrings).1⟩ : Item WebflowMapFieldsRead)
          else x)) s.tags s.terrains (s.clock + 1))
        ((s.maps.map (fun x => if x.id == it0.id then
          (⟨it0.id, it0.lastPublished, s.clock,
            (convertWriteFields (some it0.fieldData)
              (generateFields h m (some (WebflowMapInfo.ofItem it0)))
              s.usedStrings).1⟩ : Item WebflowMapFieldsRead)
          else x)).map mapEntry) _
        rfl hrkS2 hikS2
        hntrest hmementS2 heqdrest hreadyrest hwfrest rfl
      rcases hrec with ⟨B1, B2, B3, B4, B5, B6, B7, B8⟩
      rw [← hsync]
      refine ⟨B1, B2, B3, B4, by rw [B5, hkeypres], by rw [B6, hidpres], ?_, ?_⟩
      · intro trip htrip
        rcases List.mem_cons.mp htrip with heqt | htrip2
        · have hstab2 : jsGet ((s.maps.map (fun x => if x.id == it0.id then
              (⟨it0.id, it0.lastPublished, s.clock,
                (convertWriteFields (some it0.fieldData)
                  (generateFields h m (some (WebflowMapInfo.ofItem it0)))
                  s.usedStrings).1⟩ : Item WebflowMapFieldsRead)
              else x)).map mapEntry) m.rowyId =
              some (WebflowMapInfo.ofItem (⟨it0.id, it0.lastPublished, s.clock,
                (convertWriteFields (some it0.fieldData)
                  (generateFields h m (some (WebflowMapInfo.ofItem it0)))
                  s.usedStrings).1⟩ : Item WebflowMapFieldsRead)) := by
            rw [← hrepl, jsGet_jsSet_same]
          have hstab := B8 m.rowyId hrestne
          rw [hstab2] at hstab
          rw [B1] at hstab
          rcases mem_of_entry_get hstab with ⟨it2, hit2, hent2⟩
          have hit2eq : it2 = ⟨it0.id, it0.lastPublished, s.clock,
              (convertWriteFields (some it0.fieldData)
                (generateFields h m (some (WebflowMapInfo.ofItem it0)))
                s.usedStrings).1⟩ :=
            congrArg (fun z => z.item) (congrArg Prod.snd hent2)
          refine ⟨it2, hit2, ?_, ?_⟩
          · rw [heqt]
            exact congrArg Prod.fst hent2
          · rw [heqt, hit2eq]
            exact mapWriteReadRoundtrip h m (some (WebflowMapInfo.ofItem it0))
              s.usedStrings (hready (same, m, wm) (List.mem_cons_self _ _))
              (by
                intro b hb
                injection hb with hb2
                rw [← hb2]
                exact hfdwf0)
        · exact B7 trip htrip2
      · intro kk hkk
        have hkne : m.rowyId ≠ kk := hkk (same, m, wm) (List.mem_cons_self _ _)
        rw [B8 kk (fun trip htrip => hkk trip (List.mem_cons_of_mem _ htrip)),
          ← hrepl, jsGet_jsSet_ne _ _ _ _ (fun he => hkne he.symm)]

/-! ## C1: shape of the build output -/

theorem jsSet_mem {α : Type} {m : List (String × α)} {k : String} {v : α}
    {p : String × α} (h : p ∈ jsSet m k v) : p = (k, v) ∨ p ∈ m := by
  unfold jsSet at h
  by_cases hh : jsHas m k = true
  · rw [if_pos hh] at h
    rcases List.mem_map.mp h with ⟨q, hq, he⟩
    by_cases hqk : (q.1 == k) = true
    · rw [if_pos hqk] at he
      exact Or.inl he.symm
    · rw [if_neg hqk] at he
      exact Or.inr (he ▸ hq)
  · rw [if_neg hh] at h
    rcases List.mem_append.mp h with h2 | h2
    · exact Or.inr h2
    · exact Or.inl (List.mem_singleton.mp h2)

theorem jsSet_keys_nodup {α : Type} (m : List (String × α)) (k : String) (v : α)
    (h : (m.map Prod.fst).Nodup) : ((jsSet m k v).map Prod.fst).Nodup := by
  unfold jsSet
  by_cases hh : jsHas m k = true
  · rw [if_pos hh]
    have hkeys : (m.map (fun p => if p.1 == k then (k, v) else p)).map Prod.fst =
        m.map Prod.fst := by
      rw [List.map_map]
      apply List.map_congr_left
      intro q _
      simp only [Function.comp]
      by_cases hqk : (q.1 == k) = true
      · rw [if_pos hqk]
        exact (beq_iff_eq.mp hqk).symm
      · rw [if_neg hqk]
    rw [hkeys]
    exact h
  · rw [if_neg hh, List.map_append]
    refine List.Nodup.append h (List.nodup_singleton _) ?_
    intro x hx1 hx2
    simp only [List.map_cons, List.map_nil, List.mem_singleton] at hx2
    rcases List.mem_map.mp hx1 with ⟨q, hq, he⟩
    rw [Bool.not_eq_true] at hh
    exact (jsHas_false_iff.mp hh q hq) (by rw [he, hx2])

theorem accumulateTags_wf (tags : List String) :
    ∀ acc : List (String × WebsiteMapTag),
    (∀ p ∈ acc, p.1 = p.2.slug) → ((acc.map Prod.fst).Nodup) →
    (∀ p ∈ accumulateTags acc tags, p.1 = p.2.slug) ∧
    ((accumulateTags acc tags).map Prod.fst).Nodup := by
  induction tags with
  | nil =>
    intro acc h1 h2
    exact ⟨h1, h2⟩
  | cons t rest ih =>
    intro acc h1 h2
    have hstep : accumulateTags acc (t :: rest) =
        accumulateTags (jsSet acc (slugFromName t)
          ⟨jsToUpper t, slugFromName t⟩) rest := rfl
    rw [hstep]
    refine ih _ ?_ ?_
    · intro p hp
      rcases jsSet_mem hp with he | hm
      · rw [he]
      · exact h1 p hm
    · exact jsSet_keys_nodup acc _ _ h2

theorem strHasPrefix_append_left (p s : String) : strHasPrefix p (p ++ s) := ⟨s, rfl⟩

theorem strHasPrefix_append_right {p s : String} (t : String)
    (h : strHasPrefix p s) : strHasPrefix p (s ++ t) := by
  rcases h with ⟨u, rfl⟩
  exact ⟨u ++ t, String.append_assoc p u t⟩

/-- Properties of one successful step of the canonical record builder. -/
theorem buildOneStep_props (enc : String → String)
    (derive : MapInfo → MapMeta → DerivedInfo)
    (cdnInfo : List (String × MapCDNInfo)) (mapsMetadata : List (String × MapMeta))
    (rowyId : String) (mp : MapInfo) (accT : List (String × WebsiteMapTag))
    (info : WebsiteMapInfo) (accT1 : List (String × WebsiteMapTag))
    (h : buildOneStep enc derive cdnInfo mapsMetadata rowyId mp accT =
      .ok (info, accT1))
    (hT1 : ∀ p ∈ accT, p.1 = p.2.slug) (hT2 : (accT.map Prod.fst).Nodup) :
    info.rowyId = rowyId ∧ infoReady info ∧
    (∀ p ∈ accT1, p.1 = p.2.slug) ∧ (accT1.map Prod.fst).Nodup := by
  unfold buildOneStep at h
  cases hcdn : jsGet cdnInfo mp.springName with
  | none =>
    rw [hcdn] at h
    cases h
  | some mi =>
    rw [hcdn] at h
    simp only [] at h
    cases hmeta : jsGet mapsMetadata rowyId with
    | none =>
      rw [hmeta] at h
      cases h
    | some meta =>
      rw [hmeta] at h
      simp only [] at h
      by_cases hreq : (requiredExtractedFiles.all
          (fun f => meta.extractedFiles.contains f)) = true
      · rw [hreq] at h
        simp only [Bool.not_true] at h
        rw [if_neg Bool.false_ne_true] at h
        cases hph : mp.photo with
        | nil =>
          rw [hph] at h
          cases h
        | cons photo0 prest =>
          rw [hph] at h
          simp only [] at h
          cases hfk : firstInvalidKey
              (buildOneMapInfo enc rowyId mp mi meta (derive mp meta) photo0) with
          | some k2 =>
            rw [hfk] at h
            cases h
          | none =>
            rw [hfk] at h
            injection h with h2
            injection h2 with hinfo hacc
            have hvalid := (firstInvalidKey_eq_none_iff _).mp hfk
            rw [hasInvalidField] at hvalid
            push_neg at hvalid
            obtain ⟨v1, v2, v3, v4, v5, v6, v7, v8, v9, v10, v11, v12, v13,
              v14, v15, v16, v17, v18⟩ := hvalid
            refine ⟨?_, ?_, ?_, ?_⟩
            · rw [← hinfo]
              rfl
            · rw [← hinfo]
              refine ⟨?_, ?_, ?_, ?_, ?_, ?_, ?_, ?_, ?_, ?_, ?_, ?_, ?_, ?_⟩
              · exact Option.ne_none_iff_isSome.mp v5
              · exact Option.ne_none_iff_isSome.mp v7
              · exact Option.ne_none_iff_isSome.mp v8
              · show (match (derive mp meta).width, (derive mp meta).height with
                  | some w, some ht => some (w * ht)
                  | _, _ => none).isSome = true
                have hw : (derive mp meta).width ≠ none := v7
                have hh2 : (derive mp meta).height ≠ none := v8
                rcases Option.ne_none_iff_exists.mp hw with ⟨w, hw2⟩
                rcases Option.ne_none_iff_exists.mp hh2 with ⟨ht, hh3⟩
                rw [← hw2, ← hh3]
                rfl
              · exact Option.ne_none_iff_isSome.mp v14
              · exact Option.ne_none_iff_isSome.mp v15
              · exact strHasPrefix_append_right _ (strHasPrefix_append_right _
                  (strHasPrefix_append_right _ (strHasPrefix_append_left _ _)))
              · exact strHasPrefix_append_right _ (strHasPrefix_append_right _
                  (strHasPrefix_append_right _ (strHasPrefix_append_left _ _)))
              · exact strHasPrefix_append_right _ (strHasPrefix_append_right _
                  (strHasPrefix_append_right _ (strHasPrefix_append_left _ _)))
              · exact strHasPrefix_append_right _ (strHasPrefix_append_right _
                  (strHasPrefix_append_right _ (strHasPrefix_append_left _ _)))
              · exact strHasPrefix_append_right _ (strHasPrefix_append_right _
                  (strHasPrefix_append_right _ (strHasPrefix_append_left _ _)))
              · intro u hu
                show strHasPrefix imagorUrlBase u
                have hbg : (buildOneMapInfo enc rowyId mp mi meta (derive mp meta)
                    photo0).bgImageUrl = match mp.backgroundImage.head? with
                  | some f => some (imagorUrlBase ++
                      "fit-in/2250x/filters:format(webp):quality(85)/" ++
                      rowyBucket ++ "/" ++ enc f.ref)
                  | none => none := rfl
                rw [hbg] at hu
                cases hhd : mp.backgroundImage.head? with
                | none =>
                  rw [hhd] at hu
                  cases hu
                | some f =>
                  rw [hhd] at hu
                  injection hu with hu2
                  rw [← hu2]
                  exact strHasPrefix_append_right _ (strHasPrefix_append_right _
                    (strHasPrefix_append_right _ (strHasPrefix_append_left _ _)))
              · intro u hu
                show strHasPrefix imagorUrlBase u
                have hps : (buildOneMapInfo enc rowyId mp mi meta (derive mp meta)
                    photo0).perspectiveShotUrl = match mp.perspectiveShot.head? with
                  | some f => some (imagorUrlBase ++
                      "fit-in/2250x/filters:format(webp):quality(85)/" ++
                      rowyBucket ++ "/" ++ enc f.ref)
                  | none => none := rfl
                rw [hps] at hu
                cases hhd : mp.perspectiveShot.head? with
                | none =>
                  rw [hhd] at hu
                  cases hu
                | some f =>
                  rw [hhd] at hu
                  injection hu with hu2
                  rw [← hu2]
                  exact strHasPrefix_append_right _ (strHasPrefix_append_right _
                    (strHasPrefix_append_right _ (strHasPrefix_append_left _ _)))
              · intro u hu
                rcases List.mem_map.mp hu with ⟨i, _, he⟩
                rw [← he]
                exact strHasPrefix_append_right _ (strHasPrefix_append_right _
                  (strHasPrefix_append_right _ (strHasPrefix_append_left _ _)))
            · rw [← hacc]
              exact (accumulateTags_wf _ accT hT1 hT2).1
            · rw [← hacc]
              exact (accumulateTags_wf _ accT hT1 hT2).2
      · rw [Bool.not_eq_true] at hreq
        rw [hreq] at h
        simp only [Bool.not_false, if_true] at h
        cases h

theorem buildWebflowInfoGo_run (enc : String → String)
    (derive : MapInfo → MapMeta → DerivedInfo)
    (cdnInfo : List (String × MapCDNInfo)) (mapsMetadata : List (String × MapMeta))
    (maps : List (String × MapInfo)) :
    ∀ (accM : List (String × WebsiteMapInfo)) (accT : List (String × WebsiteMapTag))
      (resM : List (String × WebsiteMapInfo)) (resT : List (String × WebsiteMapTag)),
    (∀ p ∈ accM, p.2.rowyId = p.1 ∧ infoReady p.2) →
    ((accM.map Prod.fst).Nodup) →
    (∀ p ∈ accT, p.1 = p.2.slug) →
    ((accT.map Prod.fst).Nodup) →
    buildWebflowInfoGo enc derive cdnInfo mapsMetadata maps accM accT =
      .ok (resM, resT) →
    (∀ p ∈ resM, p.2.rowyId = p.1 ∧ infoReady p.2) ∧
    ((resM.map Prod.fst).Nodup) ∧
    (∀ p ∈ resT, p.1 = p.2.slug) ∧
    ((resT.map Prod.fst).Nodup) := by
  induction maps with
  | nil =>
    intro accM accT resM resT h1 h2 h3 h4 h
    injection h with h5
    injection h5 with hM hT
    rw [← hM, ← hT]
    exact ⟨h1, h2, h3, h4⟩
  | cons q rest ih =>
    rcases q with ⟨rowyId, mp⟩
    intro accM accT resM resT h1 h2 h3 h4 h
    unfold buildWebflowInfoGo at h
    cases hstep : buildOneStep enc derive cdnInfo mapsMetadata rowyId mp accT with
    | error e =>
      rw [hstep] at h
      cases h
    | ok pr =>
      rw [hstep] at h
      simp only [] at h
      rcases buildOneStep_props enc derive cdnInfo mapsMetadata rowyId mp accT
        pr.1 pr.2 (by rw [hstep]) h3 h4 with ⟨hb1, hb2, hb3, hb4⟩
      refine ih (jsSet accM rowyId pr.1) pr.2 resM resT ?_ ?_ hb3 hb4 h
      · intro p hp
        rcases jsSet_mem hp with he | hm
        · rw [he]
          exact ⟨hb1, hb2⟩
        · exact h1 p hm
      · exact jsSet_keys_nodup accM _ _ h2

theorem getRef_setRef_other (i : WebsiteMapInfo) (f1 f2 : RefField)
    (l : List String) (hne : f1 ≠ f2) :
    (i.setRefField f1 l).getRefField f2 = i.getRefField f2 := by
  cases f1 <;> cases f2 <;> first | rfl | exact absurd rfl hne

theorem getRowyMapTerrains_keyed :
    ∀ p ∈ getRowyMapTerrains, p.2.slug = p.1 ∧ p.2.name = p.1 := by
  intro p hp
  rcases List.mem_map.mp hp with ⟨t, _, he⟩
  rw [← he]
  exact ⟨rfl, rfl⟩

theorem getRowyMapTerrains_keys_nodup : ((getRowyMapTerrains.map Prod.fst)).Nodup := by
  decide

/-! ## C1: second-run no-op lemmas -/

theorem syncTagAdditionsGo_noop (equalsFn : WebsiteMapTag → WebflowMapTag → Bool)
    (c : WfColl) (src : List (String × WebsiteMapTag)) :
    ∀ (dest : List (String × WebflowMapTag)) (s : Server),
    (∀ p ∈ src, ∃ wt, jsGet dest p.2.slug = some wt ∧ equalsFn p.2 wt = true) →
    syncTagAdditionsGo equalsFn c false src dest s = ⟨dest, s, [], none⟩ := by
  induction src with
  | nil =>
    intro dest s _
    rfl
  | cons q rest ih =>
    rcases q with ⟨k, t⟩
    intro dest s hpres
    rcases hpres (k, t) (List.mem_cons_self _ _) with ⟨wt, hg, he⟩
    unfold syncTagAdditionsGo
    rw [hg]
    simp only []
    rw [if_pos he]
    exact ih dest s (fun p hp => hpres p (List.mem_cons_of_mem _ hp))

theorem syncTagRemovalsGo_noop (c : WfColl) (src : List (String × WebsiteMapTag)) :
    ∀ (visit dest : List (String × WebflowMapTag)) (s : Server),
    (∀ e ∈ visit, jsHas src e.2.slug = true) →
    syncTagRemovalsGo c false src visit dest s = ⟨dest, s, [], none⟩ := by
  intro visit
  induction visit with
  | nil =>
    intro dest s _
    rfl
  | cons e restV ih =>
    rcases e with ⟨k2, tg⟩
    intro dest s hall
    unfold syncTagRemovalsGo
    rw [hall (k2, tg) (List.mem_cons_self _ _)]
    simp only [Bool.not_true]
    rw [if_neg Bool.false_ne_true]
    exact ih dest s (fun e he => hall e (List.mem_cons_of_mem _ he))

theorem syncMapsAdditionsGo_noop (h : String → String)
    (src : List (String × WebsiteMapInfo)) :
    ∀ (dest : List (String × WebflowMapInfo)) (s : Server)
      (ups : List (Bool × WebsiteMapInfo × WebflowMapInfo)),
    (∀ p ∈ src, ∃ wm, jsGet dest p.2.rowyId = some wm ∧
      isWebflowMapInfoEqual h p.2 wm.toWebsiteMapInfo = true) →
    ∃ L, syncMapsAdditionsGo h false src dest s ups = (dest, s, [], ups ++ L) ∧
      ∀ t ∈ L, t.1 = true := by
  induction src with
  | nil =>
    intro dest s ups _
    exact ⟨[], by rw [List.append_nil]; rfl, fun t ht => absurd ht (List.not_mem_nil t)⟩
  | cons q rest ih =>
    rcases q with ⟨k, mp⟩
    intro dest s ups hpres
    rcases hpres (k, mp) (List.mem_cons_self _ _) with ⟨wm, hg, he⟩
    unfold syncMapsAdditionsGo
    rw [hg]
    simp only []
    rcases ih dest s (ups ++ [(isWebflowMapInfoEqual h mp wm.toWebsiteMapInfo, mp, wm)])
      (fun p hp => hpres p (List.mem_cons_of_mem _ hp)) with ⟨L, heq2, hall⟩
    refine ⟨(isWebflowMapInfoEqual h mp wm.toWebsiteMapInfo, mp, wm) :: L, ?_, ?_⟩
    · rw [heq2, List.append_assoc]
      rfl
    · intro t ht
      rcases List.mem_cons.mp ht with heqt | ht2
      · rw [heqt]
        exact he
      · exact hall t ht2

theorem syncMapsRemovalsGo_noop (src : List (String × WebsiteMapInfo)) :
    ∀ (visit dest : List (String × WebflowMapInfo)) (s : Server),
    (∀ e ∈ visit, jsHas src e.2.rowyId = true) →
    syncMapsRemovalsGo false src visit dest s = (dest, s, []) := by
  intro visit
  induction visit with
  | nil =>
    intro dest s _
    rfl
  | cons e restV ih =>
    rcases e with ⟨k2, m⟩
    intro dest s hall
    unfold syncMapsRemovalsGo
    rw [hall (k2, m) (List.mem_cons_self _ _)]
    simp only [Bool.not_true]
    rw [if_neg Bool.false_ne_true]
    exact ih dest s (fun e he => hall e (List.mem_cons_of_mem _ he))

theorem syncMapsUpdatesGo_noop (h : String → String)
    (ups : List (Bool × WebsiteMapInfo × WebflowMapInfo)) :
    ∀ (dest : List (String × WebflowMapInfo)) (s : Server),
    (∀ t ∈ ups, t.1 = true) →
    syncMapsUpdatesGo h false ups dest s = ⟨dest, s, [], none⟩ := by
  induction ups with
  | nil =>
    intro dest s _
    rfl
  | cons t rest ih =>
    rcases t with ⟨same, m, wm⟩
    intro dest s hall
    unfold syncMapsUpdatesGo
    rw [if_pos (hall (same, m, wm) (List.mem_cons_self _ _))]
    exact ih dest s (fun t ht => hall t (List.mem_cons_of_mem _ ht))

theorem publish_calls_cudFree (c : WfColl) (l : List (List String)) :
    (l.map (fun b => WfCall.publishItems c b)).filter WfCall.isCUD = [] := by
  induction l with
  | nil => rfl
  | cons b rest ih =>
    rw [List.map_cons, List.filter_cons]
    rw [show WfCall.isCUD (WfCall.publishItems c b) = false from rfl]
    simp only [Bool.false_eq_true, if_false]
    exact ih

theorem publishPhase_trace_cudFree {F : Type} (c : WfColl) (items : List (Item F))
    (s : Server) :
    ((publishPhase c items s false).2).filter WfCall.isCUD = [] := by
  unfold publishPhase
  rw [if_neg Bool.false_ne_true]
  exact publish_calls_cudFree c _

/-! ## C1: collapsing the removal predicates -/

theorem tag_removals_pred_collapse (vocab : List (String × WebsiteMapTag))
    (coll1 collP : List (Item TagFields))
    (hcores : itemCores collP = itemCores coll1)
    (hik : (coll1.map (fun it => it.id)).Nodup)
    (it : Item TagFields) (hit : it ∈ collP) :
    ((coll1.map tagEntry).all (fun e => jsHas vocab e.2.slug || e.2.item.id != it.id))
      = jsHas vocab it.fieldData.slug := by
  rcases cores_mem hcores hit with ⟨it1, hit1, hid1, hfd1⟩
  rw [Bool.eq_iff_iff, List.all_eq_true]
  constructor
  · intro hall
    have hthis := hall (tagEntry it1) (List.mem_map_of_mem tagEntry hit1)
    rw [Bool.or_eq_true] at hthis
    rcases hthis with hj | hne
    · rw [← hfd1]
      exact hj
    · exfalso
      have hne2 : (it1.id != it.id) = true := hne
      rw [hid1] at hne2
      simp [bne] at hne2
  · intro hj e hemem
    rcases List.mem_map.mp hemem with ⟨ite, hite, he⟩
    rw [← he, Bool.or_eq_true]
    by_cases hid : ite.id = it.id
    · left
      have hiteq : ite = it1 :=
        List.inj_on_of_nodup_map hik hite hit1 (by rw [hid, ← hid1])
      show jsHas vocab ite.fieldData.slug = true
      rw [hiteq, hfd1]
      exact hj
    · right
      show (ite.id != it.id) = true
      simp [bne, hid]

theorem map_removals_pred_collapse (src : List (String × WebsiteMapInfo))
    (coll1 : List (Item WebflowMapFieldsRead))
    (hik : (coll1.map (fun it => it.id)).Nodup)
    (it : Item WebflowMapFieldsRead) (hit : it ∈ coll1) :
    ((coll1.map mapEntry).all
        (fun e => jsHas src e.2.rowyId || it.id != e.2.item.id))
      = jsHas src (reqRStr it.fieldData.rowyid) := by
  rw [Bool.eq_iff_iff, List.all_eq_true]
  constructor
  · intro hall
    have hthis := hall (mapEntry it) (List.mem_map_of_mem mapEntry hit)
    rw [Bool.or_eq_true] at hthis
    rcases hthis with hj | hne
    · exact hj
    · exfalso
      have hne2 : (it.id != it.id) = true := hne
      simp [bne] at hne2
  · intro hj e hemem
    rcases List.mem_map.mp hemem with ⟨ite, hite, he⟩
    rw [← he, Bool.or_eq_true]
    by_cases hid : it.id = ite.id
    · left
      have hiteq : it = ite := List.inj_on_of_nodup_map hik hit hite hid
      show jsHas src (reqRStr ite.fieldData.rowyid) = true
      rw [← hiteq]
      exact hj
    · right
      show (it.id != ite.id) = true
      simp [bne, hid]

theorem map_removals_pred_collapse_key (src : List (String × WebsiteMapInfo))
    (coll1 : List (Item WebflowMapFieldsRead))
    (hrk : (coll1.map (fun it => reqRStr it.fieldData.rowyid)).Nodup)
    (it : Item WebflowMapFieldsRead) (hit : it ∈ coll1) :
    ((coll1.map mapEntry).all
        (fun e => jsHas src e.2.rowyId || (mapEntry it).1 != e.2.rowyId))
      = jsHas src (reqRStr it.fieldData.rowyid) := by
  rw [Bool.eq_iff_iff, List.all_eq_true]
  constructor
  · intro hall
    have hthis := hall (mapEntry it) (List.mem_map_of_mem mapEntry hit)
    rw [Bool.or_eq_true] at hthis
    rcases hthis with hj | hne
    · exact hj
    · exfalso
      have hne2 : ((reqRStr it.fieldData.rowyid) != (reqRStr it.fieldData.rowyid))
          = true := hne
      simp [bne] at hne2
  · intro hj e hemem
    rcases List.mem_map.mp hemem with ⟨ite, hite, he⟩
    rw [← he, Bool.or_eq_true]
    by_cases hkk : reqRStr it.fieldData.rowyid = reqRStr ite.fieldData.rowyid
    · left
      have hiteq : it = ite := List.inj_on_of_nodup_map hrk hit hite hkk
      show jsHas src (reqRStr ite.fieldData.rowyid) = true
      rw [← hiteq]
      exact hj
    · right
      show ((reqRStr it.fieldData.rowyid) != (reqRStr ite.fieldData.rowyid)) = true
      simp [bne, hkk]

theorem filter_map_comm {α β : Type} (f : α → β) (p : β → Bool) (l : List α) :
    (l.map f).filter p = (l.filter (fun a => p (f a))).map f := by
  induction l with
  | nil => rfl
  | cons a rest ih =>
    rw [List.map_cons, List.filter_cons, List.filter_cons]
    by_cases hp : p (f a) = true
    · rw [hp]
      simp only [if_true]
      rw [List.map_cons, ih]
    · rw [Bool.not_eq_true] at hp
      rw [hp]
      simp only [Bool.false_eq_true, if_false]
      exact ih

/-- The synchronized-state predicate: the destination state that a
successful non-dry sync run leaves behind, sufficient for the next run to
make no create, update or delete call. -/
def Synced (h enc : String → String) (derive : MapInfo → MapMeta → DerivedInfo)
    (src : SyncSources) (s : Server) : Prop :=
  ∃ mapsInfo tagsInfo resolved1 resolved2,
    buildWebflowInfo enc derive src.maps src.cdnInfo src.mapsMetadata =
      .ok (mapsInfo, tagsInfo) ∧
    (s.tags.map (fun it => it.fieldData.slug)).Nodup ∧
    (∀ p ∈ tagsInfo, ∃ it ∈ s.tags,
      it.fieldData.name = p.2.name ∧ it.fieldData.slug = p.2.slug) ∧
    (∀ it ∈ s.tags, jsHas tagsInfo it.fieldData.slug = true) ∧
    (s.terrains.map (fun it => it.fieldData.slug)).Nodup ∧
    (∀ p ∈ getRowyMapTerrains, ∃ it ∈ s.terrains,
      it.fieldData.name = p.2.name ∧ it.fieldData.slug = p.2.slug) ∧
    (∀ it ∈ s.terrains, jsHas getRowyMapTerrains it.fieldData.slug = true) ∧
    resolveItemRefsInMapInfos mapsInfo .mapTags (s.tags.map tagEntry) false =
      .ok resolved1 ∧
    resolveItemRefsInMapInfos resolved1 .mapTerrains (s.terrains.map tagEntry) false =
      .ok resolved2 ∧
    (s.maps.map (fun it => reqRStr it.fieldData.rowyid)).Nodup ∧
    (∀ p ∈ resolved2, ∃ it ∈ s.maps, reqRStr it.fieldData.rowyid = p.2.rowyId ∧
      isWebflowMapInfoEqual h p.2 (readWebsiteInfo it.fieldData) = true) ∧
    (∀ it ∈ s.maps, jsHas resolved2 (reqRStr it.fieldData.rowyid) = true)

/-- A synced destination makes the next non-dry run free of create, update
and delete calls, and it succeeds. -/
theorem second_run_noop (h enc : String → String)
    (derive : MapInfo → MapMeta → DerivedInfo) (src : SyncSources) (s : Server)
    (hs : Synced h enc derive src s) :
    ((syncCommand h enc derive src s false).trace).filter WfCall.isCUD = [] ∧
    (syncCommand h enc derive src s false).err = none := by
  obtain ⟨mapsInfo, tagsInfo, resolved1, resolved2, hbuild, htSlugN, htCover, htOnly,
    hterSlugN, hterCover, hterOnly, hres1, hres2, hmKeyN, hmCover, hmOnly⟩ := hs
  have htagsEq : getAllWebflowMapTags s.tags = s.tags.map tagEntry :=
    getAllWebflowMapTags_nodup s.tags htSlugN
  have hterEq : getAllWebflowMapTags s.terrains = s.terrains.map tagEntry :=
    getAllWebflowMapTags_nodup s.terrains hterSlugN
  have hmapsEq : getAllWebflowMaps s.maps = s.maps.map mapEntry :=
    getAllWebflowMaps_nodup s.maps hmKeyN
  have htaNoop : syncTagAdditionsGo isWebsiteMapTagEqual .tags false tagsInfo
      (s.tags.map tagEntry) s = ⟨s.tags.map tagEntry, s, [], none⟩ := by
    apply syncTagAdditionsGo_noop
    intro p hp
    rcases htCover p hp with ⟨it, hit, hname, hslug⟩
    refine ⟨WebflowMapTag.ofItem it, ?_, ?_⟩
    · refine jsGet_of_mem_nodup (by rw [List.map_map]; exact htSlugN) ?_
      rw [← hslug]
      exact List.mem_map_of_mem tagEntry hit
    · simp [isWebsiteMapTagEqual, WebflowMapTag.ofItem, hname, hslug]
  have hteNoop : syncTagAdditionsGo isWebsiteMapTerrainEqual .terrains false
      getRowyMapTerrains (s.terrains.map tagEntry) s =
      ⟨s.terrains.map tagEntry, s, [], none⟩ := by
    apply syncTagAdditionsGo_noop
    intro p hp
    rcases hterCover p hp with ⟨it, hit, hname, hslug⟩
    refine ⟨WebflowMapTag.ofItem it, ?_, ?_⟩
    · refine jsGet_of_mem_nodup (by rw [List.map_map]; exact hterSlugN) ?_
      rw [← hslug]
      exact List.mem_map_of_mem tagEntry hit
    · simp [isWebsiteMapTerrainEqual, WebflowMapTag.ofItem, hname, hslug]
  have hms : syncMapsToWebflow h resolved2 (s.maps.map mapEntry) s false =
      ⟨s.maps.map mapEntry, s, [], none⟩ := by
    have hpres : ∀ p ∈ resolved2, ∃ wm,
        jsGet (s.maps.map mapEntry) p.2.rowyId = some wm ∧
        isWebflowMapInfoEqual h p.2 wm.toWebsiteMapInfo = true := by
      intro p hp
      rcases hmCover p hp with ⟨it, hit, hkey, heqm⟩
      refine ⟨WebflowMapInfo.ofItem it, ?_, ?_⟩
      · refine jsGet_of_mem_nodup (by rw [List.map_map]; exact hmKeyN) ?_
        rw [← hkey]
        exact List.mem_map_of_mem mapEntry hit
      · exact heqm
    obtain ⟨L, hp1, hallL⟩ :=
      syncMapsAdditionsGo_noop h resolved2 (s.maps.map mapEntry) s [] hpres
    have hp2 : syncMapsRemovalsGo false resolved2 (s.maps.map mapEntry)
        (s.maps.map mapEntry) s = (s.maps.map mapEntry, s, []) := by
      apply syncMapsRemovalsGo_noop
      intro e he
      rcases List.mem_map.mp he with ⟨it, hit, hei⟩
      rw [← hei]
      exact hmOnly it hit
    have hp3 : syncMapsUpdatesGo h false ([] ++ L) (s.maps.map mapEntry) s =
        ⟨s.maps.map mapEntry, s, [], none⟩ :=
      syncMapsUpdatesGo_noop h ([] ++ L) (s.maps.map mapEntry) s
        (fun t ht => hallL t ht)
    unfold syncMapsToWebflow
    simp only []
    rw [hp1]
    simp only []
    rw [hp2]
    simp only []
    rw [hp3]
    rfl
  have htrNoop : ∀ s2 : Server, syncTagRemovalsGo .tags false tagsInfo
      (s.tags.map tagEntry) (s.tags.map tagEntry) s2 =
      ⟨s.tags.map tagEntry, s2, [], none⟩ := by
    intro s2
    apply syncTagRemovalsGo_noop
    intro e he
    rcases List.mem_map.mp he with ⟨it, hit, hei⟩
    rw [← hei]
    exact htOnly it hit
  have hterRemNoop : ∀ s2 : Server, syncTagRemovalsGo .terrains false
      getRowyMapTerrains (s.terrains.map tagEntry) (s.terrains.map tagEntry) s2 =
      ⟨s.terrains.map tagEntry, s2, [], none⟩ := by
    intro s2
    apply syncTagRemovalsGo_noop
    intro e he
    rcases List.mem_map.mp he with ⟨it, hit, hei⟩
    rw [← hei]
    exact hterOnly it hit
  have hrun : syncCommand h enc derive src s false =
      ⟨(publishPhase .maps ((s.maps.map mapEntry).map (fun p => p.2.item))
          (publishPhase .tags ((s.tags.map tagEntry).map (fun p => p.2.item))
            (publishPhase .terrains ((s.terrains.map tagEntry).map (fun p => p.2.item))
              s false).1 false).1 false).1,
        ([] ++ [] ++ [] ++
          (publishPhase .terrains ((s.terrains.map tagEntry).map (fun p => p.2.item))
            s false).2 ++
          (publishPhase .tags ((s.tags.map tagEntry).map (fun p => p.2.item))
            (publishPhase .terrains ((s.terrains.map tagEntry).map (fun p => p.2.item))
              s false).1 false).2 ++
          (publishPhase .maps ((s.maps.map mapEntry).map (fun p => p.2.item))
            (publishPhase .tags ((s.tags.map tagEntry).map (fun p => p.2.item))
              (publishPhase .terrains ((s.terrains.map tagEntry).map (fun p => p.2.item))
                s false).1 false).1 false).2) ++ ([] ++ []),
        none⟩ := by
    unfold syncCommand syncCollectionToWebflowAdditions syncCollectionToWebflowRemovals
    simp only []
    rw [htagsEq, hterEq, hmapsEq, hbuild]
    simp only []
    rw [htaNoop]
    simp only []
    rw [hres1]
    simp only []
    rw [hteNoop]
    simp only []
    rw [hres2]
    simp only []
    rw [hms]
    simp only []
    rw [htrNoop]
    simp only []
    rw [hterRemNoop]
  rw [hrun]
  refine ⟨?_, rfl⟩
  simp [List.filter_append, publishPhase_trace_cudFree]

/-! ## C1: the collections left by a successful run -/

theorem tagColl_final_synced (vocab : List (String × WebsiteMapTag))
    (hkeyed : ∀ p ∈ vocab, p.2.slug = p.1)
    (coll1 collP : List (Item TagFields))
    (hcores : itemCores collP = itemCores coll1)
    (hsN : (coll1.map (fun it => it.fieldData.slug)).Nodup)
    (hiN : (coll1.map (fun it => it.id)).Nodup)
    (hcover : ∀ p ∈ vocab, ∃ it, it.fieldData.name = p.2.name ∧
      it.fieldData.slug = p.2.slug ∧
      jsGet (coll1.map tagEntry) p.2.slug = some (WebflowMapTag.ofItem it)) :
    collP.filter (fun it => (coll1.map tagEntry).all
        (fun e => jsHas vocab e.2.slug || e.2.item.id != it.id)) =
      collP.filter (fun it => jsHas vocab it.fieldData.slug) ∧
    ((collP.filter (fun it => jsHas vocab it.fieldData.slug)).map
      (fun it => it.fieldData.slug)).Nodup ∧
    (∀ p ∈ vocab, ∃ it ∈ collP.filter (fun it => jsHas vocab it.fieldData.slug),
      it.fieldData.name = p.2.name ∧ it.fieldData.slug = p.2.slug) ∧
    (∀ it ∈ collP.filter (fun it => jsHas vocab it.fieldData.slug),
      jsHas vocab it.fieldData.slug = true) ∧
    (∀ r, jsHas vocab r = true →
      Option.map (fun t => t.item.id)
        (jsGet ((collP.filter (fun it =>
          jsHas vocab it.fieldData.slug)).map tagEntry) r) =
      Option.map (fun t => t.item.id) (jsGet (coll1.map tagEntry) r)) := by
  have hslugsP : collP.map (fun it => it.fieldData.slug) =
      coll1.map (fun it => it.fieldData.slug) := by
    have h1 := cores_proj (fun _ fd => fd.slug) collP
    have h2 := cores_proj (fun _ fd => fd.slug) coll1
    rw [← h1, ← h2, hcores]
  have hsNP : (collP.map (fun it => it.fieldData.slug)).Nodup := by
    rw [hslugsP]
    exact hsN
  have hfinN : ((collP.filter (fun it => jsHas vocab it.fieldData.slug)).map
      (fun it => it.fieldData.slug)).Nodup :=
    List.Nodup.sublist (List.Sublist.map _ (List.filter_sublist collP)) hsNP
  have hmemc : ∀ (k : String) (it : Item TagFields),
      jsGet (coll1.map tagEntry) k = some (WebflowMapTag.ofItem it) →
      it ∈ coll1 := by
    intro k it hget
    have hment := jsGet_eq_some_mem hget
    rcases List.mem_map.mp hment with ⟨it0, hit0, hent⟩
    have hth : WebflowMapTag.ofItem it0 = WebflowMapTag.ofItem it :=
      congrArg Prod.snd hent
    have hii : it0 = it := congrArg WebflowMapTag.item hth
    rw [← hii]
    exact hit0
  refine ⟨?_, hfinN, ?_, ?_, ?_⟩
  · apply List.filter_congr
    intro it hit
    exact tag_removals_pred_collapse vocab coll1 collP hcores hiN it hit
  · intro p hp
    rcases hcover p hp with ⟨it, hname, hslug, hget⟩
    have hmem1 : it ∈ coll1 := hmemc _ it hget
    rcases cores_mem hcores.symm hmem1 with ⟨itP, hitP, hid, hfd⟩
    refine ⟨itP, List.mem_filter.mpr ⟨hitP, ?_⟩, ?_, ?_⟩
    · rw [hfd, hslug, hkeyed p hp]
      exact jsHas_true_iff.mpr ⟨p, hp, rfl⟩
    · rw [hfd]
      exact hname
    · rw [hfd]
      exact hslug
  · intro it hit
    exact (List.mem_filter.mp hit).2
  · intro r hr
    rcases jsHas_true_iff.mp hr with ⟨q, hq, hqk⟩
    rcases hcover q hq with ⟨it, hname, hslug, hget⟩
    rw [hkeyed q hq, hqk] at hget
    have hslr : it.fieldData.slug = r := by rw [hslug, hkeyed q hq, hqk]
    have hmem1 : it ∈ coll1 := hmemc r it hget
    rcases cores_mem hcores.symm hmem1 with ⟨itP, hitP, hid, hfd⟩
    have hitPf : itP ∈ collP.filter (fun it => jsHas vocab it.fieldData.slug) :=
      List.mem_filter.mpr ⟨hitP, by rw [hfd, hslr]; exact hr⟩
    have hgetP : jsGet ((collP.filter (fun it =>
        jsHas vocab it.fieldData.slug)).map tagEntry) r =
        some (WebflowMapTag.ofItem itP) := by
      apply jsGet_of_mem_nodup
      · rw [List.map_map]
        exact hfinN
      · have hte : tagEntry itP = (r, WebflowMapTag.ofItem itP) := by
          unfold tagEntry
          rw [hfd, hslr]
        rw [← hte]
        exact List.mem_map_of_mem tagEntry hitPf
    rw [hgetP, hget]
    simp only [Option.map_some']
    rw [show (WebflowMapTag.ofItem itP).item.id = itP.id from rfl,
      show (WebflowMapTag.ofItem it).item.id = it.id from rfl, hid]

theorem mapColl_final_synced (h : String → String)
    (src : List (String × WebsiteMapInfo))
    (collU collP : List (Item WebflowMapFieldsRead))
    (hcores : itemCores collP = itemCores collU)
    (hkN : (collU.map (fun it => reqRStr it.fieldData.rowyid)).Nodup)
    (hcov : ∀ p ∈ src, ∃ it ∈ collU, reqRStr it.fieldData.rowyid = p.2.rowyId ∧
      isWebflowMapInfoEqual h p.2 (readWebsiteInfo it.fieldData) = true)
    (honly : ∀ it ∈ collU, jsHas src (reqRStr it.fieldData.rowyid) = true) :
    ((collP.map (fun it => reqRStr it.fieldData.rowyid)).Nodup) ∧
    (∀ p ∈ src, ∃ it ∈ collP, reqRStr it.fieldData.rowyid = p.2.rowyId ∧
      isWebflowMapInfoEqual h p.2 (readWebsiteInfo it.fieldData) = true) ∧
    (∀ it ∈ collP, jsHas src (reqRStr it.fieldData.rowyid) = true) := by
  have hkk : collP.map (fun it => reqRStr it.fieldData.rowyid) =
      collU.map (fun it => reqRStr it.fieldData.rowyid) := by
    have h1 := cores_proj (fun _ fd => reqRStr fd.rowyid) collP
    have h2 := cores_proj (fun _ fd => reqRStr fd.rowyid) collU
    rw [← h1, ← h2, hcores]
  refine ⟨by rw [hkk]; exact hkN, ?_, ?_⟩
  · intro p hp
    rcases hcov p hp with ⟨it, hit, hkey, heqv⟩
    rcases cores_mem hcores.symm hit with ⟨itP, hitP, hid, hfd⟩
    exact ⟨itP, hitP, by rw [hfd]; exact hkey, by rw [hfd]; exact heqv⟩
  · intro it hit
    rcases cores_mem hcores hit with ⟨itU, hitU, hid, hfd⟩
    rw [show it.fieldData = itU.fieldData from hfd.symm]
    exact honly itU hitU

theorem map_removals_dest_eq (src : List (String × WebsiteMapInfo))
    (coll : List (Item WebflowMapFieldsRead))
    (hrk : (coll.map (fun it => reqRStr it.fieldData.rowyid)).Nodup)
    (hik : (coll.map (fun it => it.id)).Nodup) :
    (coll.map mapEntry).filter (fun en => (coll.map mapEntry).all
        (fun e => jsHas src e.2.rowyId || en.1 != e.2.rowyId)) =
      (coll.filter (fun it =>
        jsHas src (reqRStr it.fieldData.rowyid))).map mapEntry ∧
    coll.filter (fun it => (coll.map mapEntry).all
        (fun e => jsHas src e.2.rowyId || it.id != e.2.item.id)) =
      coll.filter (fun it => jsHas src (reqRStr it.fieldData.rowyid)) := by
  constructor
  · rw [filter_map_comm]
    congr 1
    apply List.filter_congr
    intro it hit
    exact map_removals_pred_collapse_key src coll hrk it hit
  · apply List.filter_congr
    intro it hit
    exact map_removals_pred_collapse src coll hik it hit

/-- A successful non-dry sync run from a well-formed destination leaves the
server synced with the sources. -/
theorem synced_after_run (h enc : String → String)
    (derive : MapInfo → MapMeta → DerivedInfo) (src : SyncSources) (s0 : Server)
    (hTagSlugN : (s0.tags.map (fun it => it.fieldData.slug)).Nodup)
    (hTagIdN : (s0.tags.map (fun it => it.id)).Nodup)
    (hTerSlugN : (s0.terrains.map (fun it => it.fieldData.slug)).Nodup)
    (hTerIdN : (s0.terrains.map (fun it => it.id)).Nodup)
    (hMapKeyN : (s0.maps.map (fun it => reqRStr it.fieldData.rowyid)).Nodup)
    (hMapIdN : (s0.maps.map (fun it => it.id)).Nodup)
    (hAssets : ∀ it ∈ s0.maps, fdAssetsWf it.fieldData)
    (href : ∀ mapsInfo tagsInfo,
      buildWebflowInfo enc derive src.maps src.cdnInfo src.mapsMetadata =
        .ok (mapsInfo, tagsInfo) →
      ∀ p ∈ mapsInfo, (∀ r ∈ p.2.mapTags, jsHas tagsInfo r = true) ∧
        (∀ r ∈ p.2.mapTerrains, jsHas getRowyMapTerrains r = true))
    (hrun : (syncCommand h enc derive src s0 false).err = none) :
    Synced h enc derive src (syncCommand h enc derive src s0 false).server := by
  have heqTag : ∀ t wt, isWebsiteMapTagEqual t wt = true ↔
      (wt.name = t.name ∧ wt.slug = t.slug) := by
    intro t wt
    unfold isWebsiteMapTagEqual
    rw [Bool.and_eq_true, beq_iff_eq, beq_iff_eq]
    exact ⟨fun hp => ⟨hp.1.symm, hp.2.symm⟩, fun hp => ⟨hp.1.symm, hp.2.symm⟩⟩
  have heqTer : ∀ t wt, isWebsiteMapTerrainEqual t wt = true ↔
      (wt.name = t.name ∧ wt.slug = t.slug) := by
    intro t wt
    unfold isWebsiteMapTerrainEqual
    rw [Bool.and_eq_true, beq_iff_eq, beq_iff_eq]
    exact ⟨fun hp => ⟨hp.1.symm, hp.2.symm⟩, fun hp => ⟨hp.1.symm, hp.2.symm⟩⟩
  revert hrun
  unfold syncCommand syncCollectionToWebflowAdditions syncCollectionToWebflowRemovals
  simp only []
  rw [getAllWebflowMapTags_nodup s0.tags hTagSlugN,
    getAllWebflowMapTags_nodup s0.terrains hTerSlugN,
    getAllWebflowMaps_nodup s0.maps hMapKeyN]
  cases hbuild : buildWebflowInfo enc derive src.maps src.cdnInfo src.mapsMetadata with
  | error e =>
    simp only []
    exact fun hcon => Option.noConfusion hcon
  | ok pr =>
  rcases pr with ⟨mapsInfo, tagsInfo⟩
  simp only []
  have hrefs := href mapsInfo tagsInfo hbuild
  obtain ⟨hMprops, hMkN, hTkeyed, hTkN⟩ :=
    buildWebflowInfoGo_run enc derive src.cdnInfo src.mapsMetadata src.maps
      [] [] mapsInfo tagsInfo
      (fun p hp => absurd hp (List.not_mem_nil p)) List.nodup_nil
      (fun p hp => absurd hp (List.not_mem_nil p)) List.nodup_nil hbuild
  generalize hta : syncTagAdditionsGo isWebsiteMapTagEqual WfColl.tags false
    tagsInfo (List.map tagEntry s0.tags) s0 = ta
  rcases ta with ⟨taDest, taSrv, taTrace, taErr⟩
  cases taErr with
  | some e =>
    simp only []
    exact fun hcon => Option.noConfusion hcon
  | none =>
  simp only []
  obtain ⟨A1, A2, A3, A4, A5, A6, A7⟩ :=
    syncTagAdditionsGo_run isWebsiteMapTagEqual WfColl.tags (by decide) heqTag
      tagsInfo s0 ⟨taDest, taSrv, taTrace, none⟩ hTagSlugN hTagIdN
      (fun p hp => (hTkeyed p hp).symm) hTkN hta rfl
  have A1' : taDest = (taSrv.tagColl WfColl.tags).map tagEntry := A1
  cases hres1 : resolveItemRefsInMapInfos mapsInfo RefField.mapTags taDest false with
  | error e =>
    simp only []
    exact fun hcon => Option.noConfusion hcon
  | ok resolved1 =>
  simp only []
  have hTer0 : taSrv.tagColl WfColl.terrains = s0.tagColl WfColl.terrains :=
    A5 WfColl.terrains (by decide)
  generalize hte : syncTagAdditionsGo isWebsiteMapTerrainEqual WfColl.terrains false
    getRowyMapTerrains (List.map tagEntry s0.terrains) taSrv = te
  rcases te with ⟨teDest, teSrv, teTrace, teErr⟩
  cases teErr with
  | some e =>
    simp only []
    exact fun hcon => Option.noConfusion hcon
  | none =>
  simp only []
  have hte2 : syncTagAdditionsGo isWebsiteMapTerrainEqual WfColl.terrains false
      getRowyMapTerrains ((taSrv.tagColl WfColl.terrains).map tagEntry) taSrv =
      ⟨teDest, teSrv, teTrace, none⟩ := by
    rw [hTer0]
    exact hte
  obtain ⟨B1, B2, B3, B4, B5, B6, B7⟩ :=
    syncTagAdditionsGo_run isWebsiteMapTerrainEqual WfColl.terrains (by decide)
      heqTer getRowyMapTerrains taSrv ⟨teDest, teSrv, teTrace, none⟩
      (by rw [hTer0]; exact hTerSlugN) (by rw [hTer0]; exact hTerIdN)
      (fun p hp => (getRowyMapTerrains_keyed p hp).1)
      getRowyMapTerrains_keys_nodup hte2 rfl
  have B1' : teDest = (teSrv.tagColl WfColl.terrains).map tagEntry := B1
  cases hres2 : resolveItemRefsInMapInfos resolved1 RefField.mapTerrains teDest false with
  | error e =>
    simp only []
    exact fun hcon => Option.noConfusion hcon
  | ok resolved2 =>
  simp only []
  have hok1 := resolveItemRefsInMapInfos_ok_eq mapsInfo RefField.mapTags taDest
    resolved1 hres1
  have hok2 := resolveItemRefsInMapInfos_ok_eq resolved1 RefField.mapTerrains teDest
    resolved2 hres2
  have hR2keyed : ∀ p ∈ resolved2, p.2.rowyId = p.1 := by
    intro p hp
    rw [hok2] at hp
    rcases List.mem_map.mp hp with ⟨q, hq, hqe⟩
    rw [hok1] at hq
    rcases List.mem_map.mp hq with ⟨p0, hp0, hp0e⟩
    rw [← hqe]
    simp only []
    rw [setRefField_rowyId]
    rw [← hp0e]
    simp only []
    rw [setRefField_rowyId]
    exact (hMprops p0 hp0).1
  have hR2ready : ∀ p ∈ resolved2, infoReady p.2 := by
    intro p hp
    rw [hok2] at hp
    rcases List.mem_map.mp hp with ⟨q, hq, hqe⟩
    rw [hok1] at hq
    rcases List.mem_map.mp hq with ⟨p0, hp0, hp0e⟩
    rw [← hqe]
    simp only []
    apply setRefField_infoReady
    rw [← hp0e]
    simp only []
    apply setRefField_infoReady
    exact (hMprops p0 hp0).2
  have hR2kN : (resolved2.map Prod.fst).Nodup := by
    rw [hok2, hok1, List.map_map, List.map_map]
    exact hMkN
  have hA4' : taSrv.maps = s0.maps := A4
  have hB4' : teSrv.maps = taSrv.maps := B4
  have hMs0 : teSrv.maps = s0.maps := by rw [hB4', hA4']
  unfold syncMapsToWebflow
  simp only []
  generalize hp1 : syncMapsAdditionsGo h false resolved2
    (List.map mapEntry s0.maps) teSrv [] = p1
  rcases p1 with ⟨aDest, aSrv, aTrace, aUps⟩
  simp only []
  have hp1b : syncMapsAdditionsGo h false resolved2 ((teSrv.maps).map mapEntry)
      teSrv [] = (aDest, aSrv, aTrace, aUps) := by
    rw [hMs0]
    exact hp1
  obtain ⟨B1m, B2m, B3m, B4m, B5m, B6m, nt, C1m, C2m, C3m, C4m, C5m⟩ :=
    syncMapsAdditionsGo_run h resolved2 teSrv [] (aDest, aSrv, aTrace, aUps)
      (by rw [hMs0]; exact hMapKeyN) (by rw [hMs0]; exact hMapIdN)
      hR2keyed hR2kN hR2ready hp1b
  have B1m' : aDest = aSrv.maps.map mapEntry := B1m
  have C1m' : aUps = [] ++ nt := C1m
  have B4m' : aSrv.tags = teSrv.tags := B4m
  have B5m' : aSrv.terrains = teSrv.terrains := B5m
  generalize hp2 : syncMapsRemovalsGo false resolved2 aDest aDest aSrv = p2
  rcases p2 with ⟨rDest, rSrv, rTrace⟩
  simp only []
  obtain ⟨hremSrv0, hremDest0⟩ := syncMapsRemovalsGo_run resolved2 aDest aDest aSrv
  rw [hp2] at hremSrv0 hremDest0
  have hremSrv : rSrv = { aSrv with maps := aSrv.maps.filter (fun it =>
      aDest.all (fun e => jsHas resolved2 e.2.rowyId || it.id != e.2.item.id)) } :=
    hremSrv0
  have hremDest : rDest = aDest.filter (fun en =>
      aDest.all (fun e => jsHas resolved2 e.2.rowyId || en.1 != e.2.rowyId)) :=
    hremDest0
  rw [B1m'] at hremSrv hremDest
  obtain ⟨hdeq, hseq⟩ := map_removals_dest_eq resolved2 aSrv.maps B2m B3m
  rw [hdeq] at hremDest
  rw [hseq] at hremSrv
  have hrSm : rSrv.maps = aSrv.maps.filter (fun it =>
      jsHas resolved2 (reqRStr it.fieldData.rowyid)) := by
    rw [hremSrv]
  have hrSt : rSrv.tags = aSrv.tags := by rw [hremSrv]
  have hrSter : rSrv.terrains = aSrv.terrains := by rw [hremSrv]
  have hrkN : (rSrv.maps.map (fun it => reqRStr it.fieldData.rowyid)).Nodup := by
    rw [hrSm]
    exact List.Nodup.sublist (List.Sublist.map _ (List.filter_sublist _)) B2m
  have hriN : (rSrv.maps.map (fun it => it.id)).Nodup := by
    rw [hrSm]
    exact List.Nodup.sublist (List.Sublist.map _ (List.filter_sublist _)) B3m
  have hrdest : rDest = rSrv.maps.map mapEntry := by
    rw [hremDest, hrSm]
  generalize hp3 : syncMapsUpdatesGo h false aUps rDest rSrv = p3
  rcases p3 with ⟨uDest, uSrv, uTrace, uErr⟩
  cases uErr with
  | some e =>
    simp only []
    exact fun hcon => Option.noConfusion hcon
  | none =>
  simp only []
  intro _hr
  have hntN : (aUps.map (fun trip => trip.2.1.rowyId)).Nodup := by
    rw [C1m']
    exact C2m
  have hment : ∀ trip ∈ aUps, ∃ it ∈ rSrv.maps,
      mapEntry it = (trip.2.1.rowyId, trip.2.2) := by
    intro trip htrip
    rw [C1m'] at htrip
    rcases (C4m trip htrip).2.2 with ⟨it, hit, hient⟩
    refine ⟨it, ?_, hient⟩
    rw [hrSm]
    refine List.mem_filter.mpr ⟨B6m it hit, ?_⟩
    show jsHas resolved2 (reqRStr it.fieldData.rowyid) = true
    have hkey : reqRStr it.fieldData.rowyid = trip.2.1.rowyId :=
      congrArg Prod.fst hient
    rw [hkey]
    rcases List.mem_map.mp (C3m trip htrip) with ⟨q, hq, hqe⟩
    exact jsHas_true_iff.mpr ⟨q, hq, hqe⟩
  have heqd : ∀ trip ∈ aUps,
      trip.1 = isWebflowMapInfoEqual h trip.2.1 trip.2.2.toWebsiteMapInfo := by
    intro trip htrip
    rw [C1m'] at htrip
    exact (C4m trip htrip).1
  have hready : ∀ trip ∈ aUps, infoReady trip.2.1 := by
    intro trip htrip
    rw [C1m'] at htrip
    exact (C4m trip htrip).2.1
  have hwf : ∀ trip ∈ aUps, fdAssetsWf trip.2.2.item.fieldData := by
    intro trip htrip
    rw [C1m'] at htrip
    rcases (C4m trip htrip).2.2 with ⟨it, hit, hient⟩
    have hsnd : WebflowMapInfo.ofItem it = trip.2.2 := congrArg Prod.snd hient
    have hitem : trip.2.2.item = it := by
      rw [← hsnd]
      rfl
    rw [hitem]
    apply hAssets
    rw [← hMs0]
    exact hit
  obtain ⟨U1, U2, U3, U4, U5, U6, U7, U8⟩ :=
    syncMapsUpdatesGo_run h aUps rSrv rDest ⟨uDest, uSrv, uTrace, none⟩
      hrdest hrkN hriN hntN hment heqd hready hwf hp3
  have U1' : uDest = uSrv.maps.map mapEntry := U1
  have U2' : uSrv.tags = rSrv.tags := U2
  have U3' : uSrv.terrains = rSrv.terrains := U3
  have U5' : uSrv.maps.map (fun it => reqRStr it.fieldData.rowyid) =
      rSrv.maps.map (fun it => reqRStr it.fieldData.rowyid) := U5
  have huTags : uSrv.tags = taSrv.tagColl WfColl.tags := by
    rw [U2', hrSt, B4m']
    exact B5 WfColl.tags (by decide)
  have huTer : uSrv.terrains = teSrv.tagColl WfColl.terrains := by
    rw [U3', hrSter, B5m']
    rfl
  generalize hsP : (publishPhase WfColl.maps (List.map (fun p => p.2.item) uDest)
    (publishPhase WfColl.tags (List.map (fun p => p.2.item) taDest)
      (publishPhase WfColl.terrains (List.map (fun p => p.2.item) teDest)
        uSrv false).1 false).1 false).1 = sP
  have hc1 := publishPhase_cores WfColl.terrains
    (List.map (fun p => p.2.item) teDest) uSrv
  have hc2 := publishPhase_cores WfColl.tags
    (List.map (fun p => p.2.item) taDest)
    (publishPhase WfColl.terrains (List.map (fun p => p.2.item) teDest)
      uSrv false).1
  have hc3 := publishPhase_cores WfColl.maps
    (List.map (fun p => p.2.item) uDest)
    (publishPhase WfColl.tags (List.map (fun p => p.2.item) taDest)
      (publishPhase WfColl.terrains (List.map (fun p => p.2.item) teDest)
        uSrv false).1 false).1
  rw [hsP] at hc3
  have hPmaps : itemCores sP.maps = itemCores uSrv.maps := by
    rw [hc3.1, hc2.1, hc1.1]
  have hPtags : itemCores sP.tags = itemCores uSrv.tags := by
    rw [hc3.2.1, hc2.2.1, hc1.2.1]
  have hPter : itemCores sP.terrains = itemCores uSrv.terrains := by
    rw [hc3.2.2, hc2.2.2, hc1.2.2]
  obtain ⟨htrS, htrE⟩ := syncTagRemovalsGo_run WfColl.tags (by decide) tagsInfo
    taDest taDest sP
  rw [htrS]
  generalize hs1 : sP.setTagColl WfColl.tags ((sP.tagColl WfColl.tags).filter
    (fun it => taDest.all (fun e =>
      jsHas tagsInfo e.2.slug || e.2.item.id != it.id))) = s1
  have hs1tags : s1.tagColl WfColl.tags = (sP.tagColl WfColl.tags).filter
      (fun it => taDest.all (fun e =>
        jsHas tagsInfo e.2.slug || e.2.item.id != it.id)) := by
    rw [← hs1]
    exact tagColl_set_same sP WfColl.tags _ (by decide)
  have hs1ter : s1.tagColl WfColl.terrains = sP.tagColl WfColl.terrains := by
    rw [← hs1]
    exact tagColl_set_other sP WfColl.tags WfColl.terrains _ (by decide)
  have hs1maps : s1.maps = sP.maps := by
    rw [← hs1]
    exact setTagColl_maps sP WfColl.tags _
  obtain ⟨hterS, hterE⟩ := syncTagRemovalsGo_run WfColl.terrains (by decide)
    getRowyMapTerrains teDest teDest s1
  rw [hterS]
  generalize hs2 : s1.setTagColl WfColl.terrains ((s1.tagColl WfColl.terrains).filter
    (fun it => teDest.all (fun e =>
      jsHas getRowyMapTerrains e.2.slug || e.2.item.id != it.id))) = s2
  have hs2tags : s2.tags = s1.tagColl WfColl.tags := by
    rw [← hs2]
    exact tagColl_set_other s1 WfColl.terrains WfColl.tags _ (by decide)
  have hs2ter : s2.terrains = (s1.tagColl WfColl.terrains).filter
      (fun it => teDest.all (fun e =>
        jsHas getRowyMapTerrains e.2.slug || e.2.item.id != it.id)) := by
    rw [← hs2]
    exact tagColl_set_same s1 WfColl.terrains _ (by decide)
  have hs2maps : s2.maps = s1.maps := by
    rw [← hs2]
    exact setTagColl_maps s1 WfColl.terrains _
  have hTagKeyed : ∀ p ∈ tagsInfo, p.2.slug = p.1 := fun p hp => (hTkeyed p hp).symm
  have hcoresT : itemCores (sP.tagColl WfColl.tags) =
      itemCores (taSrv.tagColl WfColl.tags) := by
    show itemCores sP.tags = _
    rw [hPtags, huTags]
  have hcoverT : ∀ p ∈ tagsInfo, ∃ it, it.fieldData.name = p.2.name ∧
      it.fieldData.slug = p.2.slug ∧
      jsGet ((taSrv.tagColl WfColl.tags).map tagEntry) p.2.slug =
        some (WebflowMapTag.ofItem it) := by
    intro p hp
    rcases A6 p hp with ⟨it, h1, h2, h3⟩
    refine ⟨it, h1, h2, ?_⟩
    rw [← A1']
    exact h3
  obtain ⟨hXeq, hTfinN, hTfinCover, hTfinOnly, hTstab⟩ :=
    tagColl_final_synced tagsInfo hTagKeyed (taSrv.tagColl WfColl.tags)
      (sP.tagColl WfColl.tags) hcoresT A2 A3 hcoverT
  rw [A1'] at hs1tags
  have hs2tagsF : s2.tags = (sP.tagColl WfColl.tags).filter
      (fun it => jsHas tagsInfo it.fieldData.slug) := by
    rw [hs2tags, hs1tags, hXeq]
  have hTerKeyed : ∀ p ∈ getRowyMapTerrains, p.2.slug = p.1 :=
    fun p hp => (getRowyMapTerrains_keyed p hp).1
  have hcoresTer : itemCores (s1.tagColl WfColl.terrains) =
      itemCores (teSrv.tagColl WfColl.terrains) := by
    rw [hs1ter]
    show itemCores sP.terrains = _
    rw [hPter, huTer]
  have hcoverTer : ∀ p ∈ getRowyMapTerrains, ∃ it, it.fieldData.name = p.2.name ∧
      it.fieldData.slug = p.2.slug ∧
      jsGet ((teSrv.tagColl WfColl.terrains).map tagEntry) p.2.slug =
        some (WebflowMapTag.ofItem it) := by
    intro p hp
    rcases B6 p hp with ⟨it, h1, h2, h3⟩
    refine ⟨it, h1, h2, ?_⟩
    rw [← B1']
    exact h3
  obtain ⟨hYeq, hTerfinN, hTerfinCover, hTerfinOnly, hTerstab⟩ :=
    tagColl_final_synced getRowyMapTerrains hTerKeyed
      (teSrv.tagColl WfColl.terrains) (s1.tagColl WfColl.terrains)
      hcoresTer B2 B3 hcoverTer
  rw [B1'] at hs2ter
  have hs2terF : s2.terrains = (s1.tagColl WfColl.terrains).filter
      (fun it => jsHas getRowyMapTerrains it.fieldData.slug) := by
    rw [hs2ter, hYeq]
  have hcoresM : itemCores s2.maps = itemCores uSrv.maps := by
    rw [hs2maps, hs1maps]
    exact hPmaps
  have hUcov : ∀ p ∈ resolved2, ∃ it ∈ uSrv.maps,
      reqRStr it.fieldData.rowyid = p.2.rowyId ∧
      isWebflowMapInfoEqual h p.2 (readWebsiteInfo it.fieldData) = true := by
    intro p hp
    rcases C5m p hp with ⟨trip, htrip, htypEq⟩ | ⟨hnone, it, hitA, hkey, heqv⟩
    · have htripU : trip ∈ aUps := by
        rw [C1m']
        exact htrip
      rcases U7 trip htripU with ⟨it, hit, hk, he⟩
      refine ⟨it, hit, ?_, ?_⟩
      · rw [hk, htypEq]
      · rw [← htypEq]
        exact he
    · have hitR : it ∈ rSrv.maps := by
        rw [hrSm]
        refine List.mem_filter.mpr ⟨hitA, ?_⟩
        show jsHas resolved2 (reqRStr it.fieldData.rowyid) = true
        rw [hkey, hR2keyed p hp]
        exact jsHas_true_iff.mpr ⟨p, hp, rfl⟩
      have hfresh : ∀ trip ∈ aUps, trip.2.1.rowyId ≠ p.2.rowyId := by
        intro trip htrip
        rw [C1m'] at htrip
        exact hnone trip htrip
      have hstab : jsGet uDest p.2.rowyId = jsGet rDest p.2.rowyId :=
        U8 p.2.rowyId hfresh
      have hgetR : jsGet rDest p.2.rowyId = some (WebflowMapInfo.ofItem it) := by
        rw [hrdest]
        apply jsGet_of_mem_nodup
        · rw [List.map_map]
          exact hrkN
        · have hent : mapEntry it = (p.2.rowyId, WebflowMapInfo.ofItem it) := by
            unfold mapEntry
            rw [hkey]
          rw [← hent]
          exact List.mem_map_of_mem mapEntry hitR
      rw [hgetR, U1'] at hstab
      have hment2 := jsGet_eq_some_mem hstab
      rcases List.mem_map.mp hment2 with ⟨it2, hit2, hent2⟩
      have hfst : reqRStr it2.fieldData.rowyid = p.2.rowyId :=
        congrArg Prod.fst hent2
      have hsnd : WebflowMapInfo.ofItem it2 = WebflowMapInfo.ofItem it :=
        congrArg Prod.snd hent2
      have hfd2 : it2.fieldData = it.fieldData := by
        have hii : it2 = it := congrArg WebflowMapInfo.item hsnd
        rw [hii]
      refine ⟨it2, hit2, hfst, ?_⟩
      rw [hfd2]
      exact heqv
  have hUonly : ∀ it ∈ uSrv.maps,
      jsHas resolved2 (reqRStr it.fieldData.rowyid) = true := by
    intro it hit
    have hkmem : reqRStr it.fieldData.rowyid ∈
        uSrv.maps.map (fun it => reqRStr it.fieldData.rowyid) :=
      List.mem_map_of_mem _ hit
    rw [U5'] at hkmem
    rcases List.mem_map.mp hkmem with ⟨it3, hit3, hkey3⟩
    rw [← hkey3]
    rw [hrSm] at hit3
    exact (List.mem_filter.mp hit3).2
  obtain ⟨hMfinN, hMfinCover, hMfinOnly⟩ :=
    mapColl_final_synced h resolved2 uSrv.maps s2.maps hcoresM
      (by rw [U5']; exact hrkN) hUcov hUonly
  have hcongr1 := resolveItemRefsInMapInfos_congr mapsInfo RefField.mapTags
    (((sP.tagColl WfColl.tags).filter (fun it =>
      jsHas tagsInfo it.fieldData.slug)).map tagEntry)
    ((taSrv.tagColl WfColl.tags).map tagEntry)
    (fun p hp r hr => hTstab r ((hrefs p hp).1 r hr))
  have hres1' : resolveItemRefsInMapInfos mapsInfo RefField.mapTags
      (s2.tags.map tagEntry) false = .ok resolved1 := by
    rw [hs2tagsF, hcongr1, ← A1']
    exact hres1
  have hrefs1 : ∀ p ∈ resolved1, ∀ r ∈ p.2.getRefField RefField.mapTerrains,
      jsHas getRowyMapTerrains r = true := by
    intro p hp r hr
    rw [hok1] at hp
    rcases List.mem_map.mp hp with ⟨p0, hp0, hp0e⟩
    have hget : p.2.getRefField RefField.mapTerrains =
        p0.2.getRefField RefField.mapTerrains := by
      rw [← hp0e]
      simp only []
      exact getRef_setRef_other p0.2 RefField.mapTags RefField.mapTerrains _
        (by decide)
    rw [hget] at hr
    exact (hrefs p0 hp0).2 r hr
  have hcongr2 := resolveItemRefsInMapInfos_congr resolved1 RefField.mapTerrains
    (((s1.tagColl WfColl.terrains).filter (fun it =>
      jsHas getRowyMapTerrains it.fieldData.slug)).map tagEntry)
    ((teSrv.tagColl WfColl.terrains).map tagEntry)
    (fun p hp r hr => hTerstab r (hrefs1 p hp r hr))
  have hres2' : resolveItemRefsInMapInfos resolved1 RefField.mapTerrains
      (s2.terrains.map tagEntry) false = .ok resolved2 := by
    rw [hs2terF, hcongr2, ← B1']
    exact hres2
  unfold Synced
  refine ⟨mapsInfo, tagsInfo, resolved1, resolved2, hbuild, ?_, ?_, ?_, ?_, ?_, ?_,
    hres1', hres2', hMfinN, hMfinCover, hMfinOnly⟩
  · rw [hs2tagsF]
    exact hTfinN
  · intro p hp
    rw [hs2tagsF]
    exact hTfinCover p hp
  · intro it hit
    rw [hs2tagsF] at hit
    exact hTfinOnly it hit
  · rw [hs2terF]
    exact hTerfinN
  · intro p hp
    rw [hs2terF]
    exact hTerfinCover p hp
  · intro it hit
    rw [hs2terF] at hit
    exact hTerfinOnly it hit

/-- C1 (corrected): idempotence of reconciliation holds only for
well-formed destinations.  Counterexample to the unconditional claim: a
destination whose tag collection holds two items with the same slug "t"
(and ids "A" and "B").  The first non-dry run succeeds — it deletes only
the duplicate "B", because the live-iteration delete is keyed by slug —
and the second run, with no source changes and no external destination
changes in between, still issues a delete call (for "A"). -/
theorem sync_idempotence_counterexample :
    (syncCommand (fun _ => "d") (fun s => s) cexDerive ⟨[], [], []⟩ cexServer
        false).err = none ∧
    ((syncCommand (fun _ => "d") (fun s => s) cexDerive ⟨[], [], []⟩
        (syncCommand (fun _ => "d") (fun s => s) cexDerive ⟨[], [], []⟩ cexServer
          false).server false).trace).filter WfCall.isCUD =
      [WfCall.deleteItem WfColl.tags "A"] := by decide

/-- C1 (amended): idempotence of reconciliation for well-formed
destinations.  If the destination tag, terrain and map collections have
pairwise-distinct slugs (resp. rowy keys) and item ids, every destination
map's stored asset references are distinct non-imagor handles, every tag
and terrain name referenced by a built canonical record is a key of the
corresponding source vocabulary, and the first non-dry sync run succeeds,
then running the sync again on the resulting destination with unchanged
sources issues zero create, update and delete calls and succeeds. -/
theorem sync_idempotence (h enc : String → String)
    (derive : MapInfo → MapMeta → DerivedInfo) (src : SyncSources) (s0 : Server)
    (hTagSlugN : (s0.tags.map (fun it => it.fieldData.slug)).Nodup)
    (hTagIdN : (s0.tags.map (fun it => it.id)).Nodup)
    (hTerSlugN : (s0.terrains.map (fun it => it.fieldData.slug)).Nodup)
    (hTerIdN : (s0.terrains.map (fun it => it.id)).Nodup)
    (hMapKeyN : (s0.maps.map (fun it => reqRStr it.fieldData.rowyid)).Nodup)
    (hMapIdN : (s0.maps.map (fun it => it.id)).Nodup)
    (hAssets : ∀ it ∈ s0.maps, fdAssetsWf it.fieldData)
    (href : ∀ mapsInfo tagsInfo,
      buildWebflowInfo enc derive src.maps src.cdnInfo src.mapsMetadata =
        .ok (mapsInfo, tagsInfo) →
      ∀ p ∈ mapsInfo, (∀ r ∈ p.2.mapTags, jsHas tagsInfo r = true) ∧
        (∀ r ∈ p.2.mapTerrains, jsHas getRowyMapTerrains r = true))
    (hrun1 : (syncCommand h enc derive src s0 false).err = none) :
    ((syncCommand h enc derive src
        (syncCommand h enc derive src s0 false).server false).trace).filter
      WfCall.isCUD = [] ∧
    (syncCommand h enc derive src
      (syncCommand h enc derive src s0 false).server false).err = none :=
  second_run_noop h enc derive src _
    (synced_after_run h enc derive src s0 hTagSlugN hTagIdN hTerSlugN hTerIdN
      hMapKeyN hMapIdN hAssets href hrun1)

/-- Witness for the amended C1 theorem at a concrete well-formed input. -/
theorem sync_idempotence_witness :
    ((syncCommand (fun _ => "d") (fun s => s)
        (fun _ _ => ⟨none, none, none, none, none, [], []⟩)
        ⟨[], [], []⟩ ⟨[], [], [], 0⟩ false).err = none) ∧
    ((syncCommand (fun _ => "d") (fun s => s)
        (fun _ _ => ⟨none, none, none, none, none, [], []⟩) ⟨[], [], []⟩
        (syncCommand (fun _ => "d") (fun s => s)
          (fun _ _ => ⟨none, none, none, none, none, [], []⟩)
          ⟨[], [], []⟩ ⟨[], [], [], 0⟩ false).server false).trace).filter
      WfCall.isCUD = [] ∧
    (syncCommand (fun _ => "d") (fun s => s)
      (fun _ _ => ⟨none, none, none, none, none, [], []⟩) ⟨[], [], []⟩
      (syncCommand (fun _ => "d") (fun s => s)
        (fun _ _ => ⟨none, none, none, none, none, [], []⟩)
        ⟨[], [], []⟩ ⟨[], [], [], 0⟩ false).server false).err = none :=
  ⟨by decide,
   (sync_idempotence (fun _ => "d") (fun s => s)
     (fun _ _ => ⟨none, none, none, none, none, [], []⟩) ⟨[], [], []⟩
     ⟨[], [], [], 0⟩ (by decide) (by decide) (by decide) (by decide) (by decide)
     (by decide) (fun it hit => absurd hit (List.not_mem_nil it))
     (fun mI tI hb => by
       have hb2 : (Except.ok ([], []) :
           Except String (List (String × WebsiteMapInfo) ×
             List (String × WebsiteMapTag))) = .ok (mI, tI) := hb
       injection hb2 with hb3
       injection hb3 with hm ht
       rw [← hm]
       exact fun p hp => absurd hp (List.not_mem_nil p))
     (by decide)).1,
   (sync_idempotence (fun _ => "d") (fun s => s)
     (fun _ _ => ⟨none, none, none, none, none, [], []⟩) ⟨[], [], []⟩
     ⟨[], [], [], 0⟩ (by decide) (by decide) (by decide) (by decide) (by decide)
     (by decide) (fun it hit => absurd hit (List.not_mem_nil it))
     (fun mI tI hb => by
       have hb2 : (Except.ok ([], []) :
           Except String (List (String × WebsiteMapInfo) ×
             List (String × WebsiteMapTag))) = .ok (mI, tI) := hb
       injection hb2 with hb3
       injection hb3 with hm ht
       rw [← hm]
       exact fun p hp => absurd hp (List.not_mem_nil p))
     (by decide)).2⟩

end SyncWebflow
